import Mathlib

/-!
# kubepods: a shallow embedding of the CoreDNS `kubepods` plugin

The development follows the Go sources `setup.go` (the address codec, the index
functions) and `kubepods.go` (the handler).  Go strings are Lean strings, read character
by character (DNS names and IP literals are ASCII, where bytes and characters agree); Go
integers are `Nat`/`Int`.

The definitions come first: the library functions the plugin calls (`strings`, `net` as
of its `netip` parsers, `miekg/dns`, `coredns/plugin`), the data model, the plugin itself,
and the notions the statements use.  The theorems follow.
-/

namespace kubepods

/-! ## Package `strings` -/

/-- Go `strings.Count(s, c)` for a one-byte separator `c`. -/
def Count (s : String) (c : Char) : Nat := s.data.count c

/-- Substring test on character lists: `sub` occurs somewhere in the list. -/
def containsChars : List Char → List Char → Bool
  | [], sub => sub.isEmpty
  | c :: t, sub => sub.isPrefixOf (c :: t) || containsChars t sub

/-- Go `strings.Contains(s, sub)`. -/
def Contains (s sub : String) : Bool := containsChars s.data sub.data

/-- Replacement of every `old` by `new` in a character list. -/
def replaceChars (old new : Char) (l : List Char) : List Char :=
  l.map fun c => if c = old then new else c

/-- Go `strings.ReplaceAll(s, old, new)` for one-byte `old` and `new`. -/
def ReplaceAll (s : String) (old new : Char) : String := ⟨replaceChars old new s.data⟩

/-- Go `strings.HasSuffix`. -/
def HasSuffix (s suffix : String) : Bool := suffix.data.isSuffixOf s.data

/-- Go `strings.TrimSuffix`. -/
def TrimSuffix (s suffix : String) : String :=
  if HasSuffix s suffix then ⟨s.data.take (s.data.length - suffix.data.length)⟩ else s

/-- Pieces of a character list between occurrences of `sep`; `cur` is the piece being
read, in reverse. -/
def splitOnChar (sep : Char) : List Char → List Char → List (List Char)
  | [], cur => [cur.reverse]
  | c :: t, cur =>
    if c = sep then cur.reverse :: splitOnChar sep t [] else splitOnChar sep t (c :: cur)

/-- Go `strings.Split(s, sep)` for a one-byte separator. -/
def Split (s : String) (sep : Char) : List String :=
  (splitOnChar sep s.data []).map String.mk

/-- Go `strings.Join(elems, sep)`. -/
def Join (elems : List String) (sep : String) : String := sep.intercalate elems

/-- Go `strings.ToLower` on ASCII text. -/
def ToLower (s : String) : String := ⟨s.data.map Char.toLower⟩

/-- Go `len(s)`. -/
def len (s : String) : Nat := s.data.length

/-- Go slice expression `s[lo:hi]`; `none` stands for the run-time panic on bad bounds. -/
def slice (s : String) (lo hi : Int) : Option String :=
  if 0 ≤ lo ∧ lo ≤ hi ∧ hi ≤ (len s : Int) then
    some ⟨(s.data.drop lo.toNat).take (hi.toNat - lo.toNat)⟩
  else none

/-- Go slice expression `s[lo:]`. -/
def sliceFrom (s : String) (lo : Int) : Option String := slice s lo (len s)

/-! ## Package `net` -/

/-- Go `net.IP`: a slice of bytes. -/
abbrev IP := List Nat

/-- The test `c >= '0' && c <= '9'`. -/
def isDigit (c : Char) : Bool := decide (48 ≤ c.toNat) && decide (c.toNat ≤ 57)

/-- The tests of the hexadecimal loop of `parseIPv6`: digit, `a`..`f` or `A`..`F`. -/
def isHex (c : Char) : Bool :=
  isDigit c || (decide (97 ≤ c.toNat) && decide (c.toNat ≤ 102)) ||
    (decide (65 ≤ c.toNat) && decide (c.toNat ≤ 70))

/-- Value of a hexadecimal digit. -/
def hexVal (c : Char) : Nat :=
  if isDigit c then c.toNat - 48
  else if decide (97 ≤ c.toNat) && decide (c.toNat ≤ 102) then c.toNat - 97 + 10
  else c.toNat - 65 + 10

/-- The loop of `netip.parseIPv4Fields` over the remaining bytes.  `prev` is the byte
before the current one (`none` at index 0), `val` and `digLen` the value and digit count
of the octet being read, `fields` the octets stored so far (`pos = fields.length`). -/
def parseIPv4Fields : List Char → Option Char → Nat → Nat → List Nat → Option (List Nat)
  | [], _, val, _, fields => if fields.length < 3 then none else some (fields ++ [val])
  | c :: rest, prev, val, digLen, fields =>
    if isDigit c then
      if digLen = 1 ∧ val = 0 then none
      else if val * 10 + (c.toNat - 48) > 255 then none
      else parseIPv4Fields rest (some c) (val * 10 + (c.toNat - 48)) (digLen + 1) fields
    else if c = '.' then
      if prev = none ∨ rest = [] ∨ prev = some '.' then none
      else if fields.length = 3 then none
      else parseIPv4Fields rest (some c) 0 0 (fields ++ [val])
    else none

/-- The function `netip.parseIPv4`: the four octets of a dotted quad. -/
def parseIPv4 (s : List Char) : Option (List Nat) := parseIPv4Fields s none 0 0 []

/-- The hexadecimal inner loop of `netip.parseIPv6`: reads digits from `s`, starting with
offset `off` and accumulator `acc`; gives the final offset, the value and the unread
rest, or `none` for a group of more than four digits. -/
def parseHex : List Char → Nat → Nat → Option (Nat × Nat × List Char)
  | [], off, acc => some (off, acc, [])
  | c :: t, off, acc =>
    if isHex c then
      if off > 3 then none
      else if acc * 16 + hexVal c > 65535 then none
      else parseHex t (off + 1) (acc * 16 + hexVal c)
    else some (off, acc, c :: t)

/-- The main loop `for i < 16` of `netip.parseIPv6`.  The state is the unread text `s`,
the byte position `i`, the position of the ellipsis (`none` for `-1`) and the bytes
stored so far.  Each round adds at least two to `i`, so eight rounds (`fuel`) suffice.
The result is the state at loop exit, `none` if the loop returns an error. -/
def parseIPv6Loop : Nat → List Char → Nat → Option Nat → List Nat →
    Option (List Char × Nat × Option Nat × List Nat)
  | 0, s, i, ellipsis, ip => some (s, i, ellipsis, ip)
  | fuel + 1, s, i, ellipsis, ip =>
    if 16 ≤ i then some (s, i, ellipsis, ip)
    else
      match parseHex s 0 0 with
      | none => none
      | some (off, acc, rest) =>
        if off = 0 then none
        else if rest.head? = some '.' then
          -- trailing dotted quad
          if ellipsis = none ∧ i ≠ 12 then none
          else if i + 4 > 16 then none
          else
            match parseIPv4Fields s none 0 0 [] with
            | none => none
            | some f => some ([], i + 4, ellipsis, ip ++ f)
        else
          match rest with
          | [] => some ([], i + 2, ellipsis, ip ++ [acc / 256, acc % 256])
          | c :: t =>
            if c ≠ ':' then none
            else
              match t with
              | [] => none
              | d :: t2 =>
                if d = ':' then
                  if ellipsis ≠ none then none
                  else if t2 = [] then
                    some ([], i + 2, some (i + 2), ip ++ [acc / 256, acc % 256])
                  else parseIPv6Loop fuel t2 (i + 2) (some (i + 2)) (ip ++ [acc / 256, acc % 256])
                else parseIPv6Loop fuel t (i + 2) ellipsis (ip ++ [acc / 256, acc % 256])

/-- The checks of `netip.parseIPv6` after its loop: the whole text was used, and the
ellipsis, if any, is expanded to the missing zero bytes. -/
def finishIPv6 : Option (List Char × Nat × Option Nat × List Nat) → Option IP
  | none => none
  | some (s, i, ellipsis, ip) =>
    if s ≠ [] then none
    else if i < 16 then
      match ellipsis with
      | none => none
      | some e => some (ip.take e ++ List.replicate (16 - i) 0 ++ ip.drop e)
    else if ellipsis ≠ none then none
    else some ip

/-- The function `netip.parseIPv6` for text without a zone; `net.ParseIP` rejects every
text with a `%`, which here fails as an unexpected character. -/
def parseIPv6 (s : List Char) : Option IP :=
  match s with
  | c :: d :: t =>
    if c = ':' ∧ d = ':' then
      -- leading ellipsis
      if t = [] then some (List.replicate 16 0)
      else finishIPv6 (parseIPv6Loop 8 t 0 (some 0) [])
    else finishIPv6 (parseIPv6Loop 8 s 0 none [])
  | _ => finishIPv6 (parseIPv6Loop 8 s 0 none [])

/-- The 16-byte form of an IPv4 address (`Addr.As16`). -/
def v4InV6 (f : List Nat) : IP := List.replicate 10 0 ++ [255, 255] ++ f

/-- The scan of `netip.ParseAddr`: the first `.`, `:` or `%` of the text selects the
parser, which then reads the whole text `s`. -/
def parseAddrScan (s : List Char) : List Char → Option IP
  | [] => none
  | c :: t =>
    if c = '.' then (parseIPv4 s).map v4InV6
    else if c = ':' then parseIPv6 s
    else if c = '%' then none
    else parseAddrScan s t

/-- Go `net.ParseIP`: the 16-byte address of an IPv4 or IPv6 literal, `none` for `nil`. -/
def ParseIP (s : String) : Option IP := parseAddrScan s.data s.data

/-- Go `IP.To4`: the four bytes of an IPv4 address, `none` for `nil`. -/
def To4 (ip : IP) : Option IP :=
  if ip.length = 4 then some ip
  else if ip.length = 16 ∧ ip.take 10 = List.replicate 10 0 ∧
      (ip.drop 10).take 2 = [255, 255] then
    some (ip.drop 12)
  else none

/-- Go `IP.To16`: the 16-byte form, `none` for `nil`. -/
def To16 (ip : IP) : Option IP :=
  if ip.length = 4 then some (v4InV6 ip)
  else if ip.length = 16 then some ip
  else none

/-- Decimal text of a byte (`uitoa`). -/
def uitoa (n : Nat) : String := ⟨Nat.toDigits 10 n⟩

/-- Lower-case hexadecimal text of a 16-bit group, without leading zeros (`appendHex`). -/
def appendHex (n : Nat) : String := ⟨Nat.toDigits 16 n⟩

/-- The eight 16-bit groups of a 16-byte address. -/
def v6u16 : List Nat → List Nat
  | hi :: lo :: rest => (hi * 256 + lo) :: v6u16 rest
  | _ => []

/-- First loop of `netip.Addr.appendTo6`: the longest run of at least two zero groups,
the first one among equals, as `(zeroStart, zeroEnd)`; `(255, 255)` when there is none.
`g` holds the groups from index `i` on. -/
def zeroRun : List Nat → Nat → Nat × Nat → Nat × Nat
  | [], _, best => best
  | x :: rest, i, best =>
    let l := ((x :: rest).takeWhile (· = 0)).length
    if 2 ≤ l ∧ best.2 - best.1 < l then zeroRun rest (i + 1) (i, i + l)
    else zeroRun rest (i + 1) best

/-- Second loop of `netip.Addr.appendTo6`: prints the groups from index `i` on, with `::`
in place of the run `[zeroStart, zeroEnd)`. -/
def printGroups (g : List Nat) (zeroStart zeroEnd : Nat) : Nat → Nat → String
  | 0, _ => ""
  | fuel + 1, i =>
    if 8 ≤ i then ""
    else if i = zeroStart then
      if 8 ≤ zeroEnd then "::"
      else "::" ++ appendHex (g.getD zeroEnd 0) ++ printGroups g zeroStart zeroEnd fuel (zeroEnd + 1)
    else
      (if 0 < i then ":" else "") ++ appendHex (g.getD i 0) ++
        printGroups g zeroStart zeroEnd fuel (i + 1)

/-- Go `IP.String` for the addresses that occur here (4 or 16 bytes): dotted decimal for
an IPv4 or IPv4-mapped address, otherwise the compressed colon-hex form. -/
def IPString (ip : IP) : String :=
  if ip.length = 0 then "<nil>"
  else
    match To4 ip with
    | some p4 => Join (p4.map uitoa) "."
    | none =>
      if ip.length ≠ 16 then "?"
      else
        let g := v6u16 ip
        let z := zeroRun g 0 (255, 255)
        printGroups g z.1 z.2 8 0

/-! ## Package `miekg/dns` -/

/-- The record types, the class and the return codes of `miekg/dns` that occur here. -/
def TypeA : Nat := 1
def TypeSOA : Nat := 6
def TypePTR : Nat := 12
def TypeMX : Nat := 15
def TypeAAAA : Nat := 28
def ClassINET : Nat := 1
def RcodeSuccess : Nat := 0
def RcodeServerFailure : Nat := 2
def RcodeNameError : Nat := 3

/-- The escape character of presentation-format names, the backslash. -/
def escapeChar : Char := Char.ofNat 92

/-- The effect of the byte `c` on the escape state: an odd number of backslashes stands
right before the next byte. -/
def nextEsc (c : Char) (esc : Bool) : Bool := if c = escapeChar then !esc else false

/-- The pieces into which `dns.Split` cuts a name: a piece ends after every unescaped dot
(a dot with an even number of backslashes right before it) that is not the last byte, so
every piece but the last ends in its dot, and the pieces together are the name.  `esc`
tells whether an odd number of backslashes stands right before the head of the list.
The offsets that `dns.Split` returns are the start positions of these pieces. -/
def splitPieces : List Char → Bool → List (List Char)
  | [], _ => [[]]
  | [c], _ => [[c]]
  | c :: d :: t, esc =>
    if c = '.' ∧ esc = false then [c] :: splitPieces (d :: t) false
    else
      match splitPieces (d :: t) (nextEsc c esc) with
      | [] => [[c]]
      | p :: ps => (c :: p) :: ps

/-- The pieces of a name; `dns.Split` gives no offsets for the root. -/
def namePieces (s : String) : List (List Char) :=
  if s = "." then [] else splitPieces s.data false

/-- The function `dns.IsFqdn`: the name ends in an unescaped dot. -/
def IsFqdn (s : String) : Bool :=
  match s.data.reverse with
  | [] => false
  | c :: r =>
    if c ≠ '.' then false
    else (r.takeWhile (· = escapeChar)).length % 2 = 0

/-- The function `dns.Fqdn`. -/
def Fqdn (s : String) : String := if IsFqdn s then s else s ++ "."

/-- The labels of the pieces: every piece but the last without its dot (`s[begin:end-1]`),
the last piece without the closing dot of a fully qualified name (`s[begin:fqdnEnd]`). -/
def labelsOf (fqdn : Bool) : List (List Char) → List String
  | [] => []
  | [p] => [⟨if fqdn then p.dropLast else p⟩]
  | p :: q :: ps => ⟨p.dropLast⟩ :: labelsOf fqdn (q :: ps)

/-- The function `dns.SplitDomainName`: the labels of a name, none for the root and for
the empty string. -/
def SplitDomainName (s : String) : List String :=
  if s = "" then [] else labelsOf (IsFqdn s) (namePieces s)

/-- The helper `equal` of `miekg/dns`: equality of two texts up to ASCII case. -/
def equalFold (a b : List Char) : Bool := a.map Char.toLower == b.map Char.toLower

/-- Number of leading positions at which two lists of pieces agree up to case. -/
def commonLen : List (List Char) → List (List Char) → Nat
  | a :: as, b :: bs => if equalFold a b then commonLen as bs + 1 else 0
  | _, _ => 0

/-- The function `dns.CompareDomainName`: the number of labels two names share, counted
from the right. -/
def CompareDomainName (s1 s2 : String) : Nat :=
  if s1 = "." ∨ s2 = "." then 0
  else commonLen (namePieces s1).reverse (namePieces s2).reverse

/-- The function `dns.CountLabel`. -/
def CountLabel (s : String) : Nat := (namePieces s).length

/-- The function `dns.IsSubDomain`. -/
def IsSubDomain (parent child : String) : Bool :=
  CompareDomainName parent child = CountLabel parent

/-! ## Packages `coredns/plugin`, `plugin/pkg/dnsutil`, `plugin/pkg/fall` -/

/-- The method `plugin.Zones.Matches`: the longest zone of `z` that `qname` is under, the
empty string if there is none. -/
def Matches (z : List String) (qname : String) : String :=
  z.foldl (fun zone zname =>
    if IsSubDomain zname qname ∧ len zone < len zname then zname else zone) ""

/-- The method `fall.F.Through`, for the zone list of the `fallthrough` property. -/
def Through (fallZones : List String) (qname : String) : Bool := Matches fallZones qname ≠ ""

/-- The function `dnsutil.Join`: the labels joined by dots, made fully qualified. -/
def dnsutilJoin (labels : List String) : String :=
  if labels.getLast? = some "." then Join labels.dropLast "." ++ "."
  else Fqdn (Join labels ".")

/-- The helper `reverse` of `dnsutil`: the IPv4 address of reversed labels. -/
def reverse (slice : List String) : String :=
  match (ParseIP (Join slice.reverse ".")).bind To4 with
  | none => ""
  | some ip => IPString ip

/-- Groups of four consecutive entries, each joined to one text; a rest of fewer than
four entries is dropped. -/
def joinFours : List String → List String
  | a :: b :: c :: d :: rest => Join [a, b, c, d] "" :: joinFours rest
  | _ => []

/-- The helper `reverse6` of `dnsutil`: the IPv6 address of reversed nibble labels. -/
def reverse6 (slice : List String) : String :=
  match (ParseIP (Join (joinFours slice.reverse) ":")).bind To16 with
  | none => ""
  | some ip => IPString ip

/-- The function `dnsutil.ExtractAddressFromReverse`: the address a reverse name stands
for, the empty string if it is not a reverse name. -/
def ExtractAddressFromReverse (reverseName : String) : String :=
  if HasSuffix reverseName ".in-addr.arpa." then
    reverse (Split (TrimSuffix reverseName ".in-addr.arpa.") '.')
  else if HasSuffix reverseName ".ip6.arpa." then
    reverse6 (Split (TrimSuffix reverseName ".ip6.arpa.") '.')
  else ""

/-! ## Data model -/

/-- A resource-record header (`dns.RR_Header`). -/
structure RR_Header where
  Name : String
  Rrtype : Nat
  Class : Nat
  Ttl : Nat
  deriving DecidableEq, Repr

/-- The resource records the plugin builds (`dns.A`, `dns.AAAA`, `dns.PTR`, `dns.SOA`). -/
inductive RR where
  | A (Hdr : RR_Header) (A : IP)
  | AAAA (Hdr : RR_Header) (AAAA : IP)
  | PTR (Hdr : RR_Header) (Ptr : String)
  | SOA (Hdr : RR_Header) (Ns Mbox : String) (Serial Refresh Retry Expire Minttl : Nat)
  deriving DecidableEq, Repr

/-- The fields of a reply `dns.Msg` that `writeResponse` sets.  The fields `SetReply`
copies from the request (id, opcode, flags, question) are left out. -/
structure Msg where
  Response : Bool
  Rcode : Nat
  Authoritative : Bool
  Answer : List RR
  Extra : List RR
  Ns : List RR
  deriving DecidableEq, Repr

/-- The fields of `core.Pod` the plugin reads. -/
structure Pod where
  Name : String
  Namespace : String
  Annotations : List (String × String)
  PodIPs : List String
  deriving DecidableEq, Repr

/-- An entry of the index, of type `interface{}`: a `*core.Pod`, or a value of another
type, given by the name of its type. -/
inductive Obj where
  | pod (p : Pod)
  | other (typeName : String)
  deriving DecidableEq, Repr

/-- The two methods of `cache.Indexer` the plugin calls; `Except.error` is a non-nil
`error`.  `GetByKey` gives `some item` when the key exists. -/
structure Indexer where
  ByIndex : String → String → Except String (List Obj)
  GetByKey : String → Except String (Option Obj)

/-- Equality of index results is decidable. -/
instance instDecidableEqExcept {ε α : Type} [DecidableEq ε] [DecidableEq α] :
    DecidableEq (Except ε α)
  | .ok a, .ok b =>
    if h : a = b then isTrue (by rw [h]) else isFalse (fun h' => h (Except.ok.inj h'))
  | .error a, .error b =>
    if h : a = b then isTrue (by rw [h]) else isFalse (fun h' => h (Except.error.inj h'))
  | .ok _, .error _ => isFalse (fun h => Except.noConfusion h)
  | .error _, .ok _ => isFalse (fun h => Except.noConfusion h)

/-- A read of the index. -/
inductive IndexRead where
  | ByIndex (indexName key : String)
  | GetByKey (key : String)
  deriving DecidableEq, Repr

/-- The next handler of the plugin chain (`plugin.Handler`), known by its name. -/
structure Handler where
  Name : String
  deriving DecidableEq, Repr

/-- The modes of the property `names`, numbered as by `iota`. -/
def modeEchoIP : Nat := 0
def modeIP : Nat := 1
def modeName : Nat := 2
def modeNameAndIP : Nat := 3

/-- The plugin instance.  `Fall` holds the zones of `fall.F`; `indexer` is `none` while
the field is nil; `stopChClosed` records whether `stopCh` has been closed. -/
structure KubePods where
  Next : Option Handler
  Zones : List String
  Fall : List String
  ttl : Nat
  mode : Nat
  autoPathSearch : List String
  indexer : Option Indexer
  shutdown : Bool
  stopChClosed : Bool

/-- The constant `defaultTTL`, the TTL to apply to all answers. -/
def defaultTTL : Nat := 5

/-- `New` returns an initialized `KubePods`. -/
def New (zones : List String) : KubePods :=
  { Next := none, Zones := zones, Fall := [], ttl := defaultTTL, mode := modeEchoIP,
    autoPathSearch := [], indexer := none, shutdown := false, stopChClosed := false }

/-- The request (`request.Request`): the question name in presentation format as it was
asked, the question type, and the address of the client. -/
structure Request where
  QName : String
  QType : Nat
  IP : String
  deriving DecidableEq, Repr

/-- The method `Request.Name`: the question name in lower case. -/
def Request.Name (state : Request) : String := ToLower state.QName

/-- What a call of `ServeDNS` does. -/
inductive Outcome where
  /-- It writes the message to the client and returns `(rcode, nil)`. -/
  | reply (m : Msg) (rcode : Nat)
  /-- It writes nothing and returns what `ServeDNS` of the next handler returns. -/
  | next (h : Handler)
  /-- It writes nothing and returns `(rcode, err)` with a non-nil error. -/
  | failure (rcode : Nat) (err : String)
  /-- It panics (index out of range, nil dereference). -/
  | panic
  deriving DecidableEq, Repr

/-- The outcome of a call together with the reads of the index it made, in order. -/
structure Result where
  outcome : Outcome
  reads : List IndexRead
  deriving DecidableEq, Repr

/-! ## The address codec (`setup.go`) -/

/-- The function `undashIP`: a name with exactly three dashes and no double dash is read
as a dashed IPv4 address, every other name as a dashed IPv6 address. -/
def undashIP (name : String) : String :=
  if Count name '-' = 3 ∧ ¬ Contains name "--" then ReplaceAll name '-' '.'
  else ReplaceAll name '-' ':'

/-- The function `dashIP`: a text with exactly three dots and no `::` gets its dots
replaced by dashes, every other text its colons. -/
def dashIP (ip : String) : String :=
  if Count ip '.' = 3 ∧ ¬ Contains ip "::" then ReplaceAll ip '.' '-'
  else ReplaceAll ip ':' '-'

/-! ## The index functions of `setWatch` and the store behind them -/

/-- The index function `reverse`: the addresses of the pod. -/
def reverseIndex (pod : Pod) : List String := pod.PodIPs

/-- The index function `namespace`. -/
def namespaceIndex (pod : Pod) : List String := [pod.Namespace]

/-- The index function `dashedip`: namespace and dashed address, joined by a slash. -/
def dashedipIndex (pod : Pod) : List String :=
  pod.PodIPs.map fun addr => Join [pod.Namespace, dashIP addr] "/"

/-- The index function registered under a name. -/
def indexFunc (indexName : String) (pod : Pod) : List String :=
  if indexName = "reverse" then reverseIndex pod
  else if indexName = "namespace" then namespaceIndex pod
  else if indexName = "dashedip" then dashedipIndex pod
  else []

/-- The store key of a pod (`cache.MetaNamespaceKeyFunc`). -/
def podKey (pod : Pod) : String :=
  if pod.Namespace = "" then pod.Name else pod.Namespace ++ "/" ++ pod.Name

/-- The index a synced informer holds for a list of pods with distinct keys: an index
lookup gives the pods whose index values contain the key, `GetByKey` the pod stored
under the key. -/
def indexerOf (pods : List Pod) : Indexer where
  ByIndex := fun indexName key =>
    if indexName = "reverse" ∨ indexName = "namespace" ∨ indexName = "dashedip" then
      .ok ((pods.filter fun pod => (indexFunc indexName pod).contains key).map Obj.pod)
    else .error ("Index with name " ++ indexName ++ " does not exist")
  GetByKey := fun key => .ok ((pods.find? fun pod => podKey pod = key).map Obj.pod)

/-! ## The handler (`kubepods.go`) -/

/-- The method `KubePods.Name`. -/
def pluginName : String := "kubepods"

/-- The function `plugin.NextOrFailure`. -/
def NextOrFailure (k : KubePods) : Outcome :=
  match k.Next with
  | some h => .next h
  | none => .failure RcodeServerFailure ("plugin/" ++ pluginName ++ ": no next plugin found")

/-- The function `writeResponse`: the authoritative reply with the given sections and
return code, which it writes to the client. -/
def writeResponse (answer extra ns : List RR) (rcode : Nat) : Msg :=
  { Response := true, Rcode := rcode, Authoritative := true, Answer := answer,
    Extra := extra, Ns := ns }

/-- The method `soa`; `none` is the panic of `k.Zones[0]` on an empty zone list.  `now`
is the Unix time, the serial its conversion to `uint32`. -/
def soa (k : KubePods) (now : Nat) : Option RR :=
  match k.Zones with
  | [] => none
  | z :: _ =>
    some (.SOA { Name := z, Rrtype := TypeSOA, Class := ClassINET, Ttl := k.ttl }
      (dnsutilJoin ["ns.dns", z]) (dnsutilJoin ["hostmaster.dns", z])
      (now % 2 ^ 32) 7200 1800 86400 k.ttl)

/-- The method `nxdomain`: the next handler when the `fallthrough` zones cover the name,
otherwise the reply NAME_ERROR with the SOA record. -/
def nxdomain (k : KubePods) (state : Request) (now : Nat) : Outcome :=
  if Through k.Fall state.Name then NextOrFailure k
  else
    match soa k now with
    | none => .panic
    | some r => .reply (writeResponse [] [] [r] RcodeNameError) RcodeNameError

/-- The method `nodata`: the reply SUCCESS with the SOA record and no answer. -/
def nodata (k : KubePods) (now : Nat) : Outcome :=
  match soa k now with
  | none => .panic
  | some r => .reply (writeResponse [] [] [r] RcodeSuccess) RcodeSuccess

/-- The loop of `ptr` over the addresses of the pod, in mode `ip` or `name-and-ip`. -/
def ptrIPs (k : KubePods) (qname qip : String) (pod : Pod) : List String → Option (List RR)
  | [] => some []
  | ip :: rest =>
    if qip ≠ ip then ptrIPs k qname qip pod rest
    else
      match k.Zones with
      | [] => none
      | z :: _ =>
        (ptrIPs k qname qip pod rest).map fun ptrs =>
          RR.PTR { Name := qname, Rrtype := TypePTR, Class := ClassINET, Ttl := k.ttl }
            (dnsutilJoin [dashIP ip, pod.Namespace, z]) :: ptrs

/-- The method `ptr`; `none` is the panic of `k.Zones[0]` on an empty zone list. -/
def ptr (k : KubePods) (qname qip : String) (pod : Pod) : Option (List RR) :=
  let byName : Option (List RR) :=
    if k.mode = modeName ∨ k.mode = modeNameAndIP then
      match k.Zones with
      | [] => none
      | z :: _ =>
        some [RR.PTR { Name := qname, Rrtype := TypePTR, Class := ClassINET, Ttl := k.ttl }
          (dnsutilJoin [pod.Name, pod.Namespace, z])]
    else some []
  match byName with
  | none => none
  | some ptrs =>
    if k.mode = modeIP ∨ k.mode = modeNameAndIP then
      (ptrIPs k qname qip pod pod.PodIPs).map fun more => ptrs ++ more
    else some ptrs

/-- The error of a failed type assertion `obj.(*core.Pod)`. -/
def unexpectedObj (typeName : String) : String :=
  "unexpected " ++ String.singleton (Char.ofNat 34) ++ typeName ++
    String.singleton (Char.ofNat 34) ++ " from *Pod index"

/-- The loop of the reverse branch over the entries of the `reverse` index: the PTR
records of all of them, or the outcome that ends the loop early. -/
def ptrRecords (k : KubePods) (state : Request) (addr : String) :
    List Obj → Except Outcome (List RR)
  | [] => .ok []
  | .other t :: _ => .error (.failure RcodeServerFailure (unexpectedObj t))
  | .pod pod :: rest =>
    match ptr k state.QName addr pod with
    | none => .error .panic
    | some ptrs =>
      match ptrRecords k state addr rest with
      | .error o => .error o
      | .ok more => .ok (ptrs ++ more)

/-- The A records of one pod: one for every address without a colon that parses. -/
def aRecords (k : KubePods) (qname : String) (pod : Pod) : List RR :=
  pod.PodIPs.filterMap fun podIP =>
    if Contains podIP ":" then none
    else
      (ParseIP podIP).map fun netIP =>
        RR.A { Name := qname, Rrtype := TypeA, Class := ClassINET, Ttl := k.ttl } netIP

/-- The AAAA records of one pod: one for every address with a colon that parses. -/
def aaaaRecords (k : KubePods) (qname : String) (pod : Pod) : List RR :=
  pod.PodIPs.filterMap fun podIP =>
    if ¬ Contains podIP ":" then none
    else
      (ParseIP podIP).map fun netIP =>
        RR.AAAA { Name := qname, Rrtype := TypeAAAA, Class := ClassINET, Ttl := k.ttl } netIP

/-- The loop of the forward branch over the matched items: the answer records, or the
server failure for an item that is not a pod. -/
def addressRecords (k : KubePods) (state : Request) : List Obj → Except Outcome (List RR)
  | [] => .ok []
  | .other t :: _ => .error (.failure RcodeServerFailure (unexpectedObj t))
  | .pod pod :: rest =>
    match addressRecords k state rest with
    | .error o => .error o
    | .ok more =>
      .ok ((if state.QType = TypeA then aRecords k state.Name pod else []) ++
        (if state.QType = TypeAAAA then aaaaRecords k state.Name pod else []) ++ more)

/-- The reverse branch of `ServeDNS`, for a question of type PTR. -/
def serveReverse (k : KubePods) (state : Request) (now : Nat) : Result :=
  let addr := ExtractAddressFromReverse state.Name
  if addr = "" then ⟨nxdomain k state now, []⟩
  else if k.mode = modeEchoIP then ⟨nxdomain k state now, []⟩
  else
    match k.indexer with
    | none => ⟨.panic, []⟩
    | some indexer =>
      match indexer.ByIndex "reverse" addr with
      | .error err => ⟨.failure RcodeServerFailure err, [.ByIndex "reverse" addr]⟩
      | .ok objs =>
        if objs.length = 0 then ⟨nxdomain k state now, [.ByIndex "reverse" addr]⟩
        else
          match ptrRecords k state addr objs with
          | .error o => ⟨o, [.ByIndex "reverse" addr]⟩
          | .ok records =>
            ⟨.reply (writeResponse records [] [] RcodeSuccess) RcodeSuccess,
              [.ByIndex "reverse" addr]⟩

/-- The end of `ServeDNS`, after the `switch`: NXDOMAIN without items, otherwise the
address records of the items. -/
def answerItems (k : KubePods) (state : Request) (now : Nat) (items : List Obj)
    (reads : List IndexRead) : Result :=
  if items.length = 0 then ⟨nxdomain k state now, reads⟩
  else
    match addressRecords k state items with
    | .error o => ⟨o, reads⟩
    | .ok records => ⟨.reply (writeResponse records [] [] RcodeSuccess) RcodeSuccess, reads⟩

/-- The lookup by name of case 2 (modes `name` and `name-and-ip`), after the lookup by
dashed address gave `items` with the reads `reads`. -/
def byKey (k : KubePods) (state : Request) (now : Nat) (podKey : String) (items : List Obj)
    (reads : List IndexRead) : Result :=
  if k.mode = modeName ∨ k.mode = modeNameAndIP then
    match k.indexer with
    | none => ⟨.panic, reads⟩
    | some indexer =>
      match indexer.GetByKey podKey with
      | .error err => ⟨.failure RcodeServerFailure err, reads ++ [.GetByKey podKey]⟩
      | .ok (some item) => answerItems k state now (items ++ [item]) (reads ++ [.GetByKey podKey])
      | .ok none => answerItems k state now items (reads ++ [.GetByKey podKey])
  else answerItems k state now items reads

/-- Case 2 of the `switch` outside mode `echo-ip`: the lookup by dashed address (modes
`ip` and `name-and-ip`), then the lookup by name. -/
def byDashedIP (k : KubePods) (state : Request) (now : Nat) (podKey : String) : Result :=
  if k.mode = modeIP ∨ k.mode = modeNameAndIP then
    match k.indexer with
    | none => ⟨.panic, []⟩
    | some indexer =>
      match indexer.ByIndex "dashedip" podKey with
      | .error err => ⟨.failure RcodeServerFailure err, [.ByIndex "dashedip" podKey]⟩
      | .ok items => byKey k state now podKey items [.ByIndex "dashedip" podKey]
  else byKey k state now podKey [] []

/-- The pod domain of the query: the name without the zone and the dot before it; for
the root zone the name without the zone.  `none` is a panic of a slice expression. -/
def podDomain (state : Request) (zone : String) : Option String :=
  match slice state.Name 0 ((len state.Name : Int) - (len zone : Int) - 1) with
  | none => none
  | some d =>
    if zone = "." then slice state.Name 0 ((len state.Name : Int) - (len zone : Int))
    else some d

/-- The forward branch of `ServeDNS`, for the labels of the pod domain. -/
def serveSegments (k : KubePods) (state : Request) (now : Nat) : List String → Result
  | [seg0, seg1] =>
    if k.mode = modeEchoIP then
      match ParseIP (undashIP seg0) with
      | none => ⟨nxdomain k state now, []⟩
      | some ip =>
        if To4 ip = none then
          ⟨.reply (writeResponse
            [.AAAA { Name := state.Name, Rrtype := TypeAAAA, Class := ClassINET, Ttl := k.ttl } ip]
            [] [] RcodeSuccess) RcodeSuccess, []⟩
        else
          ⟨.reply (writeResponse
            [.A { Name := state.Name, Rrtype := TypeA, Class := ClassINET, Ttl := k.ttl } ip]
            [] [] RcodeSuccess) RcodeSuccess, []⟩
    else byDashedIP k state now (Join [seg1, "/", seg0] "")
  | [seg0] =>
    if k.mode = modeEchoIP then ⟨nodata k now, []⟩
    else
      match k.indexer with
      | none => ⟨.panic, []⟩
      | some indexer =>
        match indexer.ByIndex "namespace" seg0 with
        | .error err => ⟨.failure RcodeServerFailure err, [.ByIndex "namespace" seg0]⟩
        | .ok items =>
          if items.length > 0 then ⟨nodata k now, [.ByIndex "namespace" seg0]⟩
          else answerItems k state now [] [.ByIndex "namespace" seg0]
  | _ => answerItems k state now [] []

/-- The zone of the question in the case of the question: the end of `state.QName` of
the length of the matched zone.  `none` is a panic of the slice expression. -/
def queryZone (k : KubePods) (state : Request) : Option String :=
  sliceFrom state.QName ((len state.Name : Int) - (len (Matches k.Zones state.Name) : Int))

/-- The method `ServeDNS`.  `now` is the Unix time at the call. -/
def ServeDNS (k : KubePods) (state : Request) (now : Nat) : Result :=
  if Matches k.Zones state.Name = "" then ⟨NextOrFailure k, []⟩
  else
    match queryZone k state with
    | none => ⟨.panic, []⟩
    | some zone =>
      -- query for just the zone results in NODATA
      if len zone = len state.Name then ⟨nodata k now, []⟩
      else if state.QType = TypePTR then serveReverse k state now
      else
        match podDomain state zone with
        | none => ⟨.panic, []⟩
        | some d => serveSegments k state now (SplitDomainName d)

/-! ## The search path (`autopath.go`) -/

/-- What `AutoPath` returns: a search path, the nil slice, or a panic (nil dereference). -/
inductive SearchPath where
  | search (path : List String)
  | noList
  | panic
  deriving DecidableEq, Repr

/-- The method `AutoPath`: the search path for the pod the request comes from. -/
def AutoPath (k : KubePods) (state : Request) : SearchPath :=
  if Matches k.Zones state.Name = "" then .noList
  else if k.mode = modeEchoIP then .noList
  else
    match k.indexer with
    | none => .panic
    | some indexer =>
      match indexer.ByIndex "reverse" state.IP with
      | .error _ => .noList
      | .ok [] => .noList
      | .ok (.other _ :: _) => .noList
      | .ok (.pod pod :: _) =>
        .search
          ((if Matches k.Zones state.Name = "." then [pod.Namespace ++ ".svc.", "svc.", "."]
            else [pod.Namespace ++ ".svc." ++ Matches k.Zones state.Name,
                  "svc." ++ Matches k.Zones state.Name, Matches k.Zones state.Name]) ++
            k.autoPathSearch ++ [""])

/-! ## The metadata (`metadata.go`) -/

/-- The metadata of a request context: the registered labels, each with the value its
function returns, in the order of their first registration. -/
abbrev MD := List (String × String)

/-- The function `metadata.SetValueFunc` on the metadata map: the label gets the value,
in place of an earlier one. -/
def SetValueFunc (md : MD) (label value : String) : MD :=
  if md.any (fun e => e.1 = label) then md.map fun e => if e.1 = label then (label, value) else e
  else md ++ [(label, value)]

/-- The map lookup `pod.Annotations[key]`, the empty string for a missing key. -/
def annotationValue (pod : Pod) (key : String) : String :=
  ((pod.Annotations.find? fun e => e.1 = key).map Prod.snd).getD ""

/-- The loop of `Metadata` over the keys of the annotations. -/
def setAnnotations (pod : Pod) : List (String × String) → MD → MD
  | [], md => md
  | (key, _) :: rest, md =>
    setAnnotations pod rest
      (SetValueFunc md ("kubernetes/client-pod-annotation-" ++ key) (annotationValue pod key))

/-- The method `Metadata` on the metadata map of the context. -/
def Metadata (k : KubePods) (state : Request) (md : MD) : MD :=
  match k.indexer with
  | none => md
  | some indexer =>
    match indexer.ByIndex "reverse" state.IP with
    | .error _ => md
    | .ok [] => md
    | .ok (.other _ :: _) => md
    | .ok (.pod pod :: _) =>
      setAnnotations pod pod.Annotations
        (SetValueFunc (SetValueFunc md "kubernetes/client-namespace" pod.Namespace)
          "kubernetes/client-pod-name" pod.Name)

/-- The function `metadata.Labels`: the registered labels. -/
def Labels (md : MD) : List String := md.map Prod.fst

/-- The function `metadata.ValueFunc` applied: the value of a label, `none` when the
label is not registered. -/
def ValueOf (md : MD) (label : String) : Option String :=
  (md.find? fun e => e.1 = label).map Prod.snd

/-! ## The configuration (`setup.go`) -/

/-- The value of a text of decimal digits, `none` when a byte is no digit. -/
def digitsValue : List Char → Nat → Option Nat
  | [], n => some n
  | c :: t, n => if isDigit c then digitsValue t (n * 10 + (c.toNat - 48)) else none

/-- Go `strconv.Atoi` on a 64-bit platform: an optional sign and at least one decimal
digit, with a value that fits `int`; `none` stands for its error. -/
def Atoi (s : String) : Option Int :=
  match s.data with
  | [] => none
  | c :: t =>
    let digits := if c = '-' ∨ c = '+' then t else c :: t
    if digits = [] then none
    else
      match digitsValue digits 0 with
      | none => none
      | some n =>
        if c = '-' then (if n ≤ 2 ^ 63 then some (-(n : Int)) else none)
        else (if n < 2 ^ 63 then some (n : Int) else none)

/-- A property line of the stanza: its name (`c.Val()`) and the rest of the line
(`c.RemainingArgs()`). -/
structure Property where
  name : String
  args : List String
  deriving DecidableEq, Repr

/-- The errors of `parseStanza`. -/
inductive StanzaError where
  /-- The error `c.ArgErr()`. -/
  | argErr
  /-- The error of `strconv.Atoi`. -/
  | notInteger (arg : String)
  /-- The error `ttl must be in range [0, 3600]`. -/
  | ttlRange (t : Int)
  /-- The error `unknown property`. -/
  | unknownProperty (name : String)
  deriving DecidableEq, Repr

/-- The method `fall.F.SetZonesFromArgs`: the root zone without arguments, otherwise the
normalized arguments; `normalize` stands for `plugin.Host(z).NormalizeExact()`. -/
def SetZonesFromArgs (normalize : String → List String) (zones : List String) : List String :=
  if zones.length = 0 then ["."] else zones.flatMap normalize

/-- One round of the loop `for c.NextBlock()` of `parseStanza`: the `switch` on the
property. -/
def parseProperty (normalize : String → List String) (kps : KubePods) (p : Property) :
    Except StanzaError KubePods :=
  if p.name = "fallthrough" then .ok { kps with Fall := SetZonesFromArgs normalize p.args }
  else if p.name = "names" then
    match p.args with
    | [arg] =>
      if arg = "echo-ip" then .ok { kps with mode := modeEchoIP }
      else if arg = "ip" then .ok { kps with mode := modeIP }
      else if arg = "name" then .ok { kps with mode := modeName }
      else if arg = "name-and-ip" then .ok { kps with mode := modeNameAndIP }
      else .ok kps
    | _ => .error .argErr
  else if p.name = "ttl" then
    match p.args with
    | [] => .error .argErr
    | arg :: _ =>
      match Atoi arg with
      | none => .error (.notInteger arg)
      | some t =>
        if t < 0 ∨ t > 3600 then .error (.ttlRange t)
        else .ok { kps with ttl := (t % 2 ^ 32).toNat }
  else .error (.unknownProperty p.name)

/-- The loop `for c.NextBlock()` of `parseStanza` over the property lines of the block;
the first error ends it. -/
def parseBlock (normalize : String → List String) :
    KubePods → List Property → Except StanzaError KubePods
  | kps, [] => .ok kps
  | kps, p :: rest =>
    match parseProperty normalize kps p with
    | .error e => .error e
    | .ok kps1 => parseBlock normalize kps1 rest

/-- The function `parseStanza`.  `origins` is the zone list that
`plugin.OriginsFromArgsOrServerBlock` gives, `block` the property lines of the stanza;
`Except.error` is the return of `nil` and an error. -/
def parseStanza (origins : List String) (normalize : String → List String)
    (block : List Property) : Except StanzaError KubePods :=
  parseBlock normalize { New origins with mode := modeName } block

/-! ## The shutdown (`setup.go`) -/

/-- What one call of the function of `stopWatch` does: the error it returns (`none` for
nil), whether it closed the stop channel, and the instance after the call. -/
structure StopCall where
  err : Option String
  closed : Bool
  after : KubePods

/-- The function that `stopWatch` returns, called under the lock; `none` is the panic of
closing a closed channel. -/
def stopWatch (k : KubePods) : Option StopCall :=
  if ¬ k.shutdown then
    if k.stopChClosed then none
    else some { err := none, closed := true,
                after := { k with stopChClosed := true, shutdown := true } }
  else some { err := some "shutdown already in progress", closed := false, after := k }

/-- A sequence of `n` calls of the function of `stopWatch`, one after the other: the
calls in order, `none` if one of them panics. -/
def stopCalls : Nat → KubePods → Option (List StopCall)
  | 0, _ => some []
  | n + 1, k =>
    match stopWatch k with
    | none => none
    | some call => (stopCalls n call.after).map fun calls => call :: calls

/-! ## Notions used in the statements -/

/-- No two adjacent characters of the list are both `x`. -/
def noPair (x : Char) (l : List Char) : Prop := l.Chain' fun a b => ¬(a = x ∧ b = x)

/-- An IPv4 literal: text that `netip.parseIPv4` accepts (a dotted quad). -/
def isIPv4Literal (s : String) : Bool := (parseIPv4 s.data).isSome

/-- An IPv6 literal: text that `netip.parseIPv6` accepts without a zone (colon-hex
groups, at most one `::`, an optional dotted quad as the last four bytes). -/
def isIPv6Literal (s : String) : Bool := (parseIPv6 s.data).isSome

/-- The first configured zone, `k.Zones[0]`.  The empty string stands in for it on an
empty zone list, where the code panics; no statement below is about that case. -/
def zone0 (k : KubePods) : String := k.Zones.headD ""

/-- The synthetic SOA record: owner, name server and mailbox under the zone `z`, the serial
taken from the clock, refresh 7200, retry 1800, expire 86400, minimum the TTL. -/
def soaRecord (z : String) (ttl now : Nat) : RR :=
  .SOA { Name := z, Rrtype := TypeSOA, Class := ClassINET, Ttl := ttl }
    (dnsutilJoin ["ns.dns", z]) (dnsutilJoin ["hostmaster.dns", z]) (now % 2 ^ 32) 7200 1800 86400 ttl

/-- The authoritative reply with return code `rcode`, no answer record and the synthetic
SOA record as its only authority record. -/
def negativeReply (k : KubePods) (now rcode : Nat) : Outcome :=
  .reply { Response := true, Rcode := rcode, Authoritative := true, Answer := [], Extra := [],
           Ns := [soaRecord (zone0 k) k.ttl now] } rcode

/-- The outcome NODATA: return code SUCCESS, empty answer, one SOA authority record. -/
def nodataReply (k : KubePods) (now : Nat) : Outcome := negativeReply k now RcodeSuccess

/-- The outcome NXDOMAIN: return code NAME_ERROR, empty answer, one SOA authority record. -/
def nxdomainReply (k : KubePods) (now : Nat) : Outcome := negativeReply k now RcodeNameError

/-- The authoritative reply with return code SUCCESS, the given answer records and no
authority record. -/
def answerReply (answer : List RR) : Outcome :=
  .reply { Response := true, Rcode := RcodeSuccess, Authoritative := true, Answer := answer,
           Extra := [], Ns := [] } RcodeSuccess

/-- The negative path for a missing name: the query goes to the next handler when the
`fallthrough` zones cover its name, otherwise the reply is NXDOMAIN. -/
def nxdomainOrNext (k : KubePods) (state : Request) (now : Nat) : Outcome :=
  if Through k.Fall state.Name then NextOrFailure k else nxdomainReply k now

/-- The name of the query lies under a configured zone, which `ServeDNS` reads off the
question as `zone`, and is not the apex of that zone. -/
def belowApex (k : KubePods) (state : Request) (zone : String) : Prop :=
  Matches k.Zones state.Name ≠ "" ∧ queryZone k state = some zone ∧ len zone ≠ len state.Name

instance (k : KubePods) (state : Request) (zone : String) : Decidable (belowApex k state zone) := by
  unfold belowApex; infer_instance

/-- The labels of the query name below the zone, `none` where the code panics. -/
def podSegments (state : Request) (zone : String) : Option (List String) :=
  (podDomain state zone).map SplitDomainName

/-- A plain label: a text without dots and backslashes that is not empty. -/
def plainLabel (s : String) : Prop := s ≠ "" ∧ ∀ c ∈ s.data, c ≠ '.' ∧ c ≠ escapeChar

/-- The A record the handler builds for the name `qname` and the address `ip`. -/
def aRecord (k : KubePods) (qname : String) (ip : IP) : RR :=
  .A { Name := qname, Rrtype := TypeA, Class := ClassINET, Ttl := k.ttl } ip

/-- The AAAA record the handler builds for the name `qname` and the address `ip`. -/
def aaaaRecord (k : KubePods) (qname : String) (ip : IP) : RR :=
  .AAAA { Name := qname, Rrtype := TypeAAAA, Class := ClassINET, Ttl := k.ttl } ip

/-- The PTR record the handler builds for the name `qname` and the target `target`. -/
def ptrRecord (k : KubePods) (qname target : String) : RR :=
  .PTR { Name := qname, Rrtype := TypePTR, Class := ClassINET, Ttl := k.ttl } target

/-- One A record for every IPv4 literal among the addresses, in their order, each with
the 16-byte form of the address. -/
def ipv4Answers (k : KubePods) (qname : String) (addrs : List String) : List RR :=
  addrs.filterMap fun a => (parseIPv4 a.data).map fun octets => aRecord k qname (v4InV6 octets)

/-- One AAAA record for every IPv6 literal among the addresses, in their order. -/
def ipv6Answers (k : KubePods) (qname : String) (addrs : List String) : List RR :=
  addrs.filterMap fun a => (parseIPv6 a.data).map fun ip => aaaaRecord k qname ip

/-- The answer records for the addresses of a matched pod and a question type: those of
the IPv4 literals for type A, those of the IPv6 literals for type AAAA, none otherwise. -/
def answersFor (k : KubePods) (qname : String) (qtype : Nat) (addrs : List String) : List RR :=
  if qtype = TypeA then ipv4Answers k qname addrs
  else if qtype = TypeAAAA then ipv6Answers k qname addrs
  else []

/-- The items a two-label query with key `key` matches outside mode `echo-ip`: the entries
of the `dashedip` index in modes `ip` and `name-and-ip`, then the entry of the primary key
in modes `name` and `name-and-ip`; an error of the index ends the lookup. -/
def matchedItems (k : KubePods) (indexer : Indexer) (key : String) : Except String (List Obj) :=
  match (if k.mode = modeIP ∨ k.mode = modeNameAndIP then indexer.ByIndex "dashedip" key
         else .ok []) with
  | .error err => .error err
  | .ok dashed =>
    match (if k.mode = modeName ∨ k.mode = modeNameAndIP then indexer.GetByKey key
           else .ok none) with
    | .error err => .error err
    | .ok primary => .ok (dashed ++ primary.toList)

/-- The PTR records one pod contributes to a reverse query for the address `ip`: the
name form in modes `name` and `name-and-ip`, then in modes `ip` and `name-and-ip` the
dashed form once for every occurrence of `ip` among the addresses of the pod. -/
def ptrAnswers (k : KubePods) (qname ip : String) (pod : Pod) : List RR :=
  (if k.mode = modeName ∨ k.mode = modeNameAndIP then
     [ptrRecord k qname (dnsutilJoin [pod.Name, pod.Namespace, zone0 k])]
   else []) ++
  (if k.mode = modeIP ∨ k.mode = modeNameAndIP then
     List.replicate (pod.PodIPs.count ip)
       (ptrRecord k qname (dnsutilJoin [dashIP ip, pod.Namespace, zone0 k]))
   else [])

/-! ## Fixtures of `kubepods_test.go` -/

/-- The pod `pod1` of `addFixtures`. -/
def pod1 : Pod :=
  { Name := "pod1", Namespace := "namespace1", Annotations := [("foo", "bar"), ("bar", "foo")],
    PodIPs := ["1.2.3.4", "1:2:3::4", "5.6.7.8", "5:6:7::8"] }

/-- The pod `pod2` of `addFixtures`. -/
def pod2 : Pod :=
  { Name := "pod2", Namespace := "namespace2", Annotations := [],
    PodIPs := ["5.6.7.9", "5.6.7.10"] }

/-- The zones of the tests. -/
def testZones : List String := ["cluster.local.", "in-addr.arpa.", "ip6.arpa."]

/-- The instance of the tests for a mode: `New` with the test zones and, outside mode
`echo-ip`, the synced index of the two fixture pods. -/
def testPlugin (mode : Nat) : KubePods :=
  { New testZones with
    mode := mode
    indexer := if mode = modeEchoIP then none else some (indexerOf [pod1, pod2]) }

/-- The instance of the tests with the property `fallthrough` (all zones) and a next
handler `forward`. -/
def testPluginFall (mode : Nat) : KubePods :=
  { testPlugin mode with Fall := ["."], Next := some { Name := "forward" } }

/-- A question of the tests. -/
def question (qname : String) (qtype : Nat) : Request :=
  { QName := qname, QType := qtype, IP := "10.240.0.1" }

/-- The pod `web.0` in the namespace `namespace1`: its name is a DNS subdomain name of
two labels. -/
def dottedPod : Pod :=
  { Name := "web.0", Namespace := "namespace1", Annotations := [], PodIPs := ["1.2.3.4"] }

/-- The instance of the tests in mode `name` with the pod `web.0` in its index. -/
def dottedPlugin : KubePods :=
  { New testZones with mode := modeName, indexer := some (indexerOf [dottedPod]) }

/-- The pod `twice` of the namespace `namespace1`, whose address list names the address
1.2.3.4 two times. -/
def twicePod : Pod :=
  { Name := "twice", Namespace := "namespace1", Annotations := [],
    PodIPs := ["1.2.3.4", "1.2.3.4"] }

/-- The instance of the tests in mode `ip` with the pod `twice` in its index. -/
def twicePlugin : KubePods :=
  { New testZones with mode := modeIP, indexer := some (indexerOf [twicePod]) }

/-! ## Further notions and fixtures -/

/-- A question of the tests from the client address `ip`. -/
def questionFrom (qname : String) (qtype : Nat) (ip : String) : Request :=
  { QName := qname, QType := qtype, IP := ip }

/-- The instance with no `fallthrough` zones: its answers are the native results. -/
def withoutFall (k : KubePods) : KubePods := { k with Fall := [] }

/-- The instance with another index (or none). -/
def withIndexer (k : KubePods) (indexer : Option Indexer) : KubePods :=
  { k with indexer := indexer }

/-- The effect of the `fallthrough` zones on a native outcome: a reply with return code
NAME_ERROR becomes the hand-over to the next handler when the zones cover the name; every
other outcome stays. -/
def fallThrough (k : KubePods) (state : Request) : Outcome → Outcome
  | .reply m rcode =>
    if rcode = RcodeNameError ∧ Through k.Fall state.Name = true then NextOrFailure k
    else .reply m rcode
  | o => o

/-- The record without its SOA serial. -/
def eraseSerialRR : RR → RR
  | .SOA hdr ns mbox _ refresh retry expire minttl => .SOA hdr ns mbox 0 refresh retry expire minttl
  | r => r

/-- The outcome without the SOA serials of the reply. -/
def eraseSerial : Outcome → Outcome
  | .reply m rcode =>
    .reply { m with Answer := m.Answer.map eraseSerialRR, Extra := m.Extra.map eraseSerialRR,
                    Ns := m.Ns.map eraseSerialRR } rcode
  | o => o

/-- A `ttl` property line that `parseStanza` accepts: its first argument is a decimal
integer between 0 and 3600. -/
def acceptableTTL (p : Property) : Prop :=
  ∃ arg rest t, p.args = arg :: rest ∧ Atoi arg = some t ∧ 0 ≤ t ∧ t ≤ 3600

/-- The instance after the shutdown: the stop channel closed, the flag set. -/
def stopped (k : KubePods) : KubePods := { k with stopChClosed := true, shutdown := true }

/-- The pod `1-2-3-4` of the namespace `namespace1` with the address 1.2.3.4: its name is
also the dashed form of its address. -/
def dashedNamePod : Pod :=
  { Name := "1-2-3-4", Namespace := "namespace1", Annotations := [], PodIPs := ["1.2.3.4"] }

/-- The instance of the tests in mode `name-and-ip` with the pod `1-2-3-4` in its index. -/
def dashedNamePlugin : KubePods :=
  { New testZones with mode := modeNameAndIP, indexer := some (indexerOf [dashedNamePod]) }


/-! ## Notions for the zone of the records and the address family -/

/-- The record, if it is an SOA record, has the owner `z`, the name server `ns.dns.z` and
the mailbox `hostmaster.dns.z`. -/
def soaUnder (z : String) : RR → Prop
  | .SOA hdr ns mbox _ _ _ _ _ =>
    hdr.Name = z ∧ ns = dnsutilJoin ["ns.dns", z] ∧ mbox = dnsutilJoin ["hostmaster.dns", z]
  | _ => True

/-- The record, if it is a PTR record, points to a name `x.ns.z` of two labels under the
zone `z`. -/
def ptrUnder (z : String) : RR → Prop
  | .PTR _ target => ∃ x ns, target = dnsutilJoin [x, ns, z]
  | _ => True

/-- Every SOA record and every PTR record of the reply, in any section, is built from the
zone `z`. -/
def builtFrom (z : String) : Outcome → Prop
  | .reply m _ => ∀ r, r ∈ m.Answer ∨ r ∈ m.Ns ∨ r ∈ m.Extra → soaUnder z r ∧ ptrUnder z r
  | _ => True

/-- The address is an IPv4 address, as `net.IP` holds one: four bytes, or the sixteen
bytes `::ffff:a.b.c.d` of the four bytes `a.b.c.d`. -/
def isIPv4Address (ip : IP) : Prop := ip.length = 4 ∨ ∃ f : List Nat, f.length = 4 ∧ ip = v4InV6 f

/-- The record is an A record. -/
def isA : RR → Bool
  | .A _ _ => true
  | _ => false

/-- The record is an AAAA record. -/
def isAAAA : RR → Bool
  | .AAAA _ _ => true
  | _ => false

/-- The instance of the tests with the zone `in-addr.arpa.` moved to the front of the zone
list. -/
def reorderedPlugin (mode : Nat) : KubePods :=
  { testPlugin mode with Zones := ["in-addr.arpa.", "cluster.local.", "ip6.arpa."] }

/-! ## The reverse name of an address -/

/-- The texts joined by the separator `sep`. -/
def joinedBy (sep : Char) : List (List Char) → List Char
  | [] => []
  | p :: ps => p ++ ps.flatMap fun q => sep :: q

/-- The nibbles of the bytes of an address, the high nibble of each byte first. -/
def nibbles (a : IP) : List Nat := a.flatMap fun b => [b / 16, b % 16]

/-- An address: the four bytes of an IPv4 address or the sixteen bytes of an IPv6
address. -/
def isAddress (a : IP) : Prop := (a.length = 4 ∨ a.length = 16) ∧ ∀ b ∈ a, b < 256

instance (a : IP) : Decidable (isAddress a) := by
  unfold isAddress; infer_instance

/-- The reverse-arithmetic name of an address (RFC 1035, RFC 3596): for the IPv4 address
`a.b.c.d` the name `d.c.b.a.in-addr.arpa.` with the bytes in decimal, for an IPv6 address
the 32 nibbles as hexadecimal digits in reverse order, one label each, under
`ip6.arpa.`. -/
def reverseName (a : IP) : String :=
  if a.length = 4 then
    ⟨joinedBy '.' (a.reverse.map (Nat.toDigits 10)) ++ ".in-addr.arpa.".data⟩
  else
    ⟨joinedBy '.' ((nibbles a).reverse.map fun n => [Nat.digitChar n]) ++ ".ip6.arpa.".data⟩

/-- The text of the four hexadecimal digits of two bytes. -/
def hex4 (p : Nat × Nat) : List Char :=
  [Nat.digitChar (p.1 / 16), Nat.digitChar (p.1 % 16), Nat.digitChar (p.2 / 16),
   Nat.digitChar (p.2 % 16)]

/-- The pod `long` of the namespace `namespace1`, whose address is written in full,
without the `::` of the canonical form `1:2:3::4`. -/
def longFormPod : Pod :=
  { Name := "long", Namespace := "namespace1", Annotations := [],
    PodIPs := ["1:2:3:0:0:0:0:4"] }

/-- The instance of the tests in mode `name` with the pod `long` in its index. -/
def longFormPlugin : KubePods :=
  { New testZones with mode := modeName, indexer := some (indexerOf [longFormPod]) }
/-! ## The address codec and the IP parsers -/


theorem containsChars_pair (x : Char) (l : List Char) :
    containsChars l [x, x] = false ↔ noPair x l := by
  unfold noPair
  induction l with
  | nil => simp [containsChars]
  | cons c t ih =>
    cases t with
    | nil => simp [containsChars, List.isPrefixOf]
    | cons d t =>
      rw [List.chain'_cons, ← ih]
      simp only [containsChars, List.isPrefixOf, Bool.or_eq_false_iff, Bool.and_true,
        Bool.and_eq_false_iff, beq_eq_false_iff_ne, ne_eq]
      constructor
      · rintro ⟨h1, h2⟩
        refine ⟨fun ⟨a, b⟩ => ?_, h2⟩
        subst a; subst b
        simp at h1
      · rintro ⟨h1, h2⟩
        refine ⟨?_, h2⟩
        by_cases hc : x = c
        · right; intro hd; exact h1 ⟨hc.symm, hd.symm⟩
        · left; exact hc

theorem count_replaceChars (a b : Char) (hab : a ≠ b) (l : List Char) :
    (replaceChars a b l).count b = l.count a + l.count b := by
  induction l with
  | nil => simp [replaceChars]
  | cons c t ih =>
    simp only [replaceChars, List.map_cons] at ih ⊢
    by_cases h1 : c = a
    · subst h1
      simp [List.count_cons, ih, hab]
      omega
    · by_cases h2 : c = b
      · subst h2
        simp [List.count_cons, ih, h1]
        omega
      · simp [List.count_cons, ih, h1, h2]

theorem replaceChars_inv (a b : Char) (l : List Char) (hb : b ∉ l) :
    replaceChars b a (replaceChars a b l) = l := by
  induction l with
  | nil => simp [replaceChars]
  | cons c t ih =>
    simp only [List.mem_cons, not_or] at hb
    simp only [replaceChars, List.map_cons] at ih ⊢
    rw [ih hb.2]
    by_cases h1 : c = a
    · simp [h1]
    · have : ¬ c = b := fun h => hb.1 h.symm
      simp [h1, this]

theorem noPair_replaceChars (a b : Char) (l : List Char) (hb : b ∉ l) :
    noPair b (replaceChars a b l) ↔ noPair a l := by
  unfold noPair replaceChars
  rw [List.chain'_map]
  induction l with
  | nil => simp
  | cons c t ih =>
    simp only [List.mem_cons, not_or] at hb
    cases t with
    | nil => simp
    | cons d t =>
      rw [List.chain'_cons, List.chain'_cons, ih hb.2]
      have hd : ¬ b = d := by
        have := hb.2
        simp only [List.mem_cons, not_or] at this
        exact this.1
      have hc : ¬ b = c := hb.1
      have key : ((if c = a then b else c) = b ∧ (if d = a then b else d) = b) ↔ (c = a ∧ d = a) := by
        have hc' : ¬ c = b := fun h => hc h.symm
        have hd' : ¬ d = b := fun h => hd h.symm
        by_cases h1 : c = a <;> by_cases h2 : d = a <;> simp [h1, h2, hc', hd']
      rw [key]

theorem undash_dash_chars (l : List Char) (h1 : '-' ∉ l) (h2 : noPair '.' l)
    (h3 : l.count ':' = 3 → noPair ':' l → l.count '.' = 3) :
    undashIP (dashIP ⟨l⟩) = ⟨l⟩ := by
  have hc : l.count '-' = 0 := List.count_eq_zero.2 h1
  by_cases ha : l.count '.' = 3 ∧ noPair ':' l
  · have e1 : dashIP ⟨l⟩ = ⟨replaceChars '.' '-' l⟩ := by
      simp [dashIP, Count, Contains, ReplaceAll, ha.1, (containsChars_pair ':' l).2 ha.2]
    rw [e1]
    have e2 : (replaceChars '.' '-' l).count '-' = 3 := by
      rw [count_replaceChars _ _ (by decide), hc, ha.1]
    have e3 : containsChars (replaceChars '.' '-' l) ['-', '-'] = false :=
      (containsChars_pair _ _).2 ((noPair_replaceChars _ _ _ h1).2 h2)
    simp [undashIP, Count, Contains, ReplaceAll, e2, e3, replaceChars_inv _ _ _ h1]
  · have e1 : dashIP ⟨l⟩ = ⟨replaceChars ':' '-' l⟩ := by
      have : ¬ (l.count '.' = 3 ∧ containsChars l [':', ':'] = false) := by
        rw [containsChars_pair]; exact ha
      simp only [dashIP, Count, Contains, ReplaceAll]
      rw [if_neg]
      simpa using this
    rw [e1]
    have e2 : (replaceChars ':' '-' l).count '-' = l.count ':' := by
      rw [count_replaceChars _ _ (by decide), hc]; rfl
    have e3 : ¬ ((replaceChars ':' '-' l).count '-' = 3 ∧
        containsChars (replaceChars ':' '-' l) ['-', '-'] = false) := by
      rw [e2, containsChars_pair, noPair_replaceChars _ _ _ h1]
      rintro ⟨h, h'⟩
      exact ha ⟨h3 h h', h'⟩
    simp only [undashIP, Count, Contains, ReplaceAll]
    rw [if_neg (by simpa using e3), replaceChars_inv _ _ _ h1]

theorem isDigit_ne_dot {c : Char} (h : isDigit c = true) : c ≠ '.' := by
  rintro rfl; revert h; decide

theorem parseIPv4Fields_shape (l : List Char) : ∀ (prev : Option Char) (val dl : Nat)
    (fields f : List Nat), fields.length ≤ 3 →
    parseIPv4Fields l prev val dl fields = some f →
    (∀ c ∈ l, isDigit c = true ∨ c = '.') ∧ l.count '.' + fields.length = 3 ∧
      noPair '.' l ∧ (prev = some '.' → l.head? ≠ some '.') := by
  induction l with
  | nil =>
    intro prev val dl fields f hf h
    simp only [parseIPv4Fields] at h
    split at h
    · simp at h
    · refine ⟨by simp, by simp; omega, by simp [noPair], by simp⟩
  | cons c rest ih =>
    intro prev val dl fields f hf h
    simp only [parseIPv4Fields] at h
    by_cases hd : isDigit c = true
    · rw [if_pos hd] at h
      split at h
      · simp at h
      split at h
      · simp at h
      obtain ⟨a1, a2, a3, a4⟩ := ih _ _ _ _ _ hf h
      have hne := isDigit_ne_dot hd
      refine ⟨?_, ?_, ?_, ?_⟩
      · intro x hx
        rcases List.mem_cons.1 hx with rfl | hx
        · exact Or.inl hd
        · exact a1 x hx
      · rw [List.count_cons_of_ne (Ne.symm hne)]; exact a2
      · unfold noPair at a3 ⊢
        cases rest with
        | nil => simp
        | cons d t => rw [List.chain'_cons]; exact ⟨fun hh => hne hh.1, a3⟩
      · intro _; simpa using hne
    · rw [if_neg hd] at h
      by_cases hdot : c = '.'
      · subst hdot
        rw [if_pos rfl] at h
        split at h
        · simp at h
        split at h
        · simp at h
        rename_i hprev hlen
        have hf' : (fields ++ [val]).length ≤ 3 := by simp; omega
        obtain ⟨a1, a2, a3, a4⟩ := ih _ _ _ _ _ hf' h
        refine ⟨?_, ?_, ?_, ?_⟩
        · intro x hx
          rcases List.mem_cons.1 hx with rfl | hx
          · exact Or.inr rfl
          · exact a1 x hx
        · rw [List.count_cons_self]; simp at a2; omega
        · unfold noPair at a3 ⊢
          cases rest with
          | nil => simp
          | cons d t =>
            rw [List.chain'_cons]
            refine ⟨fun hh => ?_, a3⟩
            have := a4 rfl
            simp at this
            exact this hh.2
        · intro hp; exact absurd (Or.inr (Or.inr hp)) hprev
      · rw [if_neg hdot] at h
        simp at h

theorem parseIPv4_shape (l : List Char) (f : List Nat) (h : parseIPv4 l = some f) :
    (∀ c ∈ l, isDigit c = true ∨ c = '.') ∧ l.count '.' = 3 ∧ noPair '.' l := by
  obtain ⟨a1, a2, a3, _⟩ := parseIPv4Fields_shape l none 0 0 [] f (by simp) h
  exact ⟨a1, by simpa using a2, a3⟩


theorem parseHex_spec (s : List Char) : ∀ (off acc off' acc' : Nat) (rest : List Char),
    parseHex s off acc = some (off', acc', rest) →
    ∃ pre, s = pre ++ rest ∧ (∀ c ∈ pre, isHex c = true) ∧ off' = off + pre.length ∧
      ∀ c, rest.head? = some c → isHex c = false := by
  induction s with
  | nil =>
    intro off acc off' acc' rest h
    simp only [parseHex, Option.some.injEq, Prod.mk.injEq] at h
    obtain ⟨rfl, -, rfl⟩ := h
    exact ⟨[], by simp⟩
  | cons c t ih =>
    intro off acc off' acc' rest h
    simp only [parseHex] at h
    by_cases hc : isHex c = true
    · rw [if_pos hc] at h
      split at h
      · simp at h
      split at h
      · simp at h
      obtain ⟨pre, e1, e2, e3, e4⟩ := ih _ _ _ _ _ h
      refine ⟨c :: pre, by simp [e1], ?_, by simp [e3]; omega, e4⟩
      intro x hx
      rcases List.mem_cons.1 hx with rfl | hx
      · exact hc
      · exact e2 x hx
    · rw [if_neg hc] at h
      simp only [Option.some.injEq, Prod.mk.injEq] at h
      obtain ⟨rfl, -, rfl⟩ := h
      exact ⟨[], by simp, by simp, by simp, by intro x hx; simp at hx; subst hx; simpa using hc⟩

theorem isHex_ne_dot {c : Char} (h : isHex c = true) : c ≠ '.' := by
  rintro rfl; revert h; decide

theorem isHex_ne_colon {c : Char} (h : isHex c = true) : c ≠ ':' := by
  rintro rfl; revert h; decide

theorem isHex_of_isDigit {c : Char} (h : isDigit c = true) : isHex c = true := by
  simp [isHex, h]

theorem noPair_append_cons (x y : Char) (pre t : List Char) (hpre : ∀ c ∈ pre, c ≠ x)
    (hy : y ≠ x) (ht : noPair x t) : noPair x (pre ++ y :: t) := by
  unfold noPair at ht ⊢
  induction pre with
  | nil =>
    cases t with
    | nil => simp
    | cons d t => rw [List.nil_append, List.chain'_cons]; exact ⟨fun h => hy h.1, ht⟩
  | cons c pre ih =>
    have ih' := ih (fun c hc => hpre c (List.mem_cons_of_mem _ hc))
    cases pre with
    | nil =>
      rw [List.singleton_append, List.chain'_cons]
      exact ⟨fun h => hy h.2, by simpa using ih'⟩
    | cons d pre =>
      rw [List.cons_append, List.cons_append, List.chain'_cons]
      exact ⟨fun h => hpre c (List.mem_cons_self _ _) h.1, by simpa using ih'⟩

theorem not_noPair_append (x : Char) (pre t : List Char) (ht : ¬ noPair x t) :
    ¬ noPair x (pre ++ t) := by
  unfold noPair at ht ⊢
  intro h
  exact ht (List.Chain'.right_of_append h)

theorem count_append_hex (x : Char) (pre t : List Char) (hpre : ∀ c ∈ pre, c ≠ x) :
    (pre ++ t).count x = t.count x := by
  rw [List.count_append, List.count_eq_zero.2 (fun h => hpre x h rfl), Nat.zero_add]


theorem noPair_of_forall_ne (x : Char) (l : List Char) (h : ∀ c ∈ l, c ≠ x) : noPair x l := by
  unfold noPair
  induction l with
  | nil => simp
  | cons c t ih =>
    cases t with
    | nil => simp
    | cons d t =>
      rw [List.chain'_cons]
      exact ⟨fun hh => h c (List.mem_cons_self _ _) hh.1,
        ih (fun c hc => h c (List.mem_cons_of_mem _ hc))⟩

theorem okChar_of_hex_append (pre t : List Char) (hpre : ∀ c ∈ pre, isHex c = true)
    (ht : ∀ c ∈ t, isHex c = true ∨ c = ':' ∨ c = '.') :
    ∀ c ∈ pre ++ t, isHex c = true ∨ c = ':' ∨ c = '.' := by
  intro c hc
  rcases List.mem_append.1 hc with h | h
  · exact Or.inl (hpre c h)
  · exact ht c h

theorem parseIPv6Loop_spec (fuel : Nat) : ∀ (s : List Char) (i : Nat) (ell : Option Nat)
    (ip : List Nat) (s' : List Char) (i' : Nat) (ell' : Option Nat) (ip' : List Nat),
    parseIPv6Loop fuel s i ell ip = some (s', i', ell', ip') →
    i' ≤ i + 2 * s.count ':' + 4 ∧
    (s' = [] → (∀ c ∈ s, isHex c = true ∨ c = ':' ∨ c = '.') ∧ noPair '.' s ∧
      (ell = none → ell' ≠ none → ¬ noPair ':' s)) := by
  induction fuel with
  | zero =>
    intro s i ell ip s' i' ell' ip' h
    simp only [parseIPv6Loop, Option.some.injEq, Prod.mk.injEq] at h
    obtain ⟨rfl, rfl, rfl, rfl⟩ := h
    refine ⟨by omega, ?_⟩
    rintro rfl
    exact ⟨by simp, by simp [noPair], fun h1 h2 => absurd h1 h2⟩
  | succ fuel ih =>
    intro s i ell ip s' i' ell' ip' h
    simp only [parseIPv6Loop] at h
    split at h
    · simp only [Option.some.injEq, Prod.mk.injEq] at h
      obtain ⟨rfl, rfl, rfl, rfl⟩ := h
      refine ⟨by omega, ?_⟩
      rintro rfl
      exact ⟨by simp, by simp [noPair], fun h1 h2 => absurd h1 h2⟩
    split at h
    · simp at h
    rename_i off acc rest hhex
    obtain ⟨pre, e1, e2, e3, e4⟩ := parseHex_spec _ _ _ _ _ _ hhex
    have hpd : ∀ c ∈ pre, c ≠ '.' := fun c hc => isHex_ne_dot (e2 c hc)
    have hpc : ∀ c ∈ pre, c ≠ ':' := fun c hc => isHex_ne_colon (e2 c hc)
    by_cases hoff : off = 0
    · simp [hoff] at h
    rw [if_neg hoff] at h
    by_cases hdot : rest.head? = some '.'
    · -- trailing dotted quad
      rw [if_pos hdot] at h
      split at h
      · simp at h
      split at h
      · simp at h
      split at h
      · simp at h
      rename_i f hf
      simp only [Option.some.injEq, Prod.mk.injEq] at h
      obtain ⟨rfl, rfl, rfl, rfl⟩ := h
      obtain ⟨a1, a2, a3⟩ := parseIPv4_shape s f hf
      refine ⟨by omega, fun _ => ⟨?_, a3, fun h1 h2 => absurd h1 h2⟩⟩
      intro c hc
      rcases a1 c hc with h | h
      · exact Or.inl (isHex_of_isDigit h)
      · exact Or.inr (Or.inr h)
    rw [if_neg hdot] at h
    cases rest with
    | nil =>
      -- the text ends after the group
      simp only [Option.some.injEq, Prod.mk.injEq] at h
      obtain ⟨rfl, rfl, rfl, rfl⟩ := h
      simp only [List.append_nil] at e1
      subst e1
      refine ⟨by omega, fun _ => ⟨fun c hc => Or.inl (e2 c hc), ?_, fun h1 h2 => absurd h1 h2⟩⟩
      exact noPair_of_forall_ne _ _ hpd
    | cons c t =>
      dsimp only at h
      by_cases hc : c = ':'
      swap
      · simp [hc] at h
      subst hc
      simp only [ne_eq, not_true_eq_false, if_false] at h
      cases t with
      | nil => simp at h
      | cons d t2 =>
        dsimp only at h
        by_cases hd : d = ':'
        · subst hd
          simp only [if_true] at h
          by_cases hell : ell = none
          swap
          · simp [hell] at h
          simp only [hell, ne_eq, not_true_eq_false, if_false] at h
          have hcnt : s.count ':' = t2.count ':' + 2 := by
            rw [e1, count_append_hex _ _ _ hpc]; simp [List.count_cons]
          have hbad : ¬ noPair ':' s := by
            rw [e1]
            apply not_noPair_append
            unfold noPair
            rw [List.chain'_cons]
            simp
          by_cases ht2 : t2 = []
          · subst ht2
            simp only [if_true, Option.some.injEq, Prod.mk.injEq] at h
            obtain ⟨rfl, rfl, rfl, rfl⟩ := h
            refine ⟨by omega, fun _ => ⟨?_, ?_, fun _ _ => hbad⟩⟩
            · rw [e1]; exact okChar_of_hex_append _ _ e2 (by simp)
            · rw [e1]; exact noPair_of_forall_ne _ _ (by
                intro c hc
                rcases List.mem_append.1 hc with h | h
                · exact hpd c h
                · simp at h; subst h; decide)
          · rw [if_neg ht2] at h
            obtain ⟨b1, b2⟩ := ih _ _ _ _ _ _ _ _ h
            refine ⟨by omega, fun hs => ?_⟩
            obtain ⟨c1, c2, -⟩ := b2 hs
            refine ⟨?_, ?_, fun _ _ => hbad⟩
            · rw [e1]
              refine okChar_of_hex_append _ _ e2 ?_
              intro c hc
              simp only [List.mem_cons] at hc
              rcases hc with rfl | rfl | hc
              · simp
              · simp
              · exact c1 c hc
            · rw [e1]
              exact noPair_append_cons _ _ _ _ hpd (by decide)
                (noPair_append_cons '.' ':' [] t2 (by simp) (by decide) c2)
        · rw [if_neg hd] at h
          obtain ⟨b1, b2⟩ := ih _ _ _ _ _ _ _ _ h
          have hcnt : s.count ':' = (d :: t2).count ':' + 1 := by
            rw [e1, count_append_hex _ _ _ hpc]; simp [List.count_cons]
          refine ⟨by omega, fun hs => ?_⟩
          obtain ⟨c1, c2, c3⟩ := b2 hs
          refine ⟨?_, ?_, ?_⟩
          · rw [e1]
            refine okChar_of_hex_append _ _ e2 ?_
            intro c hc
            rcases List.mem_cons.1 hc with rfl | hc
            · simp
            · exact c1 c hc
          · rw [e1]
            exact noPair_append_cons _ _ _ _ hpd (by decide) c2
          · intro h1 h2
            rw [e1]
            have : pre ++ ':' :: d :: t2 = (pre ++ [':']) ++ (d :: t2) := by simp
            rw [this]
            exact not_noPair_append _ _ _ (c3 h1 h2)

theorem finishIPv6_some (r : Option (List Char × Nat × Option Nat × List Nat)) (ip : IP)
    (h : finishIPv6 r = some ip) :
    ∃ i' ell' ip', r = some ([], i', ell', ip') ∧ (ell' = none → 16 ≤ i') := by
  match r, h with
  | some (s', i', ell', ip'), h =>
    simp only [finishIPv6] at h
    by_cases hs : s' = []
    · subst hs
      refine ⟨i', ell', ip', rfl, ?_⟩
      rintro rfl
      by_contra hlt
      simp [Nat.lt_of_not_le hlt] at h
    · simp [hs] at h

theorem parseIPv6_noEllipsis (s : List Char) (ip : IP)
    (h : finishIPv6 (parseIPv6Loop 8 s 0 none []) = some ip) :
    (∀ c ∈ s, isHex c = true ∨ c = ':' ∨ c = '.') ∧ noPair '.' s ∧
      (¬ noPair ':' s ∨ 6 ≤ s.count ':') := by
  obtain ⟨i', ell', ip', hr, hfin⟩ := finishIPv6_some _ _ h
  obtain ⟨b1, b2⟩ := parseIPv6Loop_spec _ _ _ _ _ _ _ _ _ hr
  obtain ⟨c1, c2, c3⟩ := b2 rfl
  refine ⟨c1, c2, ?_⟩
  by_cases he : ell' = none
  · right; have := hfin he; omega
  · left; exact c3 rfl he

theorem parseIPv6_shape (s : List Char) (ip : IP) (h : parseIPv6 s = some ip) :
    (∀ c ∈ s, isHex c = true ∨ c = ':' ∨ c = '.') ∧ noPair '.' s ∧
      (¬ noPair ':' s ∨ 6 ≤ s.count ':') := by
  unfold parseIPv6 at h
  split at h
  · rename_i c d t
    by_cases hcd : c = ':' ∧ d = ':'
    · obtain ⟨rfl, rfl⟩ := hcd
      simp only [and_self, if_true] at h
      have hbad : ¬ noPair ':' (':' :: ':' :: t) := by
        unfold noPair; rw [List.chain'_cons]; simp
      by_cases ht : t = []
      · subst ht
        exact ⟨by simp, by simp [noPair], Or.inl hbad⟩
      · rw [if_neg ht] at h
        obtain ⟨i', ell', ip', hr, -⟩ := finishIPv6_some _ _ h
        obtain ⟨-, b2⟩ := parseIPv6Loop_spec _ _ _ _ _ _ _ _ _ hr
        obtain ⟨c1, c2, -⟩ := b2 rfl
        refine ⟨?_, ?_, Or.inl hbad⟩
        · intro c hc
          simp only [List.mem_cons] at hc
          rcases hc with rfl | rfl | hc
          · simp
          · simp
          · exact c1 c hc
        · exact noPair_append_cons '.' ':' [] _ (by simp) (by decide)
            (noPair_append_cons '.' ':' [] t (by simp) (by decide) c2)
    · rw [if_neg hcd] at h
      exact parseIPv6_noEllipsis _ _ h
  · exact parseIPv6_noEllipsis _ _ h

theorem okChar_ne_dash {c : Char} (h : isHex c = true ∨ c = ':' ∨ c = '.') : c ≠ '-' := by
  rintro rfl; revert h; decide



/-! ## `net.ParseIP` on texts with and without a colon -/

theorem containsChars_single (x : Char) (l : List Char) :
    containsChars l [x] = true ↔ x ∈ l := by
  induction l with
  | nil => simp [containsChars]
  | cons c t ih =>
    simp only [containsChars, List.isPrefixOf, Bool.or_eq_true, ih, List.mem_cons]
    constructor
    · rintro (h | h)
      · left; simp at h; exact h
      · right; exact h
    · rintro (h | h)
      · left; simp [h]
      · right; exact h

theorem parseAddrScan_v4 (s : List Char) : ∀ t : List Char,
    (∀ c ∈ t, isDigit c = true ∨ c = '.') → '.' ∈ t →
    parseAddrScan s t = (parseIPv4 s).map v4InV6 := by
  intro t
  induction t with
  | nil => intro _ h; simp at h
  | cons c t ih =>
    intro hall hdot
    simp only [parseAddrScan]
    by_cases hc : c = '.'
    · simp [hc]
    · have hd : isDigit c = true := by
        rcases hall c (List.mem_cons_self _ _) with h | h
        · exact h
        · exact absurd h hc
      have h1 : c ≠ ':' := by rintro rfl; revert hd; decide
      have h2 : c ≠ '%' := by rintro rfl; revert hd; decide
      rw [if_neg hc, if_neg h1, if_neg h2]
      refine ih (fun x hx => hall x (List.mem_cons_of_mem _ hx)) ?_
      rcases List.mem_cons.1 hdot with h | h
      · exact absurd h.symm hc
      · exact h

theorem parseAddrScan_none (s : List Char) (h4 : parseIPv4 s = none) (h6 : parseIPv6 s = none) :
    ∀ t : List Char, parseAddrScan s t = none := by
  intro t
  induction t with
  | nil => rfl
  | cons c t ih =>
    simp only [parseAddrScan]
    split
    · simp [h4]
    split
    · exact h6
    split
    · rfl
    · exact ih

theorem parseIPv4_none_of_colon (l : List Char) (h : ':' ∈ l) : parseIPv4 l = none := by
  cases hp : parseIPv4 l with
  | none => rfl
  | some f =>
    obtain ⟨a1, -, -⟩ := parseIPv4_shape l f hp
    rcases a1 _ h with h | h
    · exact absurd h (by decide)
    · exact absurd h (by decide)

theorem parseIPv6_none_of_no_colon (l : List Char) (h : ':' ∉ l) : parseIPv6 l = none := by
  cases hp : parseIPv6 l with
  | none => rfl
  | some ip =>
    obtain ⟨-, -, a3⟩ := parseIPv6_shape l ip hp
    have hc : l.count ':' = 0 := List.count_eq_zero.2 h
    rcases a3 with h3 | h3
    · exact absurd (noPair_of_forall_ne ':' l (fun c hc hcc => h (hcc ▸ hc))) h3
    · omega

/-- For text without a colon `net.ParseIP` is the IPv4 parser. -/
theorem ParseIP_of_no_colon (a : String) (h : Contains a ":" = false) :
    ParseIP a = (parseIPv4 a.data).map v4InV6 := by
  have hc : ':' ∉ a.data := by
    intro hm
    have := (containsChars_single ':' a.data).2 hm
    simp [Contains] at h
    rw [h] at this
    exact absurd this (by simp)
  unfold ParseIP
  cases hp : parseIPv4 a.data with
  | none => rw [parseAddrScan_none _ hp (parseIPv6_none_of_no_colon _ hc)]; rfl
  | some f =>
    obtain ⟨a1, a2, -⟩ := parseIPv4_shape _ f hp
    rw [parseAddrScan_v4 _ _ a1 (by
      have : 0 < a.data.count '.' := by omega
      exact List.count_pos_iff.1 this), hp]

theorem parseIPv6_first_colon (s : List Char) (ip : IP) (h : parseIPv6 s = some ip) :
    ∃ pre t, s = pre ++ ':' :: t ∧ ∀ c ∈ pre, isHex c = true := by
  unfold parseIPv6 at h
  have key : finishIPv6 (parseIPv6Loop 8 s 0 none []) = some ip →
      ∃ pre t, s = pre ++ ':' :: t ∧ ∀ c ∈ pre, isHex c = true := by
    intro h
    obtain ⟨i', ell', ip', hr, hfin⟩ := finishIPv6_some _ _ h
    rw [show (8 : Nat) = 7 + 1 from rfl, parseIPv6Loop] at hr
    rw [if_neg (by omega)] at hr
    split at hr
    · simp at hr
    rename_i off acc rest hhex
    obtain ⟨pre, e1, e2, e3, e4⟩ := parseHex_spec _ _ _ _ _ _ hhex
    by_cases hoff : off = 0
    · simp [hoff] at hr
    rw [if_neg hoff] at hr
    by_cases hdot : rest.head? = some '.'
    · simp [hdot] at hr
    rw [if_neg hdot] at hr
    cases rest with
    | nil =>
      simp only [Option.some.injEq, Prod.mk.injEq] at hr
      obtain ⟨-, rfl, rfl, -⟩ := hr
      have := hfin rfl
      omega
    | cons c t =>
      dsimp only at hr
      by_cases hc : c = ':'
      · subst hc
        exact ⟨pre, t, e1, e2⟩
      · simp [hc] at hr
  split at h
  · rename_i c d t
    by_cases hcd : c = ':' ∧ d = ':'
    · obtain ⟨rfl, rfl⟩ := hcd
      exact ⟨[], ':' :: t, rfl, by simp⟩
    · rw [if_neg hcd] at h
      exact key h
  · exact key h

theorem parseAddrScan_v6 (s : List Char) (pre t : List Char)
    (hpre : ∀ c ∈ pre, isHex c = true) :
    parseAddrScan s (pre ++ ':' :: t) = parseIPv6 s := by
  induction pre with
  | nil => simp [parseAddrScan]
  | cons c pre ih =>
    have hc := hpre c (List.mem_cons_self _ _)
    have h1 : c ≠ '.' := isHex_ne_dot hc
    have h2 : c ≠ ':' := isHex_ne_colon hc
    have h3 : c ≠ '%' := by rintro rfl; revert hc; decide
    simp only [List.cons_append, parseAddrScan]
    rw [if_neg h1, if_neg h2, if_neg h3]
    exact ih (fun x hx => hpre x (List.mem_cons_of_mem _ hx))

/-- For text with a colon `net.ParseIP` is the IPv6 parser. -/
theorem ParseIP_of_colon (a : String) (h : Contains a ":" = true) :
    ParseIP a = parseIPv6 a.data := by
  have hc : ':' ∈ a.data := (containsChars_single ':' a.data).1 (by simpa [Contains] using h)
  unfold ParseIP
  cases hp : parseIPv6 a.data with
  | none => exact parseAddrScan_none _ (parseIPv4_none_of_colon _ hc) hp _
  | some ip =>
    obtain ⟨pre, t, e1, e2⟩ := parseIPv6_first_colon _ ip hp
    have := parseAddrScan_v6 a.data pre t e2
    rw [← e1] at this
    rw [this, hp]

/-! ## Labels and zone matching -/

theorem splitPieces_ne_nil (l : List Char) : ∀ esc, splitPieces l esc ≠ [] := by
  induction l with
  | nil => intro esc; simp [splitPieces]
  | cons c t ih =>
    intro esc
    cases t with
    | nil => simp [splitPieces]
    | cons d t =>
      simp only [splitPieces]
      split
      · simp
      · split <;> simp

theorem splitPieces_join (l : List Char) : ∀ esc, (splitPieces l esc).flatten = l := by
  induction l with
  | nil => intro esc; simp [splitPieces]
  | cons c t ih =>
    intro esc
    cases t with
    | nil => simp [splitPieces]
    | cons d t =>
      simp only [splitPieces]
      split
      · simp [ih false]
      · have := ih (nextEsc c esc)
        split
        · rename_i h; exact absurd h (splitPieces_ne_nil _ _)
        · rename_i p ps h
          rw [h] at this
          simp only [List.flatten_cons, List.cons_append] at this ⊢
          rw [this]

theorem sum_length_namePieces (s : String) (hs : s ≠ ".") :
    ((namePieces s).map List.length).sum = len s := by
  unfold namePieces len
  rw [if_neg hs, ← List.length_flatten, splitPieces_join]

theorem equalFold_refl (a : List Char) : equalFold a a = true := by
  simp [equalFold]

theorem equalFold_length {a b : List Char} (h : equalFold a b = true) : a.length = b.length := by
  simp only [equalFold, beq_iff_eq] at h
  have := congrArg List.length h
  simpa using this

theorem commonLen_self (a : List (List Char)) : commonLen a a = a.length := by
  induction a with
  | nil => rfl
  | cons x xs ih => simp [commonLen, equalFold_refl, ih]

theorem commonLen_le (a : List (List Char)) : ∀ b, commonLen a b ≤ a.length := by
  induction a with
  | nil => intro b; simp [commonLen]
  | cons x xs ih =>
    intro b
    cases b with
    | nil => simp [commonLen]
    | cons y ys =>
      simp only [commonLen]
      split
      · have := ih ys; simp; omega
      · simp

theorem sum_le_of_commonLen (a : List (List Char)) : ∀ b, commonLen a b = a.length →
    (a.map List.length).sum ≤ (b.map List.length).sum := by
  induction a with
  | nil => intro b _; simp
  | cons x xs ih =>
    intro b h
    cases b with
    | nil => simp [commonLen] at h
    | cons y ys =>
      simp only [commonLen] at h
      split at h
      · rename_i he
        have h' : commonLen xs ys = xs.length := by simpa using h
        have := ih ys h'
        have hl := equalFold_length he
        simp only [List.map_cons, List.sum_cons]
        omega
      · simp at h

theorem IsSubDomain_self (q : String) : IsSubDomain q q = true := by
  unfold IsSubDomain CompareDomainName CountLabel
  by_cases hq : q = "."
  · subst hq; decide
  · simp [hq, commonLen_self]

theorem len_pos_of_ne_empty (q : String) (hq : q ≠ "") : 0 < len q := by
  obtain ⟨l⟩ := q
  cases l with
  | nil => exact absurd rfl hq
  | cons c t => simp [len]

theorem len_le_of_IsSubDomain (z q : String) (hq : q ≠ "") (h : IsSubDomain z q = true) :
    len z ≤ len q := by
  have hqpos := len_pos_of_ne_empty q hq
  by_cases hz : z = "."
  · subst hz
    have : len "." = 1 := by decide
    omega
  · unfold IsSubDomain CompareDomainName CountLabel at h
    by_cases hq1 : q = "."
    · subst hq1
      simp only [or_true, if_true, decide_eq_true_eq] at h
      have := splitPieces_ne_nil z.data false
      have h2 : (namePieces z).length = 0 := h.symm
      simp only [namePieces, if_neg hz, List.length_eq_zero] at h2
      exact absurd h2 this
    · simp only [hz, hq1, or_self, if_false, decide_eq_true_eq] at h
      have h' : commonLen (namePieces z).reverse (namePieces q).reverse
          = (namePieces z).reverse.length := by simpa using h
      have := sum_le_of_commonLen _ _ h'
      rw [List.map_reverse, List.map_reverse, List.sum_reverse, List.sum_reverse,
        sum_length_namePieces z hz, sum_length_namePieces q hq1] at this
      exact this

theorem foldl_matches (q : String) (zs : List String) : ∀ init : String,
    (zs.foldl (fun zone zname =>
        if IsSubDomain zname q = true ∧ len zone < len zname then zname else zone) init = init ∨
      (zs.foldl (fun zone zname =>
        if IsSubDomain zname q = true ∧ len zone < len zname then zname else zone) init ∈ zs ∧
       IsSubDomain (zs.foldl (fun zone zname =>
        if IsSubDomain zname q = true ∧ len zone < len zname then zname else zone) init) q = true)) ∧
    len init ≤ len (zs.foldl (fun zone zname =>
        if IsSubDomain zname q = true ∧ len zone < len zname then zname else zone) init) ∧
    ∀ z ∈ zs, IsSubDomain z q = true → len z ≤ len (zs.foldl (fun zone zname =>
        if IsSubDomain zname q = true ∧ len zone < len zname then zname else zone) init) := by
  induction zs with
  | nil => intro init; simp
  | cons z zs ih =>
    intro init
    simp only [List.foldl_cons]
    by_cases hc : IsSubDomain z q = true ∧ len init < len z
    · rw [if_pos hc]
      obtain ⟨a1, a2, a3⟩ := ih z
      refine ⟨?_, by omega, ?_⟩
      · right
        rcases a1 with h | h
        · rw [h]; exact ⟨List.mem_cons_self _ _, hc.1⟩
        · exact ⟨List.mem_cons_of_mem _ h.1, h.2⟩
      · intro x hx hs
        rcases List.mem_cons.1 hx with rfl | hx
        · exact a2
        · exact a3 x hx hs
    · rw [if_neg hc]
      obtain ⟨a1, a2, a3⟩ := ih init
      refine ⟨?_, a2, ?_⟩
      · rcases a1 with h | h
        · left; exact h
        · right; exact ⟨List.mem_cons_of_mem _ h.1, h.2⟩
      · intro x hx hs
        rcases List.mem_cons.1 hx with rfl | hx
        · by_cases hl : len init < len x
          · exact absurd ⟨hs, hl⟩ hc
          · omega
        · exact a3 x hx hs

/-- The zone that `Matches` returns is empty or a configured zone above the name. -/
theorem Matches_mem (zs : List String) (q : String) :
    Matches zs q = "" ∨ (Matches zs q ∈ zs ∧ IsSubDomain (Matches zs q) q = true) :=
  (foldl_matches q zs "").1

/-- No configured zone above the name is longer than the zone `Matches` returns. -/
theorem Matches_longest (zs : List String) (q z : String) (hz : z ∈ zs)
    (h : IsSubDomain z q = true) : len z ≤ len (Matches zs q) :=
  (foldl_matches q zs "").2.2 z hz h

theorem Matches_len_le (zs : List String) (q : String) (hq : q ≠ "") :
    len (Matches zs q) ≤ len q := by
  rcases Matches_mem zs q with h | h
  · rw [h]; exact Nat.zero_le _
  · exact len_le_of_IsSubDomain _ _ hq h.2

theorem zones_ne_nil (zs : List String) (q : String) (h : Matches zs q ≠ "") :
    ∃ z rest, zs = z :: rest := by
  cases zs with
  | nil => exact absurd rfl h
  | cons z rest => exact ⟨z, rest, rfl⟩

theorem len_ToLower (s : String) : len (ToLower s) = len s := by
  simp [len, ToLower]

theorem ToLower_ne_empty (s : String) (h : s ≠ "") : ToLower s ≠ "" := by
  intro h'
  have h1 := len_pos_of_ne_empty s h
  have h2 : len (ToLower s) = 0 := by rw [h']; rfl
  rw [len_ToLower] at h2
  omega

theorem sliceFrom_zero (s : String) : sliceFrom s 0 = some s := by
  obtain ⟨l⟩ := s
  simp [sliceFrom, slice, len]

/-! ## The handler: general facts -/

theorem soa_eq (k : KubePods) (now : Nat) (h : k.Zones ≠ []) :
    soa k now = some (soaRecord (zone0 k) k.ttl now) := by
  unfold soa zone0 soaRecord
  cases hz : k.Zones with
  | nil => exact absurd hz h
  | cons z rest => rfl

theorem nodata_eq (k : KubePods) (now : Nat) (h : k.Zones ≠ []) :
    nodata k now = nodataReply k now := by
  unfold nodata
  rw [soa_eq k now h]
  rfl

theorem nxdomain_eq (k : KubePods) (state : Request) (now : Nat) (h : k.Zones ≠ []) :
    nxdomain k state now = nxdomainOrNext k state now := by
  unfold nxdomain nxdomainOrNext
  rw [soa_eq k now h]
  rfl

theorem zones_ne_nil_of_belowApex {k : KubePods} {state : Request} {zone : String}
    (h : belowApex k state zone) : k.Zones ≠ [] := by
  obtain ⟨z, rest, hz⟩ := zones_ne_nil _ _ h.1
  rw [hz]; simp

/-- Below the apex of a zone `ServeDNS` is the reverse branch for type PTR and the
forward branch on the labels of the pod domain otherwise. -/
theorem ServeDNS_below (k : KubePods) (state : Request) (now : Nat) (zone : String)
    (h : belowApex k state zone) :
    ServeDNS k state now =
      if state.QType = TypePTR then serveReverse k state now
      else
        match podDomain state zone with
        | none => ⟨.panic, []⟩
        | some d => serveSegments k state now (SplitDomainName d) := by
  obtain ⟨h1, h2, h3⟩ := h
  unfold ServeDNS
  rw [if_neg h1, h2]
  simp only [if_neg h3]

theorem ServeDNS_forward (k : KubePods) (state : Request) (now : Nat) (zone : String)
    (segs : List String) (h : belowApex k state zone) (htype : state.QType ≠ TypePTR)
    (hseg : podSegments state zone = some segs) :
    ServeDNS k state now = serveSegments k state now segs := by
  rw [ServeDNS_below k state now zone h, if_neg htype]
  unfold podSegments at hseg
  cases hd : podDomain state zone with
  | none => rw [hd] at hseg; simp at hseg
  | some d =>
    rw [hd] at hseg
    simp only [Option.map_some', Option.some.injEq] at hseg
    simp only [hseg]

theorem answerItems_nil (k : KubePods) (state : Request) (now : Nat) (reads : List IndexRead)
    (h : k.Zones ≠ []) :
    answerItems k state now [] reads = ⟨nxdomainOrNext k state now, reads⟩ := by
  simp [answerItems, nxdomain_eq k state now h]

/-! ## The forward branch: matched items and their records -/

theorem aRecords_eq (k : KubePods) (qname : String) (pod : Pod) :
    aRecords k qname pod = ipv4Answers k qname pod.PodIPs := by
  unfold aRecords ipv4Answers
  congr 1
  funext a
  by_cases hc : Contains a ":" = true
  · have hm : ':' ∈ a.data := (containsChars_single ':' a.data).1 (by simpa [Contains] using hc)
    simp [hc, parseIPv4_none_of_colon _ hm]
  · have hc' : Contains a ":" = false := by simpa using hc
    rw [if_neg hc, ParseIP_of_no_colon a hc']
    cases parseIPv4 a.data <;> rfl

theorem aaaaRecords_eq (k : KubePods) (qname : String) (pod : Pod) :
    aaaaRecords k qname pod = ipv6Answers k qname pod.PodIPs := by
  unfold aaaaRecords ipv6Answers
  congr 1
  funext a
  by_cases hc : Contains a ":" = true
  · rw [if_neg (by simpa using hc), ParseIP_of_colon a hc]
    cases parseIPv6 a.data <;> rfl
  · have hm : ':' ∉ a.data := fun hm =>
      hc (by simpa [Contains] using (containsChars_single ':' a.data).2 hm)
    simp [hc, parseIPv6_none_of_no_colon _ hm]

theorem addressRecords_pods (k : KubePods) (state : Request) (pods : List Pod) :
    addressRecords k state (pods.map Obj.pod) =
      .ok (pods.flatMap fun pod => answersFor k state.Name state.QType pod.PodIPs) := by
  induction pods with
  | nil => rfl
  | cons pod rest ih =>
    simp only [List.map_cons, addressRecords, ih, List.flatMap_cons, answersFor,
      aRecords_eq, aaaaRecords_eq]
    have hAB : TypeA ≠ TypeAAAA := by decide
    have hBA : TypeAAAA ≠ TypeA := by decide
    by_cases h1 : state.QType = TypeA
    · simp [h1, hAB]
    · by_cases h2 : state.QType = TypeAAAA
      · simp [h2, hBA]
      · simp [h1, h2]

theorem answerItems_pods (k : KubePods) (state : Request) (now : Nat) (pods : List Pod)
    (reads : List IndexRead) (hne : pods ≠ []) :
    answerItems k state now (pods.map Obj.pod) reads =
      ⟨answerReply (pods.flatMap fun pod => answersFor k state.Name state.QType pod.PodIPs),
        reads⟩ := by
  unfold answerItems
  have : (pods.map Obj.pod).length ≠ 0 := by
    simpa using hne
  rw [if_neg this, addressRecords_pods]
  rfl

theorem answerItems_outcome (k : KubePods) (state : Request) (now : Nat) (items : List Obj)
    (reads : List IndexRead) :
    (answerItems k state now items reads).outcome = (answerItems k state now items []).outcome := by
  unfold answerItems
  split
  · rfl
  · split <;> rfl

theorem join_key (seg0 seg1 : String) : Join [seg1, "/", seg0] "" = seg1 ++ "/" ++ seg0 := by
  simp [Join, String.intercalate, String.intercalate.go]

/-- Outside mode `echo-ip` the outcome of a two-label query is the server failure of an
index error, or the end of `ServeDNS` on the matched items. -/
theorem byDashedIP_outcome (k : KubePods) (state : Request) (now : Nat) (key : String)
    (indexer : Indexer) (hidx : k.indexer = some indexer) :
    (byDashedIP k state now key).outcome =
      match matchedItems k indexer key with
      | .error err => .failure RcodeServerFailure err
      | .ok items => (answerItems k state now items []).outcome := by
  unfold byDashedIP matchedItems byKey
  simp only [hidx]
  by_cases h1 : k.mode = modeIP ∨ k.mode = modeNameAndIP
  · simp only [if_pos h1]
    cases hd : indexer.ByIndex "dashedip" key with
    | error err => rfl
    | ok dashed =>
      simp only []
      by_cases h2 : k.mode = modeName ∨ k.mode = modeNameAndIP
      · simp only [if_pos h2]
        cases hg : indexer.GetByKey key with
        | error err => rfl
        | ok primary =>
          cases primary with
          | none => simp [answerItems_outcome k state now dashed]
          | some item => simp [answerItems_outcome k state now (dashed ++ [item])]
      · simp [if_neg h2, answerItems_outcome k state now dashed]
  · simp only [if_neg h1]
    by_cases h2 : k.mode = modeName ∨ k.mode = modeNameAndIP
    · simp only [if_pos h2]
      cases hg : indexer.GetByKey key with
      | error err => rfl
      | ok primary =>
        cases primary with
        | none => simp [answerItems_outcome k state now []]
        | some item => simp [answerItems_outcome k state now [item]]
    · simp [if_neg h2]

/-- The outcome of a two-label forward query outside mode `echo-ip`. -/
theorem ServeDNS_two_labels (k : KubePods) (state : Request) (now : Nat) (zone x ns : String)
    (indexer : Indexer) (hmode : k.mode ≠ modeEchoIP) (hidx : k.indexer = some indexer)
    (hzone : belowApex k state zone) (htype : state.QType ≠ TypePTR)
    (hseg : podSegments state zone = some [x, ns]) :
    (ServeDNS k state now).outcome =
      match matchedItems k indexer (ns ++ "/" ++ x) with
      | .error err => .failure RcodeServerFailure err
      | .ok items => (answerItems k state now items []).outcome := by
  rw [ServeDNS_forward k state now zone _ hzone htype hseg]
  simp only [serveSegments, if_neg hmode, join_key]
  exact byDashedIP_outcome k state now _ indexer hidx

/-! ## Queries written as `x.ns.<zone>` and `ns.<zone>`

The statements below describe a query by the labels of its name below the matched zone
(`belowApex`, `podSegments`).  These lemmas show that the names `x.ns.<zone>` and
`ns.<zone>` built from plain labels are such queries. -/

theorem splitPieces_plain (x : List Char) (hx : ∀ c ∈ x, c ≠ '.' ∧ c ≠ escapeChar) :
    splitPieces x false = [x] := by
  induction x with
  | nil => rfl
  | cons c t ih =>
    have hc := hx c (List.mem_cons_self _ _)
    have ih' := ih (fun d hd => hx d (List.mem_cons_of_mem _ hd))
    cases t with
    | nil => rfl
    | cons d t =>
      simp only [splitPieces, hc.1, false_and, if_false, nextEsc, hc.2, ih']

theorem splitPieces_label_dot (x rest : List Char) (hx : ∀ c ∈ x, c ≠ '.' ∧ c ≠ escapeChar)
    (hrest : rest ≠ []) :
    splitPieces (x ++ '.' :: rest) false = (x ++ ['.']) :: splitPieces rest false := by
  induction x with
  | nil =>
    cases rest with
    | nil => exact absurd rfl hrest
    | cons d t => simp [splitPieces]
  | cons c t ih =>
    have hc := hx c (List.mem_cons_self _ _)
    have ih' := ih (fun d hd => hx d (List.mem_cons_of_mem _ hd))
    cases ht : t ++ '.' :: rest with
    | nil => simp at ht
    | cons d t' =>
      rw [List.cons_append, ht]
      simp only [splitPieces, hc.1, false_and, if_false, nextEsc, hc.2]
      rw [← ht, ih']
      simp

theorem IsFqdn_of_plain_end (pre : List Char) (ns : String) (hns : plainLabel ns) :
    IsFqdn ⟨pre ++ ns.data⟩ = false := by
  obtain ⟨l⟩ := ns
  obtain ⟨h1, h2⟩ := hns
  have hl : l ≠ [] := fun h => h1 (by rw [h])
  unfold IsFqdn
  simp only [List.reverse_append]
  cases hr : l.reverse with
  | nil => simp at hr; exact absurd hr hl
  | cons c r =>
    have hc : c ∈ l := by
      have : c ∈ l.reverse := by rw [hr]; exact List.mem_cons_self _ _
      exact List.mem_reverse.1 this
    simp [(h2 c hc).1]

/-- The labels of `x.ns` are `x` and `ns`. -/
theorem SplitDomainName_two (x ns : String) (hx : ∀ c ∈ x.data, c ≠ '.' ∧ c ≠ escapeChar)
    (hns : plainLabel ns) : SplitDomainName (x ++ "." ++ ns) = [x, ns] := by
  have hfq := IsFqdn_of_plain_end (x.data ++ ['.']) ns hns
  obtain ⟨lx⟩ := x
  obtain ⟨ln⟩ := ns
  obtain ⟨h1, h2⟩ := hns
  have hl : ln ≠ [] := fun h => h1 (by rw [h])
  have hdata : (String.mk lx ++ "." ++ String.mk ln) = ⟨lx ++ '.' :: ln⟩ := by
    apply String.ext
    show (lx ++ ['.']) ++ ln = lx ++ '.' :: ln
    simp
  have hfq' : IsFqdn ⟨lx ++ '.' :: ln⟩ = false := by simpa using hfq
  rw [hdata]
  unfold SplitDomainName namePieces
  have hne1 : (String.mk (lx ++ '.' :: ln)) ≠ "" := by
    intro h
    have := congrArg List.length (congrArg String.data h)
    simp at this
  have hne2 : (String.mk (lx ++ '.' :: ln)) ≠ "." := by
    intro h
    have h' := congrArg List.length (congrArg String.data h)
    have hlpos : 0 < ln.length := List.length_pos.2 hl
    simp at h'
    omega
  rw [if_neg hne1, if_neg hne2, hfq', splitPieces_label_dot lx ln hx hl,
    splitPieces_plain ln h2]
  simp [labelsOf]

/-- The only label of `ns` is `ns`. -/
theorem SplitDomainName_one (ns : String) (hns : plainLabel ns) : SplitDomainName ns = [ns] := by
  have hfq := IsFqdn_of_plain_end [] ns hns
  obtain ⟨ln⟩ := ns
  obtain ⟨h1, h2⟩ := hns
  have hne2 : (String.mk ln) ≠ "." := by
    intro h
    have := congrArg String.data h
    simp at this
    have := h2 '.' (by rw [this]; simp)
    exact this.1 rfl
  have hfq' : IsFqdn ⟨ln⟩ = false := by simpa using hfq
  unfold SplitDomainName namePieces
  rw [if_neg h1, if_neg hne2, hfq', splitPieces_plain ln h2]
  simp [labelsOf]

theorem slice_take (l : List Char) (n : Nat) (h : n ≤ l.length) :
    slice ⟨l⟩ 0 (n : Int) = some ⟨l.take n⟩ := by
  unfold slice
  have : (0 : Int) ≤ 0 ∧ (0 : Int) ≤ (n : Int) ∧ (n : Int) ≤ ((len ⟨l⟩ : Nat) : Int) := by
    refine ⟨le_refl _, by omega, ?_⟩
    simp only [len]; omega
  rw [if_pos this]
  simp

theorem sliceFrom_drop (l : List Char) (n : Nat) (h : n ≤ l.length) :
    sliceFrom ⟨l⟩ (n : Int) = some ⟨l.drop n⟩ := by
  unfold sliceFrom slice
  have : (0 : Int) ≤ (n : Int) ∧ (n : Int) ≤ ((len ⟨l⟩ : Nat) : Int) ∧
      ((len ⟨l⟩ : Nat) : Int) ≤ ((len ⟨l⟩ : Nat) : Int) := by
    refine ⟨by omega, ?_, le_refl _⟩
    simp only [len]; omega
  rw [if_pos this]
  simp only [Int.toNat_ofNat, len]
  congr 1
  congr 1
  rw [List.take_of_length_le]
  simp

/-- The pod domain of a name `d.<zone>`, for a zone other than the root, is `d`. -/
theorem podDomain_of_append (state : Request) (d zone : String) (hz : zone ≠ ".")
    (hname : state.Name = d ++ "." ++ zone) : podDomain state zone = some d := by
  obtain ⟨ld⟩ := d
  obtain ⟨lz⟩ := zone
  have hdata : state.Name = ⟨ld ++ '.' :: lz⟩ := by
    rw [hname]
    apply String.ext
    show (ld ++ ['.']) ++ lz = ld ++ '.' :: lz
    simp
  unfold podDomain
  simp only [hdata, len, List.length_append, List.length_cons, if_neg hz]
  have h1 : ((ld.length + (lz.length + 1) : Nat) : Int) - (lz.length : Int) - 1 = (ld.length : Int) := by
    omega
  rw [h1, slice_take _ _ (by simp)]
  simp

/-- A query `x.ns.<zone>` with plain labels has the labels `x`, `ns` below the zone. -/
theorem podSegments_two (state : Request) (x ns zone : String)
    (hx : ∀ c ∈ x.data, c ≠ '.' ∧ c ≠ escapeChar) (hns : plainLabel ns) (hz : zone ≠ ".")
    (hname : state.Name = x ++ "." ++ ns ++ "." ++ zone) :
    podSegments state zone = some [x, ns] := by
  unfold podSegments
  rw [podDomain_of_append state (x ++ "." ++ ns) zone hz hname, Option.map_some',
    SplitDomainName_two x ns hx hns]

/-- A query `ns.<zone>` with a plain label has the one label `ns` below the zone. -/
theorem podSegments_one (state : Request) (ns zone : String) (hns : plainLabel ns)
    (hz : zone ≠ ".") (hname : state.Name = ns ++ "." ++ zone) :
    podSegments state zone = some [ns] := by
  unfold podSegments
  rw [podDomain_of_append state ns zone hz hname, Option.map_some', SplitDomainName_one ns hns]

/-- A query whose name, as asked, ends in the text `zone` of the length of the matched
zone, after a non-empty beginning, lies below the apex of `zone`. -/
theorem belowApex_of_append (k : KubePods) (state : Request) (d zone : String)
    (hmatch : Matches k.Zones state.Name ≠ "")
    (hlen : len (Matches k.Zones state.Name) = len zone)
    (hq : state.QName = d ++ zone) (hd : d ≠ "") : belowApex k state zone := by
  have hdpos := len_pos_of_ne_empty d hd
  obtain ⟨ld⟩ := d
  obtain ⟨lz⟩ := zone
  have hdata : state.QName = ⟨ld ++ lz⟩ := by
    rw [hq]; rfl
  have hnl : len state.Name = ld.length + lz.length := by
    rw [Request.Name, len_ToLower, hdata]; simp [len]
  refine ⟨hmatch, ?_, ?_⟩
  · unfold queryZone
    rw [hlen, hnl, hdata]
    simp only [len]
    have h1 : ((ld.length + lz.length : Nat) : Int) - (lz.length : Int) = (ld.length : Int) := by
      omega
    rw [h1, sliceFrom_drop _ _ (by simp)]
    simp
  · rw [hnl]
    simp only [len] at hdpos ⊢
    omega

/-! ## Reverse names: the address of the reverse name of an address -/

theorem intercalate_go_data (sep : String) (as : List String) : ∀ acc : String,
    (String.intercalate.go acc sep as).data =
      acc.data ++ as.flatMap fun a => sep.data ++ a.data := by
  induction as with
  | nil => intro acc; simp [String.intercalate.go]
  | cons a rest ih =>
    intro acc
    simp only [String.intercalate.go, ih, String.data_append, List.flatMap_cons,
      List.append_assoc]

theorem Join_data (ss : List String) (sep : Char) :
    (Join ss (String.singleton sep)).data = joinedBy sep (ss.map String.data) := by
  cases ss with
  | nil => rfl
  | cons a rest =>
    unfold Join
    simp only [String.intercalate, intercalate_go_data, List.map_cons, joinedBy,
      List.flatMap_map]
    rfl

theorem splitOnChar_append (sep : Char) (p : List Char) (hp : sep ∉ p) :
    ∀ (rest cur : List Char),
      splitOnChar sep (p ++ rest) cur = splitOnChar sep rest (p.reverse ++ cur) := by
  induction p with
  | nil => intro rest cur; rfl
  | cons c t ih =>
    intro rest cur
    simp only [List.mem_cons, not_or] at hp
    have hc : c ≠ sep := fun h => hp.1 h.symm
    rw [List.cons_append]
    simp only [splitOnChar, if_neg hc]
    rw [ih hp.2]
    simp

theorem splitOnChar_joinedBy (sep : Char) (ps : List (List Char)) :
    ∀ p, (∀ q ∈ p :: ps, sep ∉ q) → splitOnChar sep (joinedBy sep (p :: ps)) [] = p :: ps := by
  induction ps with
  | nil =>
    intro p h
    have := splitOnChar_append sep p (h p (List.mem_cons_self _ _)) [] []
    simp only [List.append_nil] at this
    simp only [joinedBy, List.flatMap_nil, List.append_nil, this, splitOnChar,
      List.reverse_reverse]
  | cons q rest ih =>
    intro p h
    have hq := ih q (fun x hx => h x (List.mem_cons_of_mem _ hx))
    simp only [joinedBy, List.flatMap_cons] at hq ⊢
    rw [splitOnChar_append sep p (h p (List.mem_cons_self _ _)), List.cons_append]
    simp only [splitOnChar, if_true, List.append_nil, List.reverse_reverse]
    rw [hq]

theorem Split_joinedBy (sep : Char) (p : List Char) (ps : List (List Char))
    (h : ∀ q ∈ p :: ps, sep ∉ q) :
    Split ⟨joinedBy sep (p :: ps)⟩ sep = (p :: ps).map String.mk := by
  unfold Split
  rw [splitOnChar_joinedBy sep ps p h]

theorem HasSuffix_append (p suffix : List Char) : HasSuffix ⟨p ++ suffix⟩ ⟨suffix⟩ = true := by
  unfold HasSuffix
  exact List.isSuffixOf_iff_suffix.2 (List.suffix_append p suffix)

theorem TrimSuffix_append (p suffix : List Char) : TrimSuffix ⟨p ++ suffix⟩ ⟨suffix⟩ = ⟨p⟩ := by
  unfold TrimSuffix
  rw [if_pos (HasSuffix_append p suffix)]
  congr 1
  exact List.take_left' (by simp)

theorem not_HasSuffix_ip6 (p : List Char) :
    HasSuffix ⟨p ++ ".ip6.arpa.".data⟩ ".in-addr.arpa." = false := by
  unfold HasSuffix List.isSuffixOf
  rw [List.reverse_append]
  rfl

theorem digitChar_dec : ∀ d < 10,
    isDigit (Nat.digitChar d) = true ∧ (Nat.digitChar d).toNat - 48 = d := by
  decide

theorem digitChar_hex : ∀ n < 16,
    isHex (Nat.digitChar n) = true ∧ hexVal (Nat.digitChar n) = n ∧
      Nat.digitChar n ≠ '.' ∧ Nat.digitChar n ≠ ':' ∧ Nat.digitChar n ≠ '%' := by
  decide

set_option maxRecDepth 100000 in
theorem toDigits10_cases : ∀ x < 256,
    (x < 10 → Nat.toDigits 10 x = [Nat.digitChar x]) ∧
    (10 ≤ x → x < 100 →
      Nat.toDigits 10 x = [Nat.digitChar (x / 10), Nat.digitChar (x % 10)]) ∧
    (100 ≤ x →
      Nat.toDigits 10 x =
        [Nat.digitChar (x / 100), Nat.digitChar (x / 10 % 10), Nat.digitChar (x % 10)]) := by
  decide

theorem parseIPv4Fields_digit (d : Nat) (hd : d < 10) (tail : List Char) (prev : Option Char)
    (val dl : Nat) (f : List Nat) (h0 : ¬ (dl = 1 ∧ val = 0)) (hv : val * 10 + d ≤ 255) :
    parseIPv4Fields (Nat.digitChar d :: tail) prev val dl f =
      parseIPv4Fields tail (some (Nat.digitChar d)) (val * 10 + d) (dl + 1) f := by
  obtain ⟨h1, h2⟩ := digitChar_dec d hd
  have hv' : ¬ (val * 10 + d > 255) := by omega
  simp only [parseIPv4Fields, h1, if_true, if_neg h0, h2, if_neg hv']

/-- The decimal text of a byte is read as the byte. -/
theorem parseIPv4Fields_octet (x : Nat) (hx : x < 256) (tail : List Char) (prev : Option Char)
    (f : List Nat) :
    ∃ c dl, isDigit c = true ∧
      parseIPv4Fields (Nat.toDigits 10 x ++ tail) prev 0 0 f =
        parseIPv4Fields tail (some c) x dl f := by
  obtain ⟨c1, c2, c3⟩ := toDigits10_cases x hx
  by_cases h10 : x < 10
  · rw [c1 h10]
    refine ⟨Nat.digitChar x, 1, (digitChar_dec x h10).1, ?_⟩
    rw [List.singleton_append, parseIPv4Fields_digit x h10 tail prev 0 0 f (by omega) (by omega)]
    simp
  · by_cases h100 : x < 100
    · rw [c2 (by omega) h100]
      have hd1 : x / 10 < 10 := by omega
      have hd0 : x % 10 < 10 := by omega
      refine ⟨Nat.digitChar (x % 10), 2, (digitChar_dec _ hd0).1, ?_⟩
      rw [List.cons_append, List.singleton_append,
        parseIPv4Fields_digit _ hd1 _ prev 0 0 f (by omega) (by omega),
        parseIPv4Fields_digit _ hd0 _ _ _ _ f (by omega) (by omega)]
      have : (0 * 10 + x / 10) * 10 + x % 10 = x := by omega
      rw [this]
    · rw [c3 (by omega)]
      have hd2 : x / 100 < 10 := by omega
      have hd1 : x / 10 % 10 < 10 := by omega
      have hd0 : x % 10 < 10 := by omega
      refine ⟨Nat.digitChar (x % 10), 3, (digitChar_dec _ hd0).1, ?_⟩
      rw [List.cons_append, List.cons_append, List.singleton_append,
        parseIPv4Fields_digit _ hd2 _ prev 0 0 f (by omega) (by omega),
        parseIPv4Fields_digit _ hd1 _ _ _ _ f (by omega) (by omega),
        parseIPv4Fields_digit _ hd0 _ _ _ _ f (by omega) (by omega)]
      have : ((0 * 10 + x / 100) * 10 + x / 10 % 10) * 10 + x % 10 = x := by omega
      rw [this]

theorem toDigits10_chars (x : Nat) (hx : x < 256) :
    Nat.toDigits 10 x ≠ [] ∧ ∀ c ∈ Nat.toDigits 10 x, isDigit c = true := by
  obtain ⟨c1, c2, c3⟩ := toDigits10_cases x hx
  by_cases h10 : x < 10
  · rw [c1 h10]
    refine ⟨by simp, ?_⟩
    intro c hc
    simp only [List.mem_singleton] at hc
    subst hc
    exact (digitChar_dec x h10).1
  · by_cases h100 : x < 100
    · rw [c2 (by omega) h100]
      refine ⟨by simp, ?_⟩
      intro c hc
      simp only [List.mem_cons, List.mem_singleton, List.not_mem_nil, or_false] at hc
      rcases hc with rfl | rfl
      · exact (digitChar_dec _ (by omega)).1
      · exact (digitChar_dec _ (by omega)).1
    · rw [c3 (by omega)]
      refine ⟨by simp, ?_⟩
      intro c hc
      simp only [List.mem_cons, List.mem_singleton, List.not_mem_nil, or_false] at hc
      rcases hc with rfl | rfl | rfl
      · exact (digitChar_dec _ (by omega)).1
      · exact (digitChar_dec _ (by omega)).1
      · exact (digitChar_dec _ (by omega)).1

theorem parseIPv4Fields_dot (c : Char) (hc : isDigit c = true) (rest : List Char)
    (hr : rest ≠ []) (val dl : Nat) (f : List Nat) (hf : f.length ≠ 3) :
    parseIPv4Fields ('.' :: rest) (some c) val dl f =
      parseIPv4Fields rest (some '.') 0 0 (f ++ [val]) := by
  have hd : isDigit '.' = false := by decide
  have hne : c ≠ '.' := by rintro rfl; rw [hd] at hc; cases hc
  have h1 : ¬ ((some c : Option Char) = none ∨ rest = [] ∨ (some c : Option Char) = some '.') := by
    rintro (h | h | h)
    · cases h
    · exact hr h
    · exact hne (Option.some.inj h)
  simp only [parseIPv4Fields, hd, Bool.false_eq_true, if_false, if_true, if_neg h1, if_neg hf]

/-- The dotted decimal text of four bytes is read as these bytes. -/
theorem parseIPv4_dotted (a b c d : Nat) (ha : a < 256) (hb : b < 256) (hc : c < 256)
    (hd : d < 256) :
    parseIPv4 (joinedBy '.' ([a, b, c, d].map (Nat.toDigits 10))) = some [a, b, c, d] := by
  have ne : ∀ x, x < 256 → ∀ t : List Char, Nat.toDigits 10 x ++ t ≠ [] := by
    intro x hx t h
    exact (toDigits10_chars x hx).1 (List.append_eq_nil.1 h).1
  unfold parseIPv4
  simp only [List.map_cons, List.map_nil, joinedBy, List.flatMap_cons, List.flatMap_nil,
    List.append_nil]
  obtain ⟨c1, d1, h1, e1⟩ := parseIPv4Fields_octet a ha
    ('.' :: (Nat.toDigits 10 b ++ ('.' :: (Nat.toDigits 10 c ++ ('.' :: Nat.toDigits 10 d)))))
    none []
  obtain ⟨c2, d2, h2, e2⟩ := parseIPv4Fields_octet b hb
    ('.' :: (Nat.toDigits 10 c ++ ('.' :: Nat.toDigits 10 d))) (some '.') [a]
  obtain ⟨c3, d3, h3, e3⟩ := parseIPv4Fields_octet c hc ('.' :: Nat.toDigits 10 d) (some '.')
    [a, b]
  obtain ⟨c4, d4, h4, e4⟩ := parseIPv4Fields_octet d hd [] (some '.') [a, b, c]
  simp only [List.append_nil] at e4
  simp only [List.cons_append, List.append_assoc] at e1 e2 e3 ⊢
  rw [e1, parseIPv4Fields_dot c1 h1 _ (ne b hb _) _ _ _ (by simp), List.nil_append, e2,
    parseIPv4Fields_dot c2 h2 _ (ne c hc _) _ _ _ (by simp)]
  simp only [List.cons_append, List.nil_append]
  rw [e3, parseIPv4Fields_dot c3 h3 _ (toDigits10_chars d hd).1 _ _ _ (by simp)]
  simp only [List.cons_append, List.nil_append]
  rw [e4]
  simp [parseIPv4Fields]

theorem mem_joinedBy (sep ch : Char) (ps : List (List Char)) (h : ch ∈ joinedBy sep ps) :
    (∃ p ∈ ps, ch ∈ p) ∨ ch = sep := by
  cases ps with
  | nil => simp [joinedBy] at h
  | cons p rest =>
    simp only [joinedBy, List.mem_append, List.mem_flatMap, List.mem_cons] at h
    rcases h with h | ⟨q, hq, h | h⟩
    · exact Or.inl ⟨p, List.mem_cons_self _ _, h⟩
    · exact Or.inr h
    · exact Or.inl ⟨q, List.mem_cons_of_mem _ hq, h⟩

theorem To4_v4InV6 (f : List Nat) (hf : f.length = 4) : To4 (v4InV6 f) = some f := by
  have hlen : (v4InV6 f).length = 16 := by simp [v4InV6, hf]
  have hne : ¬ (v4InV6 f).length = 4 := by rw [hlen]; decide
  have ha : (v4InV6 f).take 10 = List.replicate 10 0 := by
    simp [v4InV6, List.take_append_eq_append_take]
  have hb : ((v4InV6 f).drop 10).take 2 = [255, 255] := by
    simp [v4InV6, List.drop_append_eq_append_drop, List.take_append_eq_append_take]
  have hc : (v4InV6 f).drop 12 = f := by
    simp [v4InV6, List.drop_append_eq_append_drop]
  unfold To4
  rw [if_neg hne, if_pos ⟨hlen, ha, hb⟩, hc]

/-- The reverse name of an IPv4 address stands for the dotted decimal text of the
address. -/
theorem ExtractAddressFromReverse_v4 (a b c d : Nat) (ha : a < 256) (hb : b < 256)
    (hc : c < 256) (hd : d < 256) :
    ExtractAddressFromReverse (reverseName [a, b, c, d]) = IPString [a, b, c, d] := by
  have hnodot : ∀ x, x < 256 → '.' ∉ Nat.toDigits 10 x := by
    intro x hx hm
    have := (toDigits10_chars x hx).2 _ hm
    exact absurd this (by decide)
  have hname : reverseName [a, b, c, d] =
      ⟨joinedBy '.' ([d, c, b, a].map (Nat.toDigits 10)) ++ ".in-addr.arpa.".data⟩ := rfl
  have hsuf : (".in-addr.arpa." : String) = ⟨".in-addr.arpa.".data⟩ := rfl
  unfold ExtractAddressFromReverse
  rw [hname, hsuf, if_pos (HasSuffix_append _ _), TrimSuffix_append]
  simp only [List.map_cons, List.map_nil]
  rw [Split_joinedBy '.' _ _ (by
    intro q hq
    simp only [List.mem_cons, List.mem_singleton, List.not_mem_nil, or_false] at hq
    rcases hq with rfl | rfl | rfl | rfl
    · exact hnodot d hd
    · exact hnodot c hc
    · exact hnodot b hb
    · exact hnodot a ha)]
  unfold reverse
  have htext : (Join ([String.mk (Nat.toDigits 10 d), String.mk (Nat.toDigits 10 c),
      String.mk (Nat.toDigits 10 b), String.mk (Nat.toDigits 10 a)]).reverse ".").data =
      joinedBy '.' ([a, b, c, d].map (Nat.toDigits 10)) := by
    have : ("." : String) = String.singleton '.' := rfl
    rw [this, Join_data]
    rfl
  have hparse : ParseIP (Join ([String.mk (Nat.toDigits 10 d), String.mk (Nat.toDigits 10 c),
      String.mk (Nat.toDigits 10 b), String.mk (Nat.toDigits 10 a)]).reverse ".") =
      some (v4InV6 [a, b, c, d]) := by
    unfold ParseIP
    rw [htext, parseAddrScan_v4 _ _ ?_ ?_, parseIPv4_dotted a b c d ha hb hc hd]
    · rfl
    · intro ch hch
      rcases mem_joinedBy '.' ch _ hch with ⟨q, hq, hm⟩ | h
      · simp only [List.map_cons, List.map_nil, List.mem_cons, List.mem_singleton,
          List.not_mem_nil, or_false] at hq
        rcases hq with rfl | rfl | rfl | rfl
        · exact Or.inl ((toDigits10_chars a ha).2 _ hm)
        · exact Or.inl ((toDigits10_chars b hb).2 _ hm)
        · exact Or.inl ((toDigits10_chars c hc).2 _ hm)
        · exact Or.inl ((toDigits10_chars d hd).2 _ hm)
      · exact Or.inr h
    · simp [joinedBy]
  simp only [List.map_cons, List.map_nil]
  rw [hparse]
  simp only [Option.some_bind, To4_v4InV6 [a, b, c, d] rfl]

theorem parseHex_digit (n : Nat) (hn : n < 16) (rest : List Char) (off acc : Nat)
    (hoff : off ≤ 3) (hacc : acc * 16 + n ≤ 65535) :
    parseHex (Nat.digitChar n :: rest) off acc = parseHex rest (off + 1) (acc * 16 + n) := by
  obtain ⟨h1, h2, -⟩ := digitChar_hex n hn
  have ho : ¬ off > 3 := by omega
  have ha : ¬ (acc * 16 + n > 65535) := by omega
  simp only [parseHex, h1, if_true, if_neg ho, h2, if_neg ha]

theorem parseHex_stop (t : List Char) (off acc : Nat)
    (ht : ∀ c, t.head? = some c → isHex c = false) :
    parseHex t off acc = some (off, acc, t) := by
  cases t with
  | nil => rfl
  | cons c t =>
    have := ht c rfl
    simp only [parseHex, this, Bool.false_eq_true, if_false]

/-- The four hexadecimal digits of two bytes are read as the group of these bytes. -/
theorem parseHex_hex4 (p : Nat × Nat) (h1 : p.1 < 256) (h2 : p.2 < 256) (t : List Char)
    (ht : ∀ c, t.head? = some c → isHex c = false) :
    parseHex (hex4 p ++ t) 0 0 = some (4, p.1 * 256 + p.2, t) := by
  simp only [hex4, List.cons_append, List.nil_append]
  rw [parseHex_digit _ (by omega) _ _ _ (by omega) (by omega),
    parseHex_digit _ (by omega) _ _ _ (by omega) (by omega),
    parseHex_digit _ (by omega) _ _ _ (by omega) (by omega),
    parseHex_digit _ (by omega) _ _ _ (by omega) (by omega),
    parseHex_stop t _ _ ht]
  have : (((0 * 16 + p.1 / 16) * 16 + p.1 % 16) * 16 + p.2 / 16) * 16 + p.2 % 16 =
      p.1 * 256 + p.2 := by omega
  rw [this]

/-- The loop of `parseIPv6` on groups of four hexadecimal digits with colons between
them stores the bytes of the groups. -/
theorem parseIPv6Loop_groups (ps : List (Nat × Nat)) :
    ∀ (p : Nat × Nat) (fuel i : Nat) (ip : List Nat),
      (∀ q ∈ p :: ps, q.1 < 256 ∧ q.2 < 256) → ps.length + 1 ≤ fuel →
      i + 2 * (ps.length + 1) ≤ 16 →
      parseIPv6Loop fuel (joinedBy ':' ((p :: ps).map hex4)) i none ip =
        some ([], i + 2 * (ps.length + 1), none,
          ip ++ (p :: ps).flatMap fun q => [q.1, q.2]) := by
  induction ps with
  | nil =>
    intro p fuel i ip hb hfuel hi
    obtain ⟨h1, h2⟩ := hb p (List.mem_cons_self _ _)
    obtain ⟨fuel, rfl⟩ : ∃ f, fuel = f + 1 := ⟨fuel - 1, by simp at hfuel; omega⟩
    have hi16 : ¬ 16 ≤ i := by simp at hi; omega
    have hp := parseHex_hex4 p h1 h2 [] (by simp)
    simp only [List.append_nil] at hp
    simp only [List.map_cons, List.map_nil, joinedBy, List.flatMap_nil, List.append_nil,
      parseIPv6Loop, if_neg hi16, hp]
    have hd : (p.1 * 256 + p.2) / 256 = p.1 := by omega
    have hm : (p.1 * 256 + p.2) % 256 = p.2 := by omega
    simp [hd, hm]
  | cons q rest ih =>
    intro p fuel i ip hb hfuel hi
    obtain ⟨h1, h2⟩ := hb p (List.mem_cons_self _ _)
    obtain ⟨fuel, rfl⟩ : ∃ f, fuel = f + 1 := ⟨fuel - 1, by simp at hfuel; omega⟩
    have hi16 : ¬ 16 ≤ i := by simp at hi; omega
    have hq := hb q (List.mem_cons_of_mem _ (List.mem_cons_self _ _))
    have hcolon : isHex ':' = false := by decide
    have hp := parseHex_hex4 p h1 h2 (':' :: joinedBy ':' ((q :: rest).map hex4))
      (by intro c hc; simp only [List.head?_cons, Option.some.injEq] at hc; rw [← hc]; exact hcolon)
    have hjoin : joinedBy ':' ((p :: q :: rest).map hex4) =
        hex4 p ++ ':' :: joinedBy ':' ((q :: rest).map hex4) := by
      simp only [List.map_cons, joinedBy, List.flatMap_cons, List.cons_append]
    have hhead : joinedBy ':' ((q :: rest).map hex4) =
        Nat.digitChar (q.1 / 16) ::
          ([Nat.digitChar (q.1 % 16), Nat.digitChar (q.2 / 16), Nat.digitChar (q.2 % 16)] ++
            (rest.map hex4).flatMap fun x => ':' :: x) := by
      simp only [List.map_cons, joinedBy, hex4, List.cons_append, List.nil_append]
    have hne : Nat.digitChar (q.1 / 16) ≠ ':' := (digitChar_hex _ (by omega)).2.2.2.1
    have hd : (p.1 * 256 + p.2) / 256 = p.1 := by omega
    have hm : (p.1 * 256 + p.2) % 256 = p.2 := by omega
    have hih := ih q fuel (i + 2) (ip ++ [p.1, p.2])
      (fun x hx => hb x (List.mem_cons_of_mem _ hx))
      (by simp only [List.length_cons] at hfuel; omega)
      (by simp only [List.length_cons] at hi; omega)
    rw [hjoin]
    simp only [parseIPv6Loop, if_neg hi16, hp, hd, hm]
    have h4 : ¬ (4 = 0) := by decide
    simp only [if_neg h4, List.head?_cons]
    have hdot : ¬ ((some ':' : Option Char) = some '.') := by decide
    simp only [if_neg hdot, ne_eq, not_true_eq_false, if_false]
    rw [hhead] at hih ⊢
    simp only [if_neg hne]
    rw [hih]
    simp only [List.length_cons, List.flatMap_cons, List.append_assoc, List.cons_append,
      List.nil_append]
    have hsum : i + 2 + 2 * (rest.length + 1) = i + 2 * (rest.length + 1 + 1) := by omega
    rw [hsum]

theorem parseIPv6_groups (p : Nat × Nat) (ps : List (Nat × Nat)) (hlen : ps.length = 7)
    (hb : ∀ q ∈ p :: ps, q.1 < 256 ∧ q.2 < 256) :
    parseIPv6 (joinedBy ':' ((p :: ps).map hex4)) =
      some ((p :: ps).flatMap fun q => [q.1, q.2]) := by
  have hloop := parseIPv6Loop_groups ps p 8 0 [] hb (by omega) (by omega)
  have hne : Nat.digitChar (p.1 / 16) ≠ ':' :=
    (digitChar_hex _ (by have := (hb p (List.mem_cons_self _ _)).1; omega)).2.2.2.1
  have hshape : joinedBy ':' ((p :: ps).map hex4) =
      Nat.digitChar (p.1 / 16) :: Nat.digitChar (p.1 % 16) ::
        ([Nat.digitChar (p.2 / 16), Nat.digitChar (p.2 % 16)] ++
          (ps.map hex4).flatMap fun x => ':' :: x) := by
    simp only [List.map_cons, joinedBy, hex4, List.cons_append, List.nil_append]
  rw [hshape] at hloop ⊢
  have hc : ¬ (Nat.digitChar (p.1 / 16) = ':' ∧ Nat.digitChar (p.1 % 16) = ':') :=
    fun h => hne h.1
  simp only [parseIPv6, if_neg hc, hloop, finishIPv6]
  simp [hlen]

theorem list_of_length_16 (a : List Nat) (h : a.length = 16) :
    ∃ b0 b1 b2 b3 b4 b5 b6 b7 b8 b9 b10 b11 b12 b13 b14 b15 : Nat,
      a = [b0, b1, b2, b3, b4, b5, b6, b7, b8, b9, b10, b11, b12, b13, b14, b15] := by
  rcases a with _ | ⟨b0, a⟩
  · simp at h
  rcases a with _ | ⟨b1, a⟩
  · simp at h
  rcases a with _ | ⟨b2, a⟩
  · simp at h
  rcases a with _ | ⟨b3, a⟩
  · simp at h
  rcases a with _ | ⟨b4, a⟩
  · simp at h
  rcases a with _ | ⟨b5, a⟩
  · simp at h
  rcases a with _ | ⟨b6, a⟩
  · simp at h
  rcases a with _ | ⟨b7, a⟩
  · simp at h
  rcases a with _ | ⟨b8, a⟩
  · simp at h
  rcases a with _ | ⟨b9, a⟩
  · simp at h
  rcases a with _ | ⟨b10, a⟩
  · simp at h
  rcases a with _ | ⟨b11, a⟩
  · simp at h
  rcases a with _ | ⟨b12, a⟩
  · simp at h
  rcases a with _ | ⟨b13, a⟩
  · simp at h
  rcases a with _ | ⟨b14, a⟩
  · simp at h
  rcases a with _ | ⟨b15, a⟩
  · simp at h
  rcases a with _ | ⟨x, a⟩
  · exact ⟨b0, b1, b2, b3, b4, b5, b6, b7, b8, b9, b10, b11, b12, b13, b14, b15, rfl⟩
  · simp only [List.length_cons] at h
    omega

theorem nibbles_lt (a : IP) (ha : ∀ b ∈ a, b < 256) : ∀ n ∈ nibbles a, n < 16 := by
  intro n hn
  unfold nibbles at hn
  obtain ⟨b, hb, hm⟩ := List.mem_flatMap.1 hn
  have := ha b hb
  simp only [List.mem_cons, List.mem_singleton, List.not_mem_nil, or_false] at hm
  rcases hm with rfl | rfl <;> omega

theorem Split_joinedBy_ne (sep : Char) (ps : List (List Char)) (hne : ps ≠ [])
    (h : ∀ q ∈ ps, sep ∉ q) : Split ⟨joinedBy sep ps⟩ sep = ps.map String.mk := by
  cases ps with
  | nil => exact absurd rfl hne
  | cons p rest => exact Split_joinedBy sep p rest h

/-- The reverse name of an IPv6 address stands for the canonical text of the address. -/
theorem ExtractAddressFromReverse_v6 (a : IP) (hlen : a.length = 16)
    (ha : ∀ b ∈ a, b < 256) :
    ExtractAddressFromReverse (reverseName a) = IPString a := by
  have hname : reverseName a =
      ⟨joinedBy '.' ((nibbles a).reverse.map fun n => [Nat.digitChar n]) ++
        ".ip6.arpa.".data⟩ := by
    unfold reverseName
    rw [if_neg (by rw [hlen]; decide)]
  have hsuf : (".ip6.arpa." : String) = ⟨".ip6.arpa.".data⟩ := rfl
  have hsplit : Split ⟨joinedBy '.' ((nibbles a).reverse.map fun n => [Nat.digitChar n])⟩ '.' =
      ((nibbles a).reverse.map fun n => [Nat.digitChar n]).map String.mk := by
    apply Split_joinedBy_ne
    · obtain ⟨b0, b1, b2, b3, b4, b5, b6, b7, b8, b9, b10, b11, b12, b13, b14, b15, rfl⟩ := list_of_length_16 a hlen
      simp [nibbles]
    · intro q hq hm
      obtain ⟨n, hn, rfl⟩ := List.mem_map.1 hq
      have hlt := nibbles_lt a ha n (List.mem_reverse.1 hn)
      simp only [List.mem_singleton] at hm
      exact (digitChar_hex n hlt).2.2.1 hm.symm
  unfold ExtractAddressFromReverse
  rw [hname, not_HasSuffix_ip6, hsuf, if_pos (HasSuffix_append _ _), TrimSuffix_append, hsplit]
  simp only [Bool.false_eq_true, if_false]
  obtain ⟨b0, b1, b2, b3, b4, b5, b6, b7, b8, b9, b10, b11, b12, b13, b14, b15, rfl⟩ := list_of_length_16 a hlen
  have hb : ∀ q ∈ [(b0, b1), (b2, b3), (b4, b5), (b6, b7), (b8, b9), (b10, b11), (b12, b13), (b14, b15)], q.1 < 256 ∧ q.2 < 256 := by
    intro q hq
    simp only [List.mem_cons, List.mem_singleton, List.not_mem_nil, or_false] at hq
    rcases hq with rfl | rfl | rfl | rfl | rfl | rfl | rfl | rfl <;>
      exact ⟨ha _ (by simp), ha _ (by simp)⟩
  have htext : (Join (joinFours (((nibbles [b0, b1, b2, b3, b4, b5, b6, b7, b8, b9, b10, b11, b12, b13, b14, b15]).reverse.map
      fun n => [Nat.digitChar n]).map String.mk).reverse) ":").data =
      joinedBy ':' ([(b0, b1), (b2, b3), (b4, b5), (b6, b7), (b8, b9), (b10, b11), (b12, b13), (b14, b15)].map hex4) := by
    have : (":" : String) = String.singleton ':' := rfl
    rw [this, Join_data]
    rfl
  have hparse : ParseIP (Join (joinFours (((nibbles [b0, b1, b2, b3, b4, b5, b6, b7, b8, b9, b10, b11, b12, b13, b14, b15]).reverse.map
      fun n => [Nat.digitChar n]).map String.mk).reverse) ":") =
      some [b0, b1, b2, b3, b4, b5, b6, b7, b8, b9, b10, b11, b12, b13, b14, b15] := by
    have hcolon : Contains (Join (joinFours (((nibbles [b0, b1, b2, b3, b4, b5, b6, b7, b8, b9, b10, b11, b12, b13, b14, b15]).reverse.map
        fun n => [Nat.digitChar n]).map String.mk).reverse) ":") ":" = true := by
      unfold Contains
      rw [htext]
      exact (containsChars_single ':' _).2 (by simp [joinedBy])
    rw [ParseIP_of_colon _ hcolon, htext,
      parseIPv6_groups (b0, b1) [(b2, b3), (b4, b5), (b6, b7), (b8, b9), (b10, b11), (b12, b13), (b14, b15)] rfl hb]
    rfl
  unfold reverse6
  rw [hparse]
  have h16 : To16 [b0, b1, b2, b3, b4, b5, b6, b7, b8, b9, b10, b11, b12, b13, b14, b15] = some [b0, b1, b2, b3, b4, b5, b6, b7, b8, b9, b10, b11, b12, b13, b14, b15] := rfl
  simp only [Option.some_bind, h16]

theorem toDigitsCore_ne_nil (b : Nat) : ∀ (fuel n : Nat) (ds : List Char), ds ≠ [] →
    Nat.toDigitsCore b fuel n ds ≠ [] := by
  intro fuel
  induction fuel with
  | zero => intro n ds h; simpa [Nat.toDigitsCore] using h
  | succ fuel ih =>
    intro n ds h
    simp only [Nat.toDigitsCore]
    by_cases h0 : n / b = 0
    · simp [h0]
    · simp only [h0, if_false]
      exact ih _ _ (by simp)

theorem toDigits_ne_nil (b n : Nat) : Nat.toDigits b n ≠ [] := by
  unfold Nat.toDigits
  simp only [Nat.toDigitsCore]
  by_cases h0 : n / b = 0
  · simp [h0]
  · simp only [h0, if_false]
    exact toDigitsCore_ne_nil b _ _ _ (by simp)

theorem Join_uitoa_ne_empty (p : List Nat) (hp : p ≠ []) : Join (p.map uitoa) "." ≠ "" := by
  intro h
  have hd := congrArg String.data h
  have hs : ("." : String) = String.singleton '.' := rfl
  rw [hs, Join_data] at hd
  cases p with
  | nil => exact hp rfl
  | cons x rest =>
    simp only [List.map_cons, joinedBy, uitoa] at hd
    have : Nat.toDigits 10 x = [] := (List.append_eq_nil.1 hd).1
    exact toDigits_ne_nil 10 x this

theorem printGroups_ne_empty (g : List Nat) (zs ze : Nat) : printGroups g zs ze 8 0 ≠ "" := by
  intro h
  have hd := congrArg String.length h
  rw [show (8 : Nat) = 7 + 1 from rfl, printGroups] at hd
  have h8 : ¬ 8 ≤ 0 := by decide
  rw [if_neg h8] at hd
  have hlen : ∀ n, 0 < (appendHex n).length := by
    intro n
    unfold appendHex
    show 0 < (Nat.toDigits 16 n).length
    exact List.length_pos.2 (toDigits_ne_nil 16 n)
  by_cases hz : 0 = zs
  · rw [if_pos hz] at hd
    by_cases he : 8 ≤ ze
    · rw [if_pos he] at hd
      exact absurd hd (by decide)
    · rw [if_neg he] at hd
      simp only [String.length_append] at hd
      have : ("::" : String).length = 2 := by decide
      rw [this] at hd
      have h0 : ("" : String).length = 0 := rfl
      rw [h0] at hd
      omega
  · rw [if_neg hz] at hd
    simp only [String.length_append] at hd
    have := hlen (g.getD 0 0)
    have h0 : ("" : String).length = 0 := rfl
    rw [h0] at hd
    omega

/-- The canonical text of an address is not empty. -/
theorem IPString_ne_empty (a : IP) (h : isAddress a) : IPString a ≠ "" := by
  obtain ⟨hlen, -⟩ := h
  have h0 : ¬ a.length = 0 := by rcases hlen with h | h <;> rw [h] <;> decide
  unfold IPString
  rw [if_neg h0]
  cases hT : To4 a with
  | some p4 =>
    simp only []
    apply Join_uitoa_ne_empty
    intro hp
    subst hp
    unfold To4 at hT
    by_cases h4 : a.length = 4
    · rw [if_pos h4] at hT
      simp only [Option.some.injEq] at hT
      rw [hT] at h4
      simp at h4
    · rw [if_neg h4] at hT
      by_cases hc : a.length = 16 ∧ a.take 10 = List.replicate 10 0 ∧
          (a.drop 10).take 2 = [255, 255]
      · rw [if_pos hc] at hT
        simp only [Option.some.injEq] at hT
        have := congrArg List.length hT
        simp [hc.1] at this
      · rw [if_neg hc] at hT
        cases hT
  | none =>
    simp only []
    have h16 : a.length = 16 := by
      rcases hlen with h | h
      · unfold To4 at hT
        rw [if_pos h] at hT
        cases hT
      · exact h
    have hne : ¬ a.length ≠ 16 := by simp [h16]
    rw [if_neg hne]
    exact printGroups_ne_empty _ _ _

/-- The address that the reverse name of an address stands for is the canonical text of
the address (`IP.String`): dotted decimal for an IPv4 address, the compressed colon-hex
form for an IPv6 address. -/
theorem ExtractAddressFromReverse_reverseName (a : IP) (h : isAddress a) :
    ExtractAddressFromReverse (reverseName a) = IPString a := by
  obtain ⟨hlen, hb⟩ := h
  rcases hlen with h4 | h16
  · rcases a with _ | ⟨x0, a⟩
    · simp at h4
    rcases a with _ | ⟨x1, a⟩
    · simp at h4
    rcases a with _ | ⟨x2, a⟩
    · simp at h4
    rcases a with _ | ⟨x3, a⟩
    · simp at h4
    rcases a with _ | ⟨x4, a⟩
    · exact ExtractAddressFromReverse_v4 x0 x1 x2 x3 (hb _ (by simp)) (hb _ (by simp))
        (hb _ (by simp)) (hb _ (by simp))
    · simp only [List.length_cons] at h4
      omega
  · exact ExtractAddressFromReverse_v6 a h16 hb

/-! ## C1: the round trip of the address codec -/

/-- C1: for every IPv4 literal and every IPv6 literal `ip` (texts that the parsers of
`net.ParseIP` accept: dotted quads, and colon-hex groups with an optional `::` and an
optional dotted-quad tail), decoding the encoding gives the literal back:
`undashIP (dashIP ip) = ip`. -/
theorem undash_dash_roundtrip (ip : String)
    (h : isIPv4Literal ip = true ∨ isIPv6Literal ip = true) :
    undashIP (dashIP ip) = ip := by
  obtain ⟨l⟩ := ip
  rcases h with h | h
  · obtain ⟨f, hf⟩ := Option.isSome_iff_exists.1 h
    obtain ⟨a1, a2, a3⟩ := parseIPv4_shape l f hf
    refine undash_dash_chars l ?_ a3 (fun _ _ => a2)
    intro hm
    rcases a1 _ hm with h | h
    · exact okChar_ne_dash (Or.inl (isHex_of_isDigit h)) rfl
    · exact absurd h (by decide)
  · obtain ⟨f, hf⟩ := Option.isSome_iff_exists.1 h
    obtain ⟨a1, a2, a3⟩ := parseIPv6_shape l f hf
    refine undash_dash_chars l (fun hm => okChar_ne_dash (a1 _ hm) rfl) a2 ?_
    intro h3 hn
    rcases a3 with h | h
    · exact absurd hn h
    · omega

/-- Witness of C1 at the IPv6 literal `::ffff:1.2.3.4`, which has both a `::` and a
dotted-quad tail. -/
theorem undash_dash_roundtrip_witness :
    (isIPv4Literal "::ffff:1.2.3.4" = true ∨ isIPv6Literal "::ffff:1.2.3.4" = true) ∧
      undashIP (dashIP "::ffff:1.2.3.4") = "::ffff:1.2.3.4" :=
  ⟨by decide, undash_dash_roundtrip "::ffff:1.2.3.4" (by decide)⟩


/-! ## C2: forward queries in mode `name` -/

/-- C2, as amended: in mode `name`, for every type A or AAAA query whose name has exactly
the two labels `p`, `ns` below the zone (so `p` and `ns` are single labels), when the
lookup of the primary key `ns/p` gives no error: if a pod is stored under `ns/p`, the
reply is SUCCESS and its answer section is exactly one A record per IPv4 literal in the
address list of the pod for type A, exactly one AAAA record per IPv6 literal for type
AAAA, each with the query name as owner and the configured TTL, and nothing else; if no
pod is stored under `ns/p`, the query takes the NXDOMAIN path: NAME_ERROR with one SOA
record in the authority section, unless the `fallthrough` zones cover the name, in which
case the query goes to the next handler. -/
theorem name_query (k : KubePods) (state : Request) (now : Nat) (zone p ns : String)
    (indexer : Indexer) (hmode : k.mode = modeName) (hidx : k.indexer = some indexer)
    (hzone : belowApex k state zone) (htype : state.QType = TypeA ∨ state.QType = TypeAAAA)
    (hseg : podSegments state zone = some [p, ns]) :
    (∀ pod, indexer.GetByKey (ns ++ "/" ++ p) = .ok (some (.pod pod)) →
      (state.QType = TypeA →
        (ServeDNS k state now).outcome = answerReply (ipv4Answers k state.Name pod.PodIPs)) ∧
      (state.QType = TypeAAAA →
        (ServeDNS k state now).outcome = answerReply (ipv6Answers k state.Name pod.PodIPs))) ∧
    (indexer.GetByKey (ns ++ "/" ++ p) = .ok none →
      (ServeDNS k state now).outcome = nxdomainOrNext k state now) := by
  have hne := zones_ne_nil_of_belowApex hzone
  have hptr : state.QType ≠ TypePTR := by
    rcases htype with h | h <;> rw [h] <;> decide
  have hecho : k.mode ≠ modeEchoIP := by rw [hmode]; decide
  have h1 : ¬ (k.mode = modeIP ∨ k.mode = modeNameAndIP) := by rw [hmode]; decide
  have h2 : k.mode = modeName ∨ k.mode = modeNameAndIP := Or.inl hmode
  have hserve := ServeDNS_two_labels k state now zone p ns indexer hecho hidx hzone hptr hseg
  constructor
  · intro pod hget
    rw [hserve]
    simp only [matchedItems, if_neg h1, if_pos h2, hget, Option.toList, List.nil_append]
    have := answerItems_pods k state now [pod] [] (by simp)
    simp only [List.map_cons, List.map_nil, List.flatMap_cons, List.flatMap_nil,
      List.append_nil] at this
    rw [this]
    have hBA : TypeAAAA ≠ TypeA := by decide
    constructor
    · intro hA
      simp only [answersFor, hA, if_true]
    · intro hB
      simp only [answersFor, hB, if_neg hBA, if_true]
  · intro hget
    rw [hserve]
    simp only [matchedItems, if_neg h1, if_pos h2, hget, Option.toList, List.nil_append]
    rw [answerItems_nil k state now [] hne]

/-- Witness of C2 as amended: the type A query of the tests for
`pod1.namespace1.cluster.local.` gets the two IPv4 addresses of `pod1`. -/
theorem name_query_witness :
    (ServeDNS (testPlugin modeName) (question "pod1.namespace1.cluster.local." TypeA)
      1700000000).outcome =
      answerReply
        [aRecord (testPlugin modeName) "pod1.namespace1.cluster.local." (v4InV6 [1, 2, 3, 4]),
         aRecord (testPlugin modeName) "pod1.namespace1.cluster.local." (v4InV6 [5, 6, 7, 8])] :=
  (name_query (testPlugin modeName) (question "pod1.namespace1.cluster.local." TypeA)
    1700000000 "cluster.local." "pod1" "namespace1" (indexerOf [pod1, pod2])
    (by decide) rfl (by decide) (by decide) (by decide)).1 pod1 (by decide) |>.1 (by decide)

/-- Counterexample to C2 as stated: in mode `name` the pod `web.0` of the namespace
`namespace1` is stored under its primary key `namespace1/web.0` and has the IPv4 address
1.2.3.4, yet the type A query for `web.0.namespace1.cluster.local.` is answered NXDOMAIN,
because the name has three labels below the zone; and with `fallthrough` the query for a
pod that does not exist gets no NXDOMAIN reply but goes to the next handler. -/
theorem name_query_counterexample :
    (indexerOf [dottedPod]).GetByKey "namespace1/web.0" = .ok (some (.pod dottedPod)) ∧
    (ServeDNS dottedPlugin (question "web.0.namespace1.cluster.local." TypeA)
      1700000000).outcome = nxdomainReply dottedPlugin 1700000000 ∧
    (indexerOf [pod1, pod2]).GetByKey "nonexistent-namespace/nonexistent-pod" = .ok none ∧
    (ServeDNS (testPluginFall modeName)
      (question "nonexistent-pod.nonexistent-namespace.cluster.local." TypeA)
      1700000000).outcome = .next { Name := "forward" } := by
  decide

/-! ## C3: reverse queries -/

theorem ptrIPs_eq (k : KubePods) (qname qip : String) (pod : Pod) (h : k.Zones ≠ [])
    (ips : List String) :
    ptrIPs k qname qip pod ips =
      some (List.replicate (ips.count qip)
        (ptrRecord k qname (dnsutilJoin [dashIP qip, pod.Namespace, zone0 k]))) := by
  cases hz : k.Zones with
  | nil => exact absurd hz h
  | cons z rest =>
    have hz0 : zone0 k = z := by simp [zone0, hz]
    induction ips with
    | nil => rfl
    | cons ip more ih =>
      simp only [ptrIPs, hz, ih]
      by_cases hq : qip = ip
      · subst hq
        simp [List.replicate_succ, ptrRecord, hz0]
      · have hq' : ¬ (ip == qip) = true := by
          simpa using fun h' => hq h'.symm
        simp [hq, List.count_cons, hq']

theorem ptr_eq (k : KubePods) (qname qip : String) (pod : Pod) (h : k.Zones ≠ []) :
    ptr k qname qip pod = some (ptrAnswers k qname qip pod) := by
  unfold ptr ptrAnswers
  rw [ptrIPs_eq k qname qip pod h]
  cases hz : k.Zones with
  | nil => exact absurd hz h
  | cons z rest =>
    have hz0 : zone0 k = z := by simp [zone0, hz]
    by_cases h1 : k.mode = modeName ∨ k.mode = modeNameAndIP <;>
      by_cases h2 : k.mode = modeIP ∨ k.mode = modeNameAndIP <;>
      simp [h1, h2, ptrRecord, hz0]

theorem ptrRecords_pods (k : KubePods) (state : Request) (addr : String) (h : k.Zones ≠ [])
    (pods : List Pod) :
    ptrRecords k state addr (pods.map Obj.pod) =
      .ok (pods.flatMap fun pod => ptrAnswers k state.QName addr pod) := by
  induction pods with
  | nil => rfl
  | cons pod rest ih =>
    simp only [List.map_cons, ptrRecords, ptr_eq k state.QName addr pod h, ih,
      List.flatMap_cons]

/-- The reverse branch for an address the `reverse` index holds pods for. -/
theorem serveReverse_pods (k : KubePods) (state : Request) (now : Nat) (zone ip : String)
    (indexer : Indexer) (pods : List Pod)
    (hmode : k.mode = modeName ∨ k.mode = modeIP ∨ k.mode = modeNameAndIP)
    (hidx : k.indexer = some indexer) (hzone : belowApex k state zone)
    (htype : state.QType = TypePTR)
    (haddr : ExtractAddressFromReverse state.Name = ip) (hip : ip ≠ "")
    (hview : indexer.ByIndex "reverse" ip = .ok (pods.map Obj.pod)) (hne : pods ≠ []) :
    ServeDNS k state now =
      ⟨answerReply (pods.flatMap fun pod => ptrAnswers k state.QName ip pod),
        [.ByIndex "reverse" ip]⟩ := by
  have hz := zones_ne_nil_of_belowApex hzone
  have hecho : k.mode ≠ modeEchoIP := by
    rcases hmode with h | h | h <;> rw [h] <;> decide
  have hlen : (pods.map Obj.pod).length ≠ 0 := by simpa using hne
  rw [ServeDNS_below k state now zone hzone, if_pos htype]
  unfold serveReverse
  simp only [haddr, if_neg hip, if_neg hecho, hidx, hview, if_neg hlen,
    ptrRecords_pods k state ip hz]
  rfl

/-- The reverse branch for an address the `reverse` index holds no pod for. -/
theorem serveReverse_empty (k : KubePods) (state : Request) (now : Nat) (zone ip : String)
    (indexer : Indexer)
    (hmode : k.mode = modeName ∨ k.mode = modeIP ∨ k.mode = modeNameAndIP)
    (hidx : k.indexer = some indexer) (hzone : belowApex k state zone)
    (htype : state.QType = TypePTR)
    (haddr : ExtractAddressFromReverse state.Name = ip) (hip : ip ≠ "")
    (hview : indexer.ByIndex "reverse" ip = .ok []) :
    ServeDNS k state now = ⟨nxdomainOrNext k state now, [.ByIndex "reverse" ip]⟩ := by
  have hz := zones_ne_nil_of_belowApex hzone
  have hecho : k.mode ≠ modeEchoIP := by
    rcases hmode with h | h | h <;> rw [h] <;> decide
  rw [ServeDNS_below k state now zone hzone, if_pos htype]
  unfold serveReverse
  simp only [haddr, if_neg hip, if_neg hecho, hidx, hview, List.length_nil, if_true,
    nxdomain_eq k state now hz]

/-- C3, as amended: in the modes `name`, `ip` and `name-and-ip`, for every IPv4 or IPv6
address, a PTR query under a configured zone for the reverse-arithmetic name of the address
(`d.c.b.a.in-addr.arpa.`, or the 32 nibbles under `ip6.arpa.`) stands for the canonical text
`ip` of the address, the text `IP.String` prints, and the `reverse` index is read for this
text and nothing else.  When the index gives the pods `pods`, at least one, for `ip`, the
reply is SUCCESS and its answer section holds the PTR records of every one of these pods in
turn.  A pod with name `p` and namespace `ns` contributes: in mode `name` exactly one PTR
record pointing to `p.ns.<zone>`; in mode `ip` one PTR record pointing to
`dashIP(ip).ns.<zone>` for each occurrence of `ip` in its address list, so exactly one when
`ip` occurs once; in mode `name-and-ip` the record of mode `name` followed by those of mode
`ip`.  Here `<zone>` is the first configured zone, and the owner of each record is the
query name.  When the index gives no pod for `ip` the query takes the NXDOMAIN path.  The
index of the informer gives for `ip` the pods whose address list holds the text `ip`
itself, so a pod that holds the address in another spelling is not found. -/
theorem reverse_query (k : KubePods) (state : Request) (now : Nat) (zone : String) (a : IP)
    (indexer : Indexer)
    (hmode : k.mode = modeName ∨ k.mode = modeIP ∨ k.mode = modeNameAndIP)
    (hidx : k.indexer = some indexer) (hzone : belowApex k state zone)
    (htype : state.QType = TypePTR) (haddr : isAddress a)
    (hname : state.Name = reverseName a) :
    ExtractAddressFromReverse state.Name = IPString a ∧
    (∀ pods : List Pod, indexer.ByIndex "reverse" (IPString a) = .ok (pods.map Obj.pod) →
      pods ≠ [] →
      ServeDNS k state now =
        ⟨answerReply (pods.flatMap fun pod =>
          (if k.mode = modeName ∨ k.mode = modeNameAndIP then
             [ptrRecord k state.QName (dnsutilJoin [pod.Name, pod.Namespace, zone0 k])]
           else []) ++
          (if k.mode = modeIP ∨ k.mode = modeNameAndIP then
             List.replicate (pod.PodIPs.count (IPString a))
               (ptrRecord k state.QName
                 (dnsutilJoin [dashIP (IPString a), pod.Namespace, zone0 k]))
           else [])),
         [.ByIndex "reverse" (IPString a)]⟩) ∧
    (indexer.ByIndex "reverse" (IPString a) = .ok [] →
      ServeDNS k state now =
        ⟨nxdomainOrNext k state now, [.ByIndex "reverse" (IPString a)]⟩) ∧
    (∀ allPods : List Pod,
      (indexerOf allPods).ByIndex "reverse" (IPString a) =
        .ok ((allPods.filter fun pod => pod.PodIPs.contains (IPString a)).map Obj.pod)) := by
  have hlink : ExtractAddressFromReverse state.Name = IPString a := by
    rw [hname]; exact ExtractAddressFromReverse_reverseName a haddr
  have hip := IPString_ne_empty a haddr
  refine ⟨hlink, ?_, ?_, ?_⟩
  · intro pods hview hne
    exact serveReverse_pods k state now zone (IPString a) indexer pods hmode hidx hzone htype
      hlink hip hview hne
  · intro hview
    exact serveReverse_empty k state now zone (IPString a) indexer hmode hidx hzone htype
      hlink hip hview
  · intro allPods
    rfl

/-- Witness of C3 as amended: the PTR query of the tests for `4.3.2.1.in-addr.arpa.`, the
reverse name of 1.2.3.4, in mode `name-and-ip` gets the name form and the dashed form of
`pod1`; the PTR query for the reverse name of 1:2:3::4 in mode `ip` gets the dashed form
`1-2-3--4`. -/
theorem reverse_query_witness :
    ServeDNS (testPlugin modeNameAndIP) (question "4.3.2.1.in-addr.arpa." TypePTR)
        1700000000 =
      ⟨answerReply
        [ptrRecord (testPlugin modeNameAndIP) "4.3.2.1.in-addr.arpa."
           "pod1.namespace1.cluster.local.",
         ptrRecord (testPlugin modeNameAndIP) "4.3.2.1.in-addr.arpa."
           "1-2-3-4.namespace1.cluster.local."],
       [.ByIndex "reverse" "1.2.3.4"]⟩ ∧
    ServeDNS (testPlugin modeIP)
        (question "4.0.0.0.0.0.0.0.0.0.0.0.0.0.0.0.0.0.0.0.3.0.0.0.2.0.0.0.1.0.0.0.ip6.arpa."
          TypePTR) 1700000000 =
      ⟨answerReply
        [ptrRecord (testPlugin modeIP)
           "4.0.0.0.0.0.0.0.0.0.0.0.0.0.0.0.0.0.0.0.3.0.0.0.2.0.0.0.1.0.0.0.ip6.arpa."
           "1-2-3--4.namespace1.cluster.local."],
       [.ByIndex "reverse" "1:2:3::4"]⟩ :=
  ⟨(reverse_query (testPlugin modeNameAndIP) (question "4.3.2.1.in-addr.arpa." TypePTR)
      1700000000 "in-addr.arpa." [1, 2, 3, 4] (indexerOf [pod1, pod2])
      (by decide) rfl (by decide) (by decide) (by decide) (by decide)).2.1 [pod1]
      (by decide) (by decide),
   (reverse_query (testPlugin modeIP)
      (question "4.0.0.0.0.0.0.0.0.0.0.0.0.0.0.0.0.0.0.0.3.0.0.0.2.0.0.0.1.0.0.0.ip6.arpa."
        TypePTR)
      1700000000 "ip6.arpa." [0, 1, 0, 2, 0, 3, 0, 0, 0, 0, 0, 0, 0, 0, 0, 4]
      (indexerOf [pod1, pod2])
      (by decide) rfl (by decide) (by decide) (by decide) (by decide)).2.1 [pod1]
      (by decide) (by decide)⟩

/-- Counterexample to C3 as stated.  In mode `ip` the pod `twice` has the address 1.2.3.4
in its address list, and the `reverse` index gives exactly this pod for 1.2.3.4, yet the
PTR query for `4.3.2.1.in-addr.arpa.` gets two PTR records, not exactly one: the address
list names the address two times.  In mode `name` the pod `long` has the address
`1:2:3:0:0:0:0:4` in its address list, and the `reverse` index gives exactly this pod for
it, yet the PTR query for the reverse name of this address is answered NXDOMAIN: the name
stands for the canonical text `1:2:3::4`, which is not in the index. -/
theorem reverse_query_counterexample :
    "1.2.3.4" ∈ twicePod.PodIPs ∧
    (indexerOf [twicePod]).ByIndex "reverse" "1.2.3.4" = .ok [.pod twicePod] ∧
    reverseName [1, 2, 3, 4] = "4.3.2.1.in-addr.arpa." ∧
    (ServeDNS twicePlugin (question "4.3.2.1.in-addr.arpa." TypePTR) 1700000000).outcome =
      answerReply
        [ptrRecord twicePlugin "4.3.2.1.in-addr.arpa." "1-2-3-4.namespace1.cluster.local.",
         ptrRecord twicePlugin "4.3.2.1.in-addr.arpa." "1-2-3-4.namespace1.cluster.local."] ∧
    "1:2:3:0:0:0:0:4" ∈ longFormPod.PodIPs ∧
    (indexerOf [longFormPod]).ByIndex "reverse" "1:2:3:0:0:0:0:4" = .ok [.pod longFormPod] ∧
    ParseIP "1:2:3:0:0:0:0:4" = some [0, 1, 0, 2, 0, 3, 0, 0, 0, 0, 0, 0, 0, 0, 0, 4] ∧
    reverseName [0, 1, 0, 2, 0, 3, 0, 0, 0, 0, 0, 0, 0, 0, 0, 4] =
      "4.0.0.0.0.0.0.0.0.0.0.0.0.0.0.0.0.0.0.0.3.0.0.0.2.0.0.0.1.0.0.0.ip6.arpa." ∧
    ExtractAddressFromReverse
      "4.0.0.0.0.0.0.0.0.0.0.0.0.0.0.0.0.0.0.0.3.0.0.0.2.0.0.0.1.0.0.0.ip6.arpa." =
      "1:2:3::4" ∧
    ServeDNS longFormPlugin
        (question "4.0.0.0.0.0.0.0.0.0.0.0.0.0.0.0.0.0.0.0.3.0.0.0.2.0.0.0.1.0.0.0.ip6.arpa."
          TypePTR) 1700000000 =
      ⟨nxdomainReply longFormPlugin 1700000000, [.ByIndex "reverse" "1:2:3::4"]⟩ := by
  decide

/-! ## C4: two-label queries in mode `echo-ip` -/

/-- C4, as amended: in mode `echo-ip`, for every two-label query `X.ns.<zone>` of a type
other than PTR, whatever the index (also without one): if `undashIP X` parses as an IP
address, the reply is SUCCESS with exactly one answer record carrying that address, an A
record when the address has a four-byte form and an AAAA record otherwise; if it does
not parse, the query takes the NXDOMAIN path (NAME_ERROR with one SOA record, or the next
handler when the `fallthrough` zones cover the name).  The index is not read.  In
particular a type A query for `1-2-3-4.ns.<zone>` gets exactly one A record with the
address 1.2.3.4. -/
theorem echo_two_labels (k : KubePods) (state : Request) (now : Nat) (zone x ns : String)
    (hmode : k.mode = modeEchoIP) (hzone : belowApex k state zone)
    (htype : state.QType ≠ TypePTR) (hseg : podSegments state zone = some [x, ns]) :
    ServeDNS k state now =
      (match ParseIP (undashIP x) with
       | some ip =>
         ⟨answerReply [if To4 ip = none then aaaaRecord k state.Name ip
                        else aRecord k state.Name ip], []⟩
       | none => ⟨nxdomainOrNext k state now, []⟩) ∧
    (x = "1-2-3-4" →
      ServeDNS k state now = ⟨answerReply [aRecord k state.Name (v4InV6 [1, 2, 3, 4])], []⟩) := by
  have hserve : ServeDNS k state now =
      (match ParseIP (undashIP x) with
       | some ip =>
         ⟨answerReply [if To4 ip = none then aaaaRecord k state.Name ip
                        else aRecord k state.Name ip], []⟩
       | none => ⟨nxdomainOrNext k state now, []⟩) := by
    rw [ServeDNS_forward k state now zone _ hzone htype hseg]
    simp only [serveSegments, hmode, if_true]
    cases hp : ParseIP (undashIP x) with
    | none => simp only [nxdomain_eq k state now (zones_ne_nil_of_belowApex hzone)]
    | some ip =>
      by_cases h4 : To4 ip = none
      · simp only [h4, if_true]; rfl
      · simp only [h4, if_false]; rfl
  refine ⟨hserve, ?_⟩
  rintro rfl
  rw [hserve]
  have hp : ParseIP (undashIP "1-2-3-4") = some (v4InV6 [1, 2, 3, 4]) := by decide
  have h4 : To4 (v4InV6 [1, 2, 3, 4]) ≠ none := by decide
  rw [hp]
  simp only [h4, if_false]

/-- Witness of C4 as amended: the query of the tests for `1-2-3-5.namespace1.cluster.local.`,
an address of no pod. -/
theorem echo_two_labels_witness :
    ServeDNS (testPlugin modeEchoIP) (question "1-2-3-5.namespace1.cluster.local." TypeA)
        1700000000 =
      ⟨answerReply [aRecord (testPlugin modeEchoIP) "1-2-3-5.namespace1.cluster.local."
        (v4InV6 [1, 2, 3, 5])], []⟩ :=
  (echo_two_labels (testPlugin modeEchoIP)
    (question "1-2-3-5.namespace1.cluster.local." TypeA) 1700000000 "cluster.local."
    "1-2-3-5" "namespace1" (by decide) (by decide) (by decide) (by decide)).1

/-- Counterexample to C4 as stated: in mode `echo-ip` the two-label query
`1-2-3-4.namespace1.cluster.local.` of type PTR, whose first label decodes to the address
1.2.3.4, is answered NXDOMAIN and not with an address record; and with `fallthrough` the
type A query for `pod1.namespace1.cluster.local.`, whose first label is no address, is
handed to the next handler instead of being answered NXDOMAIN. -/
theorem echo_two_labels_counterexample :
    podSegments (question "1-2-3-4.namespace1.cluster.local." TypePTR) "cluster.local." =
      some ["1-2-3-4", "namespace1"] ∧
    ParseIP (undashIP "1-2-3-4") = some (v4InV6 [1, 2, 3, 4]) ∧
    (ServeDNS (testPlugin modeEchoIP) (question "1-2-3-4.namespace1.cluster.local." TypePTR)
      1700000000).outcome = nxdomainReply (testPlugin modeEchoIP) 1700000000 ∧
    ParseIP (undashIP "pod1") = none ∧
    (ServeDNS (testPluginFall modeEchoIP) (question "pod1.namespace1.cluster.local." TypeA)
      1700000000).outcome = .next { Name := "forward" } := by
  decide

/-! ## C5: PTR queries in mode `echo-ip` -/

/-- C5, as amended: in mode `echo-ip` every PTR query whose name lies under a configured
zone and is not the apex of that zone takes the NXDOMAIN path, whether or not the name is
a well-formed reverse name and whatever the index: the reply is NAME_ERROR with the
synthetic SOA record as the only authority record, unless the `fallthrough` zones cover
the name, in which case the query goes to the next handler; the index is not read. -/
theorem echo_ptr_nxdomain (k : KubePods) (state : Request) (now : Nat) (zone : String)
    (hmode : k.mode = modeEchoIP) (hzone : belowApex k state zone)
    (htype : state.QType = TypePTR) :
    ServeDNS k state now = ⟨nxdomainOrNext k state now, []⟩ := by
  rw [ServeDNS_below k state now zone hzone, if_pos htype]
  unfold serveReverse
  simp only [hmode, if_true, ite_self, nxdomain_eq k state now (zones_ne_nil_of_belowApex hzone)]

/-- Witness of C5 as amended: the PTR query of the tests for `4.3.2.1.in-addr.arpa.`. -/
theorem echo_ptr_nxdomain_witness :
    ServeDNS (testPlugin modeEchoIP) (question "4.3.2.1.in-addr.arpa." TypePTR) 1700000000 =
      ⟨nxdomainOrNext (testPlugin modeEchoIP) (question "4.3.2.1.in-addr.arpa." TypePTR)
        1700000000, []⟩ :=
  echo_ptr_nxdomain (testPlugin modeEchoIP) (question "4.3.2.1.in-addr.arpa." TypePTR)
    1700000000 "in-addr.arpa." (by decide) (by decide) (by decide)

/-- Counterexample to C5 as stated: in mode `echo-ip` the PTR query for the apex
`in-addr.arpa.` of a configured zone is answered NODATA (return code SUCCESS), not
NXDOMAIN; and with `fallthrough` the PTR query for `4.3.2.1.in-addr.arpa.` is handed to
the next handler, without a reply of the plugin. -/
theorem echo_ptr_counterexample :
    Matches (testPlugin modeEchoIP).Zones (question "in-addr.arpa." TypePTR).Name ≠ "" ∧
    (ServeDNS (testPlugin modeEchoIP) (question "in-addr.arpa." TypePTR) 1700000000).outcome =
      nodataReply (testPlugin modeEchoIP) 1700000000 ∧
    (ServeDNS (testPlugin modeEchoIP) (question "in-addr.arpa." TypePTR) 1700000000).outcome ≠
      nxdomainReply (testPlugin modeEchoIP) 1700000000 ∧
    (ServeDNS (testPluginFall modeEchoIP) (question "4.3.2.1.in-addr.arpa." TypePTR)
      1700000000).outcome = .next { Name := "forward" } := by
  decide

/-! ## C6: queries for a namespace -/

/-- C6, as amended: in the modes `ip`, `name` and `name-and-ip`, for every single-label
query `ns.<zone>` of type A or AAAA for which the `namespace` index answers without
error: if the index holds an entry for `ns` the reply is NODATA (SUCCESS, empty answer,
one SOA authority record); if it holds none the query takes the NXDOMAIN path: NAME_ERROR
with one SOA authority record, unless the `fallthrough` zones cover the name, in which
case the query goes to the next handler. -/
theorem namespace_query (k : KubePods) (state : Request) (now : Nat) (zone ns : String)
    (indexer : Indexer) (items : List Obj)
    (hmode : k.mode = modeIP ∨ k.mode = modeName ∨ k.mode = modeNameAndIP)
    (hidx : k.indexer = some indexer) (hzone : belowApex k state zone)
    (htype : state.QType = TypeA ∨ state.QType = TypeAAAA)
    (hseg : podSegments state zone = some [ns])
    (hview : indexer.ByIndex "namespace" ns = .ok items) :
    (ServeDNS k state now).outcome =
      if items ≠ [] then nodataReply k now else nxdomainOrNext k state now := by
  have hne := zones_ne_nil_of_belowApex hzone
  have hptr : state.QType ≠ TypePTR := by
    rcases htype with h | h <;> rw [h] <;> decide
  have hecho : k.mode ≠ modeEchoIP := by
    rcases hmode with h | h | h <;> rw [h] <;> decide
  rw [ServeDNS_forward k state now zone _ hzone hptr hseg]
  simp only [serveSegments, if_neg hecho, hidx, hview]
  cases items with
  | nil => simp [answerItems_nil k state now _ hne]
  | cons a rest => simp [nodata_eq k now hne]

/-- Witness of C6 as amended: the query of the tests for `namespace1.cluster.local.` in
mode `ip`. -/
theorem namespace_query_witness :
    (ServeDNS (testPlugin modeIP) (question "namespace1.cluster.local." TypeA)
      1700000000).outcome = nodataReply (testPlugin modeIP) 1700000000 :=
  namespace_query (testPlugin modeIP) (question "namespace1.cluster.local." TypeA) 1700000000
    "cluster.local." "namespace1" (indexerOf [pod1, pod2]) [.pod pod1]
    (by decide) rfl (by decide) (by decide) (by decide) (by decide)

/-- Counterexample to C6 as stated: in mode `ip` with `fallthrough`, the type A query for
`nonexistent-namespace.cluster.local.`, a namespace without pods, gets no NXDOMAIN reply:
it is handed to the next handler. -/
theorem namespace_query_counterexample :
    (indexerOf [pod1, pod2]).ByIndex "namespace" "nonexistent-namespace" = .ok [] ∧
    (ServeDNS (testPluginFall modeIP) (question "nonexistent-namespace.cluster.local." TypeA)
      1700000000).outcome = .next { Name := "forward" } ∧
    (ServeDNS (testPluginFall modeIP) (question "nonexistent-namespace.cluster.local." TypeA)
      1700000000).outcome ≠ nxdomainReply (testPluginFall modeIP) 1700000000 := by
  decide

/-! ## C7: the zone apex -/

/-- C7: for every mode, query type and index state (also without an index), a query
whose name is one of the configured zones gets NODATA: return code SUCCESS, an empty
answer section and the synthetic SOA record as the only authority record; the index is
not read. -/
theorem apex_nodata (k : KubePods) (state : Request) (now : Nat)
    (hq : state.QName ≠ "") (hzone : state.Name ∈ k.Zones) :
    ServeDNS k state now = ⟨nodataReply k now, []⟩ := by
  have hname : state.Name ≠ "" := ToLower_ne_empty _ hq
  have h1 : len state.Name ≤ len (Matches k.Zones state.Name) :=
    Matches_longest _ _ _ hzone (IsSubDomain_self _)
  have h2 := Matches_len_le k.Zones state.Name hname
  have hlen : len (Matches k.Zones state.Name) = len state.Name := Nat.le_antisymm h2 h1
  have hpos := len_pos_of_ne_empty _ hname
  have hne : Matches k.Zones state.Name ≠ "" := by
    intro h
    rw [h] at hlen
    have : len "" = 0 := rfl
    omega
  have hz : queryZone k state = some state.QName := by
    unfold queryZone
    rw [hlen, Int.sub_self, sliceFrom_zero]
  have hzones : k.Zones ≠ [] := by
    obtain ⟨z, rest, hz⟩ := zones_ne_nil _ _ hne
    rw [hz]; simp
  unfold ServeDNS
  rw [if_neg hne, hz]
  have : len state.QName = len state.Name := (len_ToLower _).symm
  simp only [this, if_true, nodata_eq k now hzones]

/-- Witness of C7: a PTR query for the apex `in-addr.arpa.` in mode `echo-ip`, without an
index. -/
theorem apex_nodata_witness :
    ServeDNS (testPlugin modeEchoIP) (question "in-addr.arpa." TypePTR) 1700000000 =
      ⟨nodataReply (testPlugin modeEchoIP) 1700000000, []⟩ :=
  apex_nodata (testPlugin modeEchoIP) (question "in-addr.arpa." TypePTR) 1700000000
    (by decide) (by decide)

/-! ## C8: the records of matched pods -/

/-- C8: in the forward branch (outside mode `echo-ip`, where no pod is matched), for every
two-label query of a type other than PTR that matches at least one pod, the reply has
return code SUCCESS, never NAME_ERROR, also when its answer section is empty.  The answer
section holds, for every matched pod in turn and every address of it in turn, an A record
iff the address is an IPv4 literal and the query type is A, and an AAAA record iff the
address is an IPv6 literal and the query type is AAAA. -/
theorem matched_pods_success (k : KubePods) (state : Request) (now : Nat) (zone x ns : String)
    (indexer : Indexer) (pods : List Pod) (hmode : k.mode ≠ modeEchoIP)
    (hidx : k.indexer = some indexer) (hzone : belowApex k state zone)
    (htype : state.QType ≠ TypePTR) (hseg : podSegments state zone = some [x, ns])
    (hmatch : matchedItems k indexer (ns ++ "/" ++ x) = .ok (pods.map Obj.pod))
    (hne : pods ≠ []) :
    (ServeDNS k state now).outcome =
      answerReply (pods.flatMap fun pod =>
        pod.PodIPs.filterMap fun a =>
          if state.QType = TypeA then
            (parseIPv4 a.data).map fun octets => aRecord k state.Name (v4InV6 octets)
          else if state.QType = TypeAAAA then
            (parseIPv6 a.data).map fun ip => aaaaRecord k state.Name ip
          else none) := by
  rw [ServeDNS_two_labels k state now zone x ns indexer hmode hidx hzone htype hseg, hmatch]
  simp only [answerItems_pods k state now pods [] hne]
  congr 1
  congr 1
  funext pod
  unfold answersFor ipv4Answers ipv6Answers
  have hBA : TypeAAAA ≠ TypeA := by decide
  by_cases h1 : state.QType = TypeA
  · simp [h1]
  · by_cases h2 : state.QType = TypeAAAA
    · simp [h2, hBA]
    · simp [h1, h2]

/-- Witness of C8: the type AAAA query for `pod2.namespace2.cluster.local.` in mode
`name-and-ip` matches `pod2`, which has no IPv6 address; the reply is SUCCESS with an
empty answer section. -/
theorem matched_pods_success_witness :
    (ServeDNS (testPlugin modeNameAndIP) (question "pod2.namespace2.cluster.local." TypeAAAA)
      1700000000).outcome = answerReply [] :=
  matched_pods_success (testPlugin modeNameAndIP)
    (question "pod2.namespace2.cluster.local." TypeAAAA) 1700000000 "cluster.local." "pod2"
    "namespace2" (indexerOf [pod1, pod2]) [pod2] (by decide) rfl (by decide) (by decide)
    (by decide) (by decide) (by decide)

/-! ## C9: the authority section of a reply -/

/-- C9, the code at the failing input: in mode `name` the type AAAA query for
`pod2.namespace2.cluster.local.` matches `pod2`, which has IPv4 addresses only.  The
outcome is NODATA, the name exists and has no record of the type, and the answer section
is empty, but the reply carries no SOA record: its authority section is empty, unlike
the NODATA replies that `nodata` writes for the apex and for a namespace. -/
theorem empty_answer_without_soa :
    (ServeDNS (testPlugin modeName) (question "pod2.namespace2.cluster.local." TypeAAAA)
      1700000000).outcome =
      .reply { Response := true, Rcode := RcodeSuccess, Authoritative := true, Answer := [],
               Extra := [], Ns := [] } RcodeSuccess ∧
    (ServeDNS (testPlugin modeName) (question "namespace2.cluster.local." TypeAAAA)
      1700000000).outcome = nodataReply (testPlugin modeName) 1700000000 := by
  decide

/-! ## C10: query types other than A, AAAA and PTR -/

/-- C10, as amended: for every mode and every index state, a query whose type is none of
A, AAAA and PTR and whose name lies under a configured zone, below its apex, takes the
NXDOMAIN path (NAME_ERROR with one SOA authority record, or the next handler when the
`fallthrough` zones cover the name) whenever its name matches nothing: when the name has
neither one nor two labels below the zone; in mode `echo-ip` when it has two labels and
the first does not decode to an IP address; in the other modes when it has two labels
and matches no pod, or has one label and the `namespace` index holds no entry for it. -/
theorem other_type_nxdomain (k : KubePods) (state : Request) (now : Nat) (zone : String)
    (segs : List String) (hzone : belowApex k state zone)
    (htype : state.QType ≠ TypeA ∧ state.QType ≠ TypeAAAA ∧ state.QType ≠ TypePTR)
    (hseg : podSegments state zone = some segs) :
    (segs.length ≠ 1 → segs.length ≠ 2 →
      ServeDNS k state now = ⟨nxdomainOrNext k state now, []⟩) ∧
    (k.mode = modeEchoIP → ∀ x ns, segs = [x, ns] → ParseIP (undashIP x) = none →
      ServeDNS k state now = ⟨nxdomainOrNext k state now, []⟩) ∧
    (k.mode ≠ modeEchoIP → ∀ indexer, k.indexer = some indexer →
      (∀ x ns, segs = [x, ns] → matchedItems k indexer (ns ++ "/" ++ x) = .ok [] →
        (ServeDNS k state now).outcome = nxdomainOrNext k state now) ∧
      (∀ ns, segs = [ns] → indexer.ByIndex "namespace" ns = .ok [] →
        (ServeDNS k state now).outcome = nxdomainOrNext k state now)) := by
  have hne := zones_ne_nil_of_belowApex hzone
  have hfwd := ServeDNS_forward k state now zone segs hzone htype.2.2 hseg
  refine ⟨?_, ?_, ?_⟩
  · intro h1 h2
    rw [hfwd]
    match segs, h1, h2 with
    | [], _, _ => simp [serveSegments, answerItems_nil k state now [] hne]
    | [_], h1, _ => simp at h1
    | [_, _], _, h2 => simp at h2
    | _ :: _ :: _ :: _, _, _ => simp [serveSegments, answerItems_nil k state now [] hne]
  · rintro hmode x ns rfl hparse
    rw [hfwd]
    simp only [serveSegments, hmode, if_true, hparse, nxdomain_eq k state now hne]
  · intro hmode indexer hidx
    constructor
    · rintro x ns rfl hmatch
      rw [ServeDNS_two_labels k state now zone x ns indexer hmode hidx hzone htype.2.2 hseg,
        hmatch]
      simp only [answerItems_nil k state now [] hne]
    · rintro ns rfl hview
      rw [hfwd]
      simp [serveSegments, if_neg hmode, hidx, hview, answerItems_nil k state now _ hne]

/-- Witness of C10 as amended: the type MX query of the tests for
`nonexistent-pod.nonexistent-namespace.cluster.local.` in mode `name-and-ip` is answered
NXDOMAIN. -/
theorem other_type_nxdomain_witness :
    (ServeDNS (testPlugin modeNameAndIP)
      (question "nonexistent-pod.nonexistent-namespace.cluster.local." TypeMX)
      1700000000).outcome = nxdomainReply (testPlugin modeNameAndIP) 1700000000 :=
  ((other_type_nxdomain (testPlugin modeNameAndIP)
    (question "nonexistent-pod.nonexistent-namespace.cluster.local." TypeMX) 1700000000
    "cluster.local." ["nonexistent-pod", "nonexistent-namespace"]
    (by decide) (by decide) (by decide)).2.2 (by decide) (indexerOf [pod1, pod2]) rfl).1
    "nonexistent-pod" "nonexistent-namespace" rfl (by decide)

/-- Counterexample to C10 as stated: in mode `name` the type MX query for
`pod1.namespace1.cluster.local.`, a name under the zone `cluster.local.` and not its apex,
is answered SUCCESS with an empty answer section, and the type MX query for
`namespace1.cluster.local.` is answered NODATA; neither is answered NXDOMAIN. -/
theorem other_type_counterexample :
    (ServeDNS (testPlugin modeName) (question "pod1.namespace1.cluster.local." TypeMX)
      1700000000).outcome = answerReply [] ∧
    (ServeDNS (testPlugin modeName) (question "namespace1.cluster.local." TypeMX)
      1700000000).outcome = nodataReply (testPlugin modeName) 1700000000 ∧
    (ServeDNS (testPlugin modeName) (question "pod1.namespace1.cluster.local." TypeMX)
      1700000000).outcome ≠ nxdomainReply (testPlugin modeName) 1700000000 := by
  decide

/-! ## C11: the next handler and the negative results -/

theorem through_withoutFall (k : KubePods) (name : String) :
    Through (withoutFall k).Fall name = false := by
  show Through [] name = false
  simp [Through, Matches]

theorem nxdomain_fallThrough (k : KubePods) (state : Request) (now : Nat) (hz : k.Zones ≠ []) :
    nxdomain k state now = fallThrough k state (nxdomain (withoutFall k) state now) := by
  have hsoa : soa (withoutFall k) now = soa k now := rfl
  unfold nxdomain
  rw [through_withoutFall, hsoa, soa_eq k now hz]
  by_cases h : Through k.Fall state.Name = true
  · simp [fallThrough, h]
  · simp [fallThrough, h]

theorem nodata_fallThrough (k : KubePods) (state : Request) (now : Nat) :
    nodata k now = fallThrough k state (nodata (withoutFall k) now) := by
  have hsoa : soa (withoutFall k) now = soa k now := rfl
  unfold nodata
  rw [hsoa]
  cases soa k now with
  | none => rfl
  | some r =>
    have : ¬ (RcodeSuccess = RcodeNameError ∧ Through k.Fall state.Name = true) := by
      rintro ⟨h, -⟩; exact absurd h (by decide)
    simp only [fallThrough, if_neg this]

theorem ptrIPs_withoutFall (k : KubePods) (qname qip : String) (pod : Pod) (ips : List String) :
    ptrIPs (withoutFall k) qname qip pod ips = ptrIPs k qname qip pod ips := by
  induction ips with
  | nil => rfl
  | cons ip rest ih =>
    have hz : (withoutFall k).Zones = k.Zones := rfl
    have ht : (withoutFall k).ttl = k.ttl := rfl
    simp only [ptrIPs, ih, hz, ht]

theorem ptr_withoutFall (k : KubePods) (qname qip : String) (pod : Pod) :
    ptr (withoutFall k) qname qip pod = ptr k qname qip pod := by
  have hz : (withoutFall k).Zones = k.Zones := rfl
  have ht : (withoutFall k).ttl = k.ttl := rfl
  have hm : (withoutFall k).mode = k.mode := rfl
  simp only [ptr, ptrIPs_withoutFall, hz, ht, hm]

theorem ptrRecords_withoutFall (k : KubePods) (state : Request) (addr : String) (objs : List Obj) :
    ptrRecords (withoutFall k) state addr objs = ptrRecords k state addr objs := by
  induction objs with
  | nil => rfl
  | cons obj rest ih =>
    cases obj with
    | other t => rfl
    | pod pod => simp only [ptrRecords, ih, ptr_withoutFall]

theorem addressRecords_withoutFall (k : KubePods) (state : Request) (items : List Obj) :
    addressRecords (withoutFall k) state items = addressRecords k state items := by
  induction items with
  | nil => rfl
  | cons obj rest ih =>
    cases obj with
    | other t => rfl
    | pod pod =>
      have ha : aRecords (withoutFall k) state.Name pod = aRecords k state.Name pod := rfl
      have hb : aaaaRecords (withoutFall k) state.Name pod = aaaaRecords k state.Name pod := rfl
      simp only [addressRecords, ih, ha, hb]

/-- An outcome that ends one of the loops early is a server failure or a panic. -/
theorem ptrRecords_error (k : KubePods) (state : Request) (addr : String) (objs : List Obj)
    (o : Outcome) (h : ptrRecords k state addr objs = .error o) : fallThrough k state o = o := by
  induction objs with
  | nil => simp [ptrRecords] at h
  | cons obj rest ih =>
    cases obj with
    | other t =>
      simp only [ptrRecords, Except.error.injEq] at h
      rw [← h]; rfl
    | pod pod =>
      simp only [ptrRecords] at h
      cases hp : ptr k state.QName addr pod with
      | none =>
        rw [hp] at h
        simp only [Except.error.injEq] at h
        rw [← h]; rfl
      | some ptrs =>
        rw [hp] at h
        cases hr : ptrRecords k state addr rest with
        | error o2 =>
          rw [hr] at h
          simp only [Except.error.injEq] at h
          subst h
          exact ih hr
        | ok more => rw [hr] at h; simp at h

theorem addressRecords_error (k : KubePods) (state : Request) (items : List Obj)
    (o : Outcome) (h : addressRecords k state items = .error o) : fallThrough k state o = o := by
  induction items with
  | nil => simp [addressRecords] at h
  | cons obj rest ih =>
    cases obj with
    | other t =>
      simp only [addressRecords, Except.error.injEq] at h
      rw [← h]; rfl
    | pod pod =>
      simp only [addressRecords] at h
      cases hr : addressRecords k state rest with
      | error o2 =>
        rw [hr] at h
        simp only [Except.error.injEq] at h
        subst h
        exact ih hr
      | ok more => rw [hr] at h; simp at h

theorem fallThrough_success (k : KubePods) (state : Request) (m : Msg) :
    fallThrough k state (.reply m RcodeSuccess) = .reply m RcodeSuccess := by
  have : ¬ (RcodeSuccess = RcodeNameError ∧ Through k.Fall state.Name = true) := by
    rintro ⟨h, -⟩; exact absurd h (by decide)
  simp only [fallThrough, if_neg this]

theorem answerItems_fallThrough (k : KubePods) (state : Request) (now : Nat) (items : List Obj)
    (reads : List IndexRead) (hz : k.Zones ≠ []) :
    answerItems k state now items reads =
      ⟨fallThrough k state (answerItems (withoutFall k) state now items reads).outcome,
        (answerItems (withoutFall k) state now items reads).reads⟩ := by
  unfold answerItems
  rw [addressRecords_withoutFall]
  by_cases h0 : items.length = 0
  · simp only [if_pos h0, nxdomain_fallThrough k state now hz]
  · simp only [if_neg h0]
    cases hr : addressRecords k state items with
    | error o => simp only [addressRecords_error k state items o hr]
    | ok records => simp only [fallThrough_success]

theorem byKey_fallThrough (k : KubePods) (state : Request) (now : Nat) (key : String)
    (items : List Obj) (reads : List IndexRead) (hz : k.Zones ≠ []) :
    byKey k state now key items reads =
      ⟨fallThrough k state (byKey (withoutFall k) state now key items reads).outcome,
        (byKey (withoutFall k) state now key items reads).reads⟩ := by
  have hm : (withoutFall k).mode = k.mode := rfl
  have hi : (withoutFall k).indexer = k.indexer := rfl
  unfold byKey
  rw [hm, hi]
  by_cases h : k.mode = modeName ∨ k.mode = modeNameAndIP
  · simp only [if_pos h]
    cases k.indexer with
    | none => rfl
    | some indexer =>
      simp only []
      cases indexer.GetByKey key with
      | error err => rfl
      | ok primary =>
        cases primary with
        | none => exact answerItems_fallThrough k state now _ _ hz
        | some item => exact answerItems_fallThrough k state now _ _ hz
  · simp only [if_neg h]
    exact answerItems_fallThrough k state now _ _ hz

theorem byDashedIP_fallThrough (k : KubePods) (state : Request) (now : Nat) (key : String)
    (hz : k.Zones ≠ []) :
    byDashedIP k state now key =
      ⟨fallThrough k state (byDashedIP (withoutFall k) state now key).outcome,
        (byDashedIP (withoutFall k) state now key).reads⟩ := by
  have hm : (withoutFall k).mode = k.mode := rfl
  have hi : (withoutFall k).indexer = k.indexer := rfl
  unfold byDashedIP
  rw [hm, hi]
  by_cases h : k.mode = modeIP ∨ k.mode = modeNameAndIP
  · simp only [if_pos h]
    cases k.indexer with
    | none => rfl
    | some indexer =>
      simp only []
      cases indexer.ByIndex "dashedip" key with
      | error err => rfl
      | ok items => exact byKey_fallThrough k state now key _ _ hz
  · simp only [if_neg h]
    exact byKey_fallThrough k state now key _ _ hz

theorem serveSegments_fallThrough (k : KubePods) (state : Request) (now : Nat)
    (segs : List String) (hz : k.Zones ≠ []) :
    serveSegments k state now segs =
      ⟨fallThrough k state (serveSegments (withoutFall k) state now segs).outcome,
        (serveSegments (withoutFall k) state now segs).reads⟩ := by
  have hm : (withoutFall k).mode = k.mode := rfl
  have hi : (withoutFall k).indexer = k.indexer := rfl
  have ht : (withoutFall k).ttl = k.ttl := rfl
  match segs with
  | [] =>
    simp only [serveSegments]
    exact answerItems_fallThrough k state now _ _ hz
  | [seg0] =>
    simp only [serveSegments, hm, hi]
    by_cases he : k.mode = modeEchoIP
    · simp only [if_pos he, ← nodata_fallThrough k state now]
    · simp only [if_neg he]
      cases k.indexer with
      | none => rfl
      | some indexer =>
        simp only []
        cases indexer.ByIndex "namespace" seg0 with
        | error err => rfl
        | ok items =>
          simp only []
          by_cases hl : items.length > 0
          · simp only [if_pos hl, ← nodata_fallThrough k state now]
          · simp only [if_neg hl]
            exact answerItems_fallThrough k state now _ _ hz
  | [seg0, seg1] =>
    simp only [serveSegments, hm, ht]
    by_cases he : k.mode = modeEchoIP
    · simp only [if_pos he]
      cases ParseIP (undashIP seg0) with
      | none => simp only [nxdomain_fallThrough k state now hz]
      | some ip =>
        simp only []
        by_cases h4 : To4 ip = none
        · simp only [if_pos h4, fallThrough_success]
        · simp only [if_neg h4, fallThrough_success]
    · simp only [if_neg he]
      exact byDashedIP_fallThrough k state now _ hz
  | _ :: _ :: _ :: _ =>
    simp only [serveSegments]
    exact answerItems_fallThrough k state now _ _ hz

theorem serveReverse_fallThrough (k : KubePods) (state : Request) (now : Nat)
    (hz : k.Zones ≠ []) :
    serveReverse k state now =
      ⟨fallThrough k state (serveReverse (withoutFall k) state now).outcome,
        (serveReverse (withoutFall k) state now).reads⟩ := by
  have hm : (withoutFall k).mode = k.mode := rfl
  have hi : (withoutFall k).indexer = k.indexer := rfl
  unfold serveReverse
  simp only [hm, hi, ptrRecords_withoutFall]
  by_cases ha : ExtractAddressFromReverse state.Name = ""
  · simp only [if_pos ha, nxdomain_fallThrough k state now hz]
  · simp only [if_neg ha]
    by_cases he : k.mode = modeEchoIP
    · simp only [if_pos he, nxdomain_fallThrough k state now hz]
    · simp only [if_neg he]
      cases k.indexer with
      | none => rfl
      | some indexer =>
        simp only []
        cases indexer.ByIndex "reverse" (ExtractAddressFromReverse state.Name) with
        | error err => rfl
        | ok objs =>
          simp only []
          by_cases hl : objs.length = 0
          · simp only [if_pos hl, nxdomain_fallThrough k state now hz]
          · simp only [if_neg hl]
            cases hr : ptrRecords k state (ExtractAddressFromReverse state.Name) objs with
            | error o => simp only [ptrRecords_error k state _ objs o hr]
            | ok records => simp only [fallThrough_success]

/-- Under a configured zone the run of `ServeDNS` is the run of the instance without
`fallthrough` zones, with a NAME_ERROR reply replaced by the hand-over to the next handler
when the `fallthrough` zones cover the name. -/
theorem ServeDNS_fallThrough (k : KubePods) (state : Request) (now : Nat)
    (h : Matches k.Zones state.Name ≠ "") :
    ServeDNS k state now =
      ⟨fallThrough k state (ServeDNS (withoutFall k) state now).outcome,
        (ServeDNS (withoutFall k) state now).reads⟩ := by
  have hz : k.Zones ≠ [] := by
    obtain ⟨z, rest, e⟩ := zones_ne_nil _ _ h
    rw [e]; simp
  have hz0 : (withoutFall k).Zones = k.Zones := rfl
  have hq : queryZone (withoutFall k) state = queryZone k state := rfl
  unfold ServeDNS
  rw [hz0, hq]
  simp only [if_neg h]
  cases queryZone k state with
  | none => rfl
  | some zone =>
    simp only []
    by_cases h2 : len zone = len state.Name
    · simp only [if_pos h2, ← nodata_fallThrough k state now]
    · simp only [if_neg h2]
      by_cases h3 : state.QType = TypePTR
      · simp only [if_pos h3]
        exact serveReverse_fallThrough k state now hz
      · simp only [if_neg h3]
        cases podDomain state zone with
        | none => rfl
        | some d => exact serveSegments_fallThrough k state now _ hz

/-- C11, as amended: a query whose name is under no configured zone goes to the next handler
(`plugin.NextOrFailure`: what the next handler returns, or SERVFAIL with an error when there
is none), and no reply is written.  Under a configured zone, with the native result the
result of the instance without `fallthrough` zones: a native NXDOMAIN goes to the next
handler when the `fallthrough` zones cover the name and is answered authoritatively
otherwise; a native NODATA is answered authoritatively whether or not `fallthrough` is
configured; with `fallthrough` for the name the handler writes no NAME_ERROR reply; and in
general the run is the native run with only a NAME_ERROR reply replaced by the hand-over. -/
theorem fallthrough_negative (k : KubePods) (state : Request) (now : Nat) :
    (Matches k.Zones state.Name = "" → ServeDNS k state now = ⟨NextOrFailure k, []⟩) ∧
    (Matches k.Zones state.Name ≠ "" →
      (ServeDNS (withoutFall k) state now).outcome = nxdomainReply k now →
      (Through k.Fall state.Name = true → (ServeDNS k state now).outcome = NextOrFailure k) ∧
      (Through k.Fall state.Name = false →
        (ServeDNS k state now).outcome = nxdomainReply k now)) ∧
    (Matches k.Zones state.Name ≠ "" →
      (ServeDNS (withoutFall k) state now).outcome = nodataReply k now →
      (ServeDNS k state now).outcome = nodataReply k now) ∧
    (Matches k.Zones state.Name ≠ "" → Through k.Fall state.Name = true →
      ∀ m, (ServeDNS k state now).outcome ≠ .reply m RcodeNameError) ∧
    (Matches k.Zones state.Name ≠ "" →
      ServeDNS k state now =
        ⟨fallThrough k state (ServeDNS (withoutFall k) state now).outcome,
          (ServeDNS (withoutFall k) state now).reads⟩) := by
  refine ⟨?_, ?_, ?_, ?_, ?_⟩
  · intro h
    unfold ServeDNS
    rw [if_pos h]
  · intro h hnative
    rw [ServeDNS_fallThrough k state now h, hnative]
    constructor
    · intro ht
      simp [fallThrough, nxdomainReply, negativeReply, ht]
    · intro ht
      simp [fallThrough, nxdomainReply, negativeReply, ht]
  · intro h hnative
    rw [ServeDNS_fallThrough k state now h, hnative]
    exact fallThrough_success k state _
  · intro h ht m
    rw [ServeDNS_fallThrough k state now h]
    cases (ServeDNS (withoutFall k) state now).outcome with
    | reply m2 rcode =>
      by_cases hr : rcode = RcodeNameError
      · simp only [fallThrough, hr, ht, and_self, if_true]
        unfold NextOrFailure
        cases k.Next <;> simp
      · have : ¬ (rcode = RcodeNameError ∧ Through k.Fall state.Name = true) := fun hc => hr hc.1
        simp only [fallThrough, if_neg this]
        intro heq
        injection heq with h1 h2
        exact hr h2
    | next h2 => simp [fallThrough]
    | failure rcode err => simp [fallThrough]
    | panic => simp [fallThrough]
  · exact ServeDNS_fallThrough k state now

/-- Witness of C11 as amended: with `fallthrough` and the next handler `forward`, the query
`pod1.namespace1.cluster.local.` in mode `ip`, natively NXDOMAIN, goes to `forward`. -/
theorem fallthrough_negative_witness :
    (ServeDNS (testPluginFall modeIP) (question "pod1.namespace1.cluster.local." TypeA) 0).outcome =
      NextOrFailure (testPluginFall modeIP) ∧
    NextOrFailure (testPluginFall modeIP) = .next { Name := "forward" } :=
  ⟨((fallthrough_negative (testPluginFall modeIP)
      (question "pod1.namespace1.cluster.local." TypeA) 0).2.1 (by decide) (by decide)).1
      (by decide), by decide⟩

/-- Counterexample to C11 as stated: with `fallthrough` for every name and the next handler
`forward`, the queries `namespace1.cluster.local.` and `cluster.local.` in mode `name`,
natively NODATA, are answered by the handler itself and not handed to `forward`. -/
theorem fallthrough_negative_counterexample :
    Through (testPluginFall modeName).Fall
      (question "namespace1.cluster.local." TypeA).Name = true ∧
    (ServeDNS (withoutFall (testPluginFall modeName))
      (question "namespace1.cluster.local." TypeA) 0).outcome =
      nodataReply (testPluginFall modeName) 0 ∧
    (ServeDNS (testPluginFall modeName) (question "namespace1.cluster.local." TypeA) 0).outcome =
      nodataReply (testPluginFall modeName) 0 ∧
    (ServeDNS (testPluginFall modeName) (question "namespace1.cluster.local." TypeA) 0).outcome ≠
      NextOrFailure (testPluginFall modeName) ∧
    (ServeDNS (testPluginFall modeName) (question "cluster.local." TypeA) 0).outcome =
      nodataReply (testPluginFall modeName) 0 := by
  decide

/-! ## C12: the lookups of a two-label forward query -/

theorem ServeDNS_byDashedIP (k : KubePods) (state : Request) (now : Nat) (zone x ns : String)
    (hmode : k.mode ≠ modeEchoIP) (hzone : belowApex k state zone)
    (htype : state.QType ≠ TypePTR) (hseg : podSegments state zone = some [x, ns]) :
    ServeDNS k state now = byDashedIP k state now (ns ++ "/" ++ x) := by
  rw [ServeDNS_forward k state now zone _ hzone htype hseg]
  simp only [serveSegments, if_neg hmode, join_key]

/-- C12, as amended: for every two-label forward query `X.ns.<zone>` outside mode `echo-ip`,
with `key = ns/X`, `ServeDNS` ends as the tail of the function (`answerItems`) on a list of
matched items that the mode determines.  In mode `ip` the list is the entries of the
`dashedip` index for `key`, and this is the only read of the index (the primary key is not
looked up).  In mode `name` it is the entry of the primary key `key`, if any, and this is the
only read.  In mode `name-and-ip` it is the `dashedip` entries followed by the primary
entry, without de-duplication, read in this order.  On the empty list the tail hands the
query to the next handler when the `fallthrough` zones cover the name, and answers NXDOMAIN
otherwise. -/
theorem two_label_lookup (k : KubePods) (state : Request) (now : Nat) (zone x ns : String)
    (indexer : Indexer) (hidx : k.indexer = some indexer) (hzone : belowApex k state zone)
    (htype : state.QType ≠ TypePTR) (hseg : podSegments state zone = some [x, ns]) :
    (k.mode = modeIP → ∀ dashed, indexer.ByIndex "dashedip" (ns ++ "/" ++ x) = .ok dashed →
      ServeDNS k state now =
        answerItems k state now dashed [.ByIndex "dashedip" (ns ++ "/" ++ x)]) ∧
    (k.mode = modeName → ∀ primary, indexer.GetByKey (ns ++ "/" ++ x) = .ok primary →
      ServeDNS k state now =
        answerItems k state now primary.toList [.GetByKey (ns ++ "/" ++ x)]) ∧
    (k.mode = modeNameAndIP → ∀ dashed primary,
      indexer.ByIndex "dashedip" (ns ++ "/" ++ x) = .ok dashed →
      indexer.GetByKey (ns ++ "/" ++ x) = .ok primary →
      ServeDNS k state now =
        answerItems k state now (dashed ++ primary.toList)
          [.ByIndex "dashedip" (ns ++ "/" ++ x), .GetByKey (ns ++ "/" ++ x)]) ∧
    (∀ reads, answerItems k state now [] reads = ⟨nxdomainOrNext k state now, reads⟩) := by
  refine ⟨?_, ?_, ?_, ?_⟩
  · intro hm dashed hd
    have hne : k.mode ≠ modeEchoIP := by rw [hm]; decide
    have h2 : ¬ (k.mode = modeName ∨ k.mode = modeNameAndIP) := by rw [hm]; decide
    rw [ServeDNS_byDashedIP k state now zone x ns hne hzone htype hseg]
    unfold byDashedIP byKey
    simp only [hidx, hd, if_pos (Or.inl hm), if_neg h2]
  · intro hm primary hg
    have hne : k.mode ≠ modeEchoIP := by rw [hm]; decide
    have h1 : ¬ (k.mode = modeIP ∨ k.mode = modeNameAndIP) := by rw [hm]; decide
    rw [ServeDNS_byDashedIP k state now zone x ns hne hzone htype hseg]
    unfold byDashedIP byKey
    simp only [hidx, hg, if_pos (Or.inl hm), if_neg h1]
    cases primary <;> rfl
  · intro hm dashed primary hd hg
    have hne : k.mode ≠ modeEchoIP := by rw [hm]; decide
    rw [ServeDNS_byDashedIP k state now zone x ns hne hzone htype hseg]
    unfold byDashedIP byKey
    simp only [hidx, hd, hg, if_pos (Or.inr hm)]
    cases primary with
    | none => simp
    | some item => rfl
  · intro reads
    exact answerItems_nil k state now reads (zones_ne_nil_of_belowApex hzone)

/-- Witness of C12 as amended: in mode `name-and-ip` the pod `1-2-3-4` with the address
1.2.3.4 is matched by the `dashedip` index and by its key, and answers two times. -/
theorem two_label_lookup_witness :
    ServeDNS dashedNamePlugin (question "1-2-3-4.namespace1.cluster.local." TypeA) 0 =
      answerItems dashedNamePlugin (question "1-2-3-4.namespace1.cluster.local." TypeA) 0
        ([Obj.pod dashedNamePod] ++ (some (Obj.pod dashedNamePod)).toList)
        [.ByIndex "dashedip" ("namespace1" ++ "/" ++ "1-2-3-4"),
         .GetByKey ("namespace1" ++ "/" ++ "1-2-3-4")] ∧
    (ServeDNS dashedNamePlugin (question "1-2-3-4.namespace1.cluster.local." TypeA) 0).outcome =
      answerReply
        [aRecord dashedNamePlugin "1-2-3-4.namespace1.cluster.local." (v4InV6 [1, 2, 3, 4]),
         aRecord dashedNamePlugin "1-2-3-4.namespace1.cluster.local." (v4InV6 [1, 2, 3, 4])] :=
  ⟨(two_label_lookup dashedNamePlugin (question "1-2-3-4.namespace1.cluster.local." TypeA) 0
      "cluster.local." "1-2-3-4" "namespace1" (indexerOf [dashedNamePod]) rfl (by decide)
      (by decide) (by decide)).2.2.1 rfl [Obj.pod dashedNamePod] (some (Obj.pod dashedNamePod))
      (by decide) (by decide),
   by decide⟩

/-- Counterexample to C12 as stated: with `fallthrough` and a next handler, the query
`pod1.namespace1.cluster.local.` in mode `ip` matches no pod, and the outcome is the
hand-over to the next handler, not NXDOMAIN. -/
theorem two_label_lookup_counterexample :
    belowApex (testPluginFall modeIP) (question "pod1.namespace1.cluster.local." TypeA)
      "cluster.local." ∧
    podSegments (question "pod1.namespace1.cluster.local." TypeA) "cluster.local." =
      some ["pod1", "namespace1"] ∧
    (indexerOf [pod1, pod2]).ByIndex "dashedip" "namespace1/pod1" = .ok [] ∧
    ServeDNS (testPluginFall modeIP) (question "pod1.namespace1.cluster.local." TypeA) 0 =
      ⟨.next { Name := "forward" }, [.ByIndex "dashedip" "namespace1/pod1"]⟩ ∧
    (ServeDNS (testPluginFall modeIP) (question "pod1.namespace1.cluster.local." TypeA) 0).outcome ≠
      nxdomainReply (testPluginFall modeIP) 0 := by
  decide

/-! ## C13: the search path -/

/-- C13: for every request whose query name matches the configured zone `z` (the zone
`Matches` finds) and whose source address the `reverse` index resolves to a pod of the
namespace `ns` (its first entry), in any mode other than `echo-ip`, `AutoPath` returns
exactly `ns.svc.z`, `svc.z`, `z`, then the configured extra search suffixes in order, then
one empty string; for the root zone `.` the first three entries are `ns.svc.`, `svc.` and
`.`.  It returns no list when no zone matches, when the mode is `echo-ip`, and when the
address resolves to no pod. -/
theorem autopath_search (k : KubePods) (state : Request) :
    (∀ z indexer pod rest, Matches k.Zones state.Name = z → z ≠ "" → k.mode ≠ modeEchoIP →
      k.indexer = some indexer →
      indexer.ByIndex "reverse" state.IP = .ok (.pod pod :: rest) →
      AutoPath k state =
        .search ((if z = "." then [pod.Namespace ++ ".svc.", "svc.", "."]
                  else [pod.Namespace ++ ".svc." ++ z, "svc." ++ z, z]) ++
                 k.autoPathSearch ++ [""])) ∧
    (Matches k.Zones state.Name = "" → AutoPath k state = .noList) ∧
    (k.mode = modeEchoIP → AutoPath k state = .noList) ∧
    (∀ indexer, k.indexer = some indexer → indexer.ByIndex "reverse" state.IP = .ok [] →
      AutoPath k state = .noList) := by
  refine ⟨?_, ?_, ?_, ?_⟩
  · rintro z indexer pod rest rfl hne hmode hidx hview
    simp only [AutoPath, if_neg hne, if_neg hmode, hidx, hview]
  · intro h
    simp only [AutoPath, h, if_true]
  · intro h
    simp only [AutoPath, h, if_true, ite_self]
  · intro indexer hidx hview
    simp only [AutoPath, hidx, hview]
    split
    · rfl
    · split <;> rfl

/-- Witness of C13: a request under `cluster.local.` from the address 1.2.3.4 of `pod1`,
with the extra search suffix `example.org.`. -/
theorem autopath_search_witness :
    AutoPath { testPlugin modeName with autoPathSearch := ["example.org."] }
        (questionFrom "www.cluster.local." TypeA "1.2.3.4") =
      .search ["namespace1.svc.cluster.local.", "svc.cluster.local.", "cluster.local.",
               "example.org.", ""] :=
  (autopath_search { testPlugin modeName with autoPathSearch := ["example.org."] }
    (questionFrom "www.cluster.local." TypeA "1.2.3.4")).1 "cluster.local."
    (indexerOf [pod1, pod2]) pod1 [] (by decide) (by decide) (by decide) rfl (by decide)

/-! ## C14: the metadata labels -/

/-- C14, the code at the failing input, the request of `TestMetadata` from the address
1.2.3.4 of `pod1`: `Metadata` registers the namespace, the pod name and the annotations
under labels that begin with `kubernetes/`, so the labels `kubepods/client-namespace`,
`kubepods/client-pod-name` and `kubepods/client-pod-annotation-foo`, which the test and the
claim name, are not registered. -/
theorem metadata_labels_kubernetes :
    Metadata (testPlugin modeName) (questionFrom "example.com." TypeA "1.2.3.4") [] =
      [("kubernetes/client-namespace", "namespace1"), ("kubernetes/client-pod-name", "pod1"),
       ("kubernetes/client-pod-annotation-foo", "bar"),
       ("kubernetes/client-pod-annotation-bar", "foo")] ∧
    ValueOf (Metadata (testPlugin modeName) (questionFrom "example.com." TypeA "1.2.3.4") [])
      "kubepods/client-namespace" = none ∧
    ValueOf (Metadata (testPlugin modeName) (questionFrom "example.com." TypeA "1.2.3.4") [])
      "kubepods/client-pod-name" = none ∧
    ValueOf (Metadata (testPlugin modeName) (questionFrom "example.com." TypeA "1.2.3.4") [])
      "kubepods/client-pod-annotation-foo" = none := by
  decide

/-! ## C15: mode `echo-ip` and the index -/

theorem nxdomain_withIndexer (k : KubePods) (idx : Option Indexer) (state : Request) (now : Nat) :
    nxdomain (withIndexer k idx) state now = nxdomain k state now := rfl

theorem nodata_withIndexer (k : KubePods) (idx : Option Indexer) (now : Nat) :
    nodata (withIndexer k idx) now = nodata k now := rfl

theorem eraseSerial_nodata (k : KubePods) (now1 now2 : Nat) :
    eraseSerial (nodata k now1) = eraseSerial (nodata k now2) := by
  unfold nodata soa
  cases k.Zones <;> rfl

theorem eraseSerial_nxdomain (k : KubePods) (state : Request) (now1 now2 : Nat) :
    eraseSerial (nxdomain k state now1) = eraseSerial (nxdomain k state now2) := by
  unfold nxdomain soa
  by_cases h : Through k.Fall state.Name = true
  · simp only [if_pos h]
  · simp only [if_neg h]
    cases k.Zones <;> rfl

theorem answerItems_nil_eq (k : KubePods) (state : Request) (now : Nat) (reads : List IndexRead) :
    answerItems k state now [] reads = ⟨nxdomain k state now, reads⟩ := by
  simp [answerItems]

/-- In mode `echo-ip` the forward branch reads no index and does not depend on it; the clock
shows in the SOA serial only. -/
theorem serveSegments_echo (k : KubePods) (state : Request) (segs : List String)
    (hmode : k.mode = modeEchoIP) (idx : Option Indexer) (now1 now2 : Nat) :
    serveSegments (withIndexer k idx) state now1 segs = serveSegments k state now1 segs ∧
    (serveSegments k state now1 segs).reads = [] ∧
    eraseSerial (serveSegments k state now1 segs).outcome =
      eraseSerial (serveSegments k state now2 segs).outcome := by
  have hm : (withIndexer k idx).mode = modeEchoIP := hmode
  match segs with
  | [] =>
    simp only [serveSegments, answerItems_nil_eq, nxdomain_withIndexer]
    exact ⟨trivial, trivial, eraseSerial_nxdomain k state now1 now2⟩
  | [seg0] =>
    simp only [serveSegments, if_pos hmode, if_pos hm, nodata_withIndexer]
    exact ⟨trivial, trivial, eraseSerial_nodata k now1 now2⟩
  | [seg0, seg1] =>
    simp only [serveSegments, if_pos hmode, if_pos hm]
    cases ParseIP (undashIP seg0) with
    | none =>
      simp only [nxdomain_withIndexer]
      exact ⟨trivial, trivial, eraseSerial_nxdomain k state now1 now2⟩
    | some ip =>
      by_cases h4 : To4 ip = none
      · simp only [if_pos h4]
        exact ⟨rfl, trivial, trivial⟩
      · simp only [if_neg h4]
        exact ⟨rfl, trivial, trivial⟩
  | _ :: _ :: _ :: _ =>
    simp only [serveSegments, answerItems_nil_eq, nxdomain_withIndexer]
    exact ⟨trivial, trivial, eraseSerial_nxdomain k state now1 now2⟩

theorem serveReverse_echo (k : KubePods) (state : Request)
    (hmode : k.mode = modeEchoIP) (idx : Option Indexer) (now1 now2 : Nat) :
    serveReverse (withIndexer k idx) state now1 = serveReverse k state now1 ∧
    (serveReverse k state now1).reads = [] ∧
    eraseSerial (serveReverse k state now1).outcome =
      eraseSerial (serveReverse k state now2).outcome := by
  have hm : (withIndexer k idx).mode = modeEchoIP := hmode
  unfold serveReverse
  by_cases ha : ExtractAddressFromReverse state.Name = ""
  · simp only [if_pos ha, nxdomain_withIndexer]
    exact ⟨trivial, trivial, eraseSerial_nxdomain k state now1 now2⟩
  · simp only [if_neg ha, if_pos hmode, if_pos hm, nxdomain_withIndexer]
    exact ⟨trivial, trivial, eraseSerial_nxdomain k state now1 now2⟩

theorem ServeDNS_echo (k : KubePods) (state : Request)
    (hmode : k.mode = modeEchoIP) (idx : Option Indexer) (now1 now2 : Nat) :
    ServeDNS (withIndexer k idx) state now1 = ServeDNS k state now1 ∧
    (ServeDNS k state now1).reads = [] ∧
    eraseSerial (ServeDNS k state now1).outcome = eraseSerial (ServeDNS k state now2).outcome := by
  have hz : (withIndexer k idx).Zones = k.Zones := rfl
  have hq : queryZone (withIndexer k idx) state = queryZone k state := rfl
  have hn : NextOrFailure (withIndexer k idx) = NextOrFailure k := rfl
  unfold ServeDNS
  rw [hz, hq, hn]
  by_cases h1 : Matches k.Zones state.Name = ""
  · simp only [if_pos h1]
    exact ⟨trivial, trivial, trivial⟩
  · simp only [if_neg h1]
    cases queryZone k state with
    | none => exact ⟨rfl, rfl, rfl⟩
    | some zone =>
      simp only []
      by_cases h2 : len zone = len state.Name
      · simp only [if_pos h2, nodata_withIndexer]
        exact ⟨trivial, trivial, eraseSerial_nodata k now1 now2⟩
      · simp only [if_neg h2]
        by_cases h3 : state.QType = TypePTR
        · simp only [if_pos h3]
          exact serveReverse_echo k state hmode idx now1 now2
        · simp only [if_neg h3]
          cases podDomain state zone with
          | none => exact ⟨rfl, rfl, rfl⟩
          | some d => exact serveSegments_echo k state (SplitDomainName d) hmode idx now1 now2

/-- C15: in mode `echo-ip`, for every query and any two indexes `idx1` and `idx2` (an absent
index included) and any two times of the calls, `ServeDNS` reads no view of the index, the
two runs at the same time give the same outcome (return code and reply), and the two runs at
different times give the same outcome up to the SOA serial. -/
theorem echo_mode_index_free (k : KubePods) (state : Request) (hmode : k.mode = modeEchoIP)
    (idx1 idx2 : Option Indexer) (now1 now2 : Nat) :
    (ServeDNS (withIndexer k idx1) state now1).reads = [] ∧
    ServeDNS (withIndexer k idx1) state now1 = ServeDNS (withIndexer k idx2) state now1 ∧
    eraseSerial (ServeDNS (withIndexer k idx1) state now1).outcome =
      eraseSerial (ServeDNS (withIndexer k idx2) state now2).outcome := by
  obtain ⟨a1, a2, a3⟩ := ServeDNS_echo k state hmode idx1 now1 now2
  obtain ⟨b1, -, -⟩ := ServeDNS_echo k state hmode idx2 now1 now2
  obtain ⟨c1, -, -⟩ := ServeDNS_echo k state hmode idx2 now2 now1
  refine ⟨?_, ?_, ?_⟩
  · rw [a1]; exact a2
  · rw [a1, b1]
  · rw [a1, c1]; exact a3

/-- Witness of C15: the query `1-2-3-4.example.cluster.local.` in mode `echo-ip`, without an
index and with the index of the fixture pods. -/
theorem echo_mode_index_free_witness :
    ServeDNS (withIndexer (testPlugin modeEchoIP) none)
        (question "1-2-3-4.example.cluster.local." TypeA) 0 =
      ServeDNS (withIndexer (testPlugin modeEchoIP) (some (indexerOf [pod1, pod2])))
        (question "1-2-3-4.example.cluster.local." TypeA) 0 ∧
    ServeDNS (withIndexer (testPlugin modeEchoIP) none)
        (question "1-2-3-4.example.cluster.local." TypeA) 0 =
      ⟨answerReply [aRecord (testPlugin modeEchoIP) "1-2-3-4.example.cluster.local."
        (v4InV6 [1, 2, 3, 4])], []⟩ :=
  ⟨(echo_mode_index_free (testPlugin modeEchoIP)
      (question "1-2-3-4.example.cluster.local." TypeA) rfl none
      (some (indexerOf [pod1, pod2])) 0 0).2.1, by decide⟩

/-! ## C16: the property `ttl` -/

theorem parseProperty_ttl_ok (normalize : String → List String) (kps : KubePods)
    (arg : String) (rest : List String) (t : Int) (ha : Atoi arg = some t) (h0 : 0 ≤ t)
    (h1 : t ≤ 3600) :
    parseProperty normalize kps ⟨"ttl", arg :: rest⟩ = .ok { kps with ttl := t.toNat } := by
  have hmod : t % 2 ^ 32 = t := Int.emod_eq_of_lt h0 (by omega)
  have hr : ¬ (t < 0 ∨ t > 3600) := by omega
  simp only [parseProperty, ha, if_neg hr, hmod]
  rfl

theorem parseProperty_ttl_some (normalize : String → List String) (kps kps1 : KubePods)
    (p : Property) (hname : p.name = "ttl") (h : parseProperty normalize kps p = .ok kps1) :
    acceptableTTL p ∧ kps1.ttl ≤ 3600 := by
  obtain ⟨name, args⟩ := p
  simp only at hname
  subst hname
  cases args with
  | nil => simp [parseProperty] at h
  | cons arg rest =>
    cases ha : Atoi arg with
    | none => simp [parseProperty, ha] at h
    | some t =>
      by_cases hr : t < 0 ∨ t > 3600
      · simp [parseProperty, ha, hr] at h
      · have h0 : 0 ≤ t := by omega
        have h1 : t ≤ 3600 := by omega
        rw [parseProperty_ttl_ok normalize kps arg rest t ha h0 h1] at h
        cases h
        refine ⟨⟨arg, rest, t, rfl, ha, h0, h1⟩, ?_⟩
        show t.toNat ≤ 3600
        omega

theorem parseProperty_other (normalize : String → List String) (kps kps1 : KubePods)
    (p : Property) (hname : p.name ≠ "ttl") (h : parseProperty normalize kps p = .ok kps1) :
    kps1.ttl = kps.ttl := by
  unfold parseProperty at h
  split at h
  · cases h; rfl
  split at h
  · split at h
    · split at h
      · cases h; rfl
      split at h
      · cases h; rfl
      split at h
      · cases h; rfl
      split at h
      · cases h; rfl
      · cases h; rfl
    · cases h
  · cases h

theorem parseBlock_ttl (normalize : String → List String) (block : List Property) :
    ∀ kps k, parseBlock normalize kps block = .ok k →
      (kps.ttl ≤ 3600 → k.ttl ≤ 3600) ∧ ((∀ p ∈ block, p.name ≠ "ttl") → k.ttl = kps.ttl) ∧
      ∀ p ∈ block, p.name = "ttl" → acceptableTTL p := by
  induction block with
  | nil =>
    intro kps k h
    simp only [parseBlock] at h
    cases h
    exact ⟨fun h => h, fun _ => rfl, by simp⟩
  | cons p rest ih =>
    intro kps k h
    simp only [parseBlock] at h
    cases hp : parseProperty normalize kps p with
    | error e => rw [hp] at h; cases h
    | ok kps1 =>
      rw [hp] at h
      obtain ⟨a1, a2, a3⟩ := ih kps1 k h
      by_cases hname : p.name = "ttl"
      · obtain ⟨b1, b2⟩ := parseProperty_ttl_some normalize kps kps1 p hname hp
        refine ⟨fun _ => a1 b2, fun hall => absurd hname (hall p (List.mem_cons_self _ _)), ?_⟩
        intro q hq hqn
        rcases List.mem_cons.1 hq with rfl | hq
        · exact b1
        · exact a3 q hq hqn
      · have hsame := parseProperty_other normalize kps kps1 p hname hp
        refine ⟨fun h0 => a1 (by rw [hsame]; exact h0), fun hall => ?_, ?_⟩
        · rw [a2 (fun q hq => hall q (List.mem_cons_of_mem _ hq)), hsame]
        · intro q hq hqn
          rcases List.mem_cons.1 hq with rfl | hq
          · exact absurd hqn hname
          · exact a3 q hq hqn

theorem parseBlock_append (normalize : String → List String) (block : List Property)
    (p : Property) : ∀ kps k0, parseBlock normalize kps block = .ok k0 →
      parseBlock normalize kps (block ++ [p]) = parseProperty normalize k0 p := by
  induction block with
  | nil =>
    intro kps k0 h
    simp only [parseBlock] at h
    cases h
    simp only [List.nil_append, parseBlock]
    cases parseProperty normalize kps p <;> rfl
  | cons q rest ih =>
    intro kps k0 h
    simp only [parseBlock, List.cons_append] at h ⊢
    cases hq : parseProperty normalize kps q with
    | error e => rw [hq] at h; cases h
    | ok kps1 =>
      rw [hq] at h
      simp only []
      exact ih kps1 k0 h

theorem parseBlock_split (normalize : String → List String) (pre : List Property)
    (p : Property) (post : List Property) : ∀ kps k,
    parseBlock normalize kps (pre ++ p :: post) = .ok k →
    ∃ k1 k2, parseBlock normalize kps pre = .ok k1 ∧ parseProperty normalize k1 p = .ok k2 ∧
      parseBlock normalize k2 post = .ok k := by
  induction pre with
  | nil =>
    intro kps k h
    simp only [List.nil_append, parseBlock] at h
    cases hp : parseProperty normalize kps p with
    | error e => rw [hp] at h; cases h
    | ok k2 =>
      rw [hp] at h
      exact ⟨kps, k2, rfl, hp, h⟩
  | cons q rest ih =>
    intro kps k h
    simp only [List.cons_append, parseBlock] at h ⊢
    cases hq : parseProperty normalize kps q with
    | error e => rw [hq] at h; cases h
    | ok kps1 =>
      rw [hq] at h
      exact ih kps1 k h

/-- Whether a property line is accepted does not depend on the instance built so far. -/
theorem parseProperty_accept (normalize : String → List String) (kps kps' : KubePods)
    (p : Property) (k1 : KubePods) (h : parseProperty normalize kps p = .ok k1) :
    ∃ k1', parseProperty normalize kps' p = .ok k1' := by
  unfold parseProperty at h ⊢
  by_cases h1 : p.name = "fallthrough"
  · rw [if_pos h1]; exact ⟨_, rfl⟩
  · rw [if_neg h1] at h ⊢
    by_cases h2 : p.name = "names"
    · rw [if_pos h2] at h ⊢
      match hargs : p.args with
      | [] => rw [hargs] at h; cases h
      | [arg] =>
        simp only []
        by_cases a1 : arg = "echo-ip"
        · rw [if_pos a1]; exact ⟨_, rfl⟩
        · rw [if_neg a1]
          by_cases a2 : arg = "ip"
          · rw [if_pos a2]; exact ⟨_, rfl⟩
          · rw [if_neg a2]
            by_cases a3 : arg = "name"
            · rw [if_pos a3]; exact ⟨_, rfl⟩
            · rw [if_neg a3]
              by_cases a4 : arg = "name-and-ip"
              · rw [if_pos a4]; exact ⟨_, rfl⟩
              · rw [if_neg a4]; exact ⟨_, rfl⟩
      | _ :: _ :: _ => rw [hargs] at h; cases h
    · rw [if_neg h2] at h ⊢
      by_cases h3 : p.name = "ttl"
      · rw [if_pos h3] at h ⊢
        cases hargs : p.args with
        | nil => rw [hargs] at h; cases h
        | cons arg rest =>
          rw [hargs] at h
          simp only [] at h ⊢
          cases ha : Atoi arg with
          | none => rw [ha] at h; cases h
          | some t =>
            rw [ha] at h
            simp only [] at h ⊢
            by_cases hr : t < 0 ∨ t > 3600
            · rw [if_pos hr] at h; cases h
            · rw [if_neg hr]; exact ⟨_, rfl⟩
      · rw [if_neg h3] at h; cases h

theorem parseBlock_accept (normalize : String → List String) (block : List Property) :
    ∀ kps kps' k, parseBlock normalize kps block = .ok k →
      ∃ k', parseBlock normalize kps' block = .ok k' := by
  induction block with
  | nil => intro kps kps' k _; exact ⟨kps', rfl⟩
  | cons p rest ih =>
    intro kps kps' k h
    simp only [parseBlock] at h ⊢
    cases hp : parseProperty normalize kps p with
    | error e => rw [hp] at h; cases h
    | ok k1 =>
      rw [hp] at h
      obtain ⟨k1', hp'⟩ := parseProperty_accept normalize kps kps' p k1 hp
      rw [hp']
      exact ih k1 k1' k h

theorem parseBlock_append_ok (normalize : String → List String) (pre post : List Property) :
    ∀ kps k1 k, parseBlock normalize kps pre = .ok k1 → parseBlock normalize k1 post = .ok k →
      parseBlock normalize kps (pre ++ post) = .ok k := by
  induction pre with
  | nil =>
    intro kps k1 k h1 h2
    simp only [parseBlock] at h1
    cases h1
    exact h2
  | cons q rest ih =>
    intro kps k1 k h1 h2
    simp only [List.cons_append, parseBlock] at h1 ⊢
    cases hq : parseProperty normalize kps q with
    | error e => rw [hq] at h1; cases h1
    | ok kps1 =>
      rw [hq] at h1
      exact ih kps1 k1 k h1 h2

theorem parseBlock_split_append (normalize : String → List String) (pre post : List Property) :
    ∀ kps k, parseBlock normalize kps (pre ++ post) = .ok k →
      ∃ k1, parseBlock normalize kps pre = .ok k1 ∧ parseBlock normalize k1 post = .ok k := by
  induction pre with
  | nil => intro kps k h; exact ⟨kps, rfl, h⟩
  | cons q rest ih =>
    intro kps k h
    simp only [List.cons_append, parseBlock] at h ⊢
    cases hq : parseProperty normalize kps q with
    | error e => rw [hq] at h; cases h
    | ok kps1 =>
      rw [hq] at h
      exact ih kps1 k h

/-- C16: `parseStanza` accepts a `ttl` property whose first argument is the decimal
integer `t` iff `0 <= t <= 3600`, and then the instance has the TTL `t`; for `t < 0`,
`t > 3600`, an argument that is no integer, or no argument, it returns an error and no
instance.  So every instance it returns has a TTL between 0 and 3600, and the TTL 5 when
the stanza has no `ttl` property.  In a stanza of several property lines the TTL of the
instance is the `t` of the last `ttl` line, wherever it stands, and an acceptable `ttl`
line can be put anywhere into a stanza that is accepted. -/
theorem parseStanza_ttl (origins : List String) (normalize : String → List String) :
    (∀ kps arg rest,
      (∃ kps1, parseProperty normalize kps ⟨"ttl", arg :: rest⟩ = .ok kps1) ↔
        ∃ t, Atoi arg = some t ∧ 0 ≤ t ∧ t ≤ 3600) ∧
    (∀ block k0 arg rest t, parseStanza origins normalize block = .ok k0 →
      Atoi arg = some t → 0 ≤ t → t ≤ 3600 →
      parseStanza origins normalize (block ++ [⟨"ttl", arg :: rest⟩]) =
        .ok { k0 with ttl := t.toNat }) ∧
    (∀ block p, p ∈ block → p.name = "ttl" → ¬ acceptableTTL p →
      ∃ e, parseStanza origins normalize block = .error e) ∧
    (∀ block k, parseStanza origins normalize block = .ok k →
      k.ttl ≤ 3600 ∧ ((∀ p ∈ block, p.name ≠ "ttl") → k.ttl = 5)) ∧
    (∀ pre post p arg rest t k, p.name = "ttl" → p.args = arg :: rest → Atoi arg = some t →
      (∀ q ∈ post, q.name ≠ "ttl") →
      parseStanza origins normalize (pre ++ p :: post) = .ok k →
      0 ≤ t ∧ t ≤ 3600 ∧ (k.ttl : Int) = t) ∧
    (∀ pre post p, p.name = "ttl" → acceptableTTL p →
      (∃ k, parseStanza origins normalize (pre ++ post) = .ok k) →
      ∃ k, parseStanza origins normalize (pre ++ p :: post) = .ok k) := by
  refine ⟨?_, ?_, ?_, ?_, ?_, ?_⟩
  · intro kps arg rest
    constructor
    · rintro ⟨kps1, h⟩
      obtain ⟨⟨a, r, t, hargs, ha, h0, h1⟩, -⟩ :=
        parseProperty_ttl_some normalize kps kps1 ⟨"ttl", arg :: rest⟩ rfl h
      simp only [List.cons.injEq] at hargs
      obtain ⟨rfl, -⟩ := hargs
      exact ⟨t, ha, h0, h1⟩
    · rintro ⟨t, ha, h0, h1⟩
      exact ⟨_, parseProperty_ttl_ok normalize kps arg rest t ha h0 h1⟩
  · intro block k0 arg rest t h ha h0 h1
    unfold parseStanza at h ⊢
    rw [parseBlock_append normalize block _ _ k0 h,
      parseProperty_ttl_ok normalize k0 arg rest t ha h0 h1]
  · intro block p hp hname hbad
    unfold parseStanza
    cases h : parseBlock normalize { New origins with mode := modeName } block with
    | error e => exact ⟨e, rfl⟩
    | ok k => exact absurd ((parseBlock_ttl normalize block _ k h).2.2 p hp hname) hbad
  · intro block k h
    unfold parseStanza at h
    obtain ⟨a1, a2, -⟩ := parseBlock_ttl normalize block _ k h
    refine ⟨a1 (by show defaultTTL ≤ 3600; decide), fun hall => ?_⟩
    rw [a2 hall]
    rfl
  · intro pre post p arg rest t k hname hargs ha hpost h
    unfold parseStanza at h
    obtain ⟨k1, k2, -, hp, hrest⟩ := parseBlock_split normalize pre p post _ k h
    obtain ⟨⟨arg', rest', t', hargs', ha', h0, h1⟩, -⟩ :=
      parseProperty_ttl_some normalize k1 k2 p hname hp
    rw [hargs] at hargs'
    simp only [List.cons.injEq] at hargs'
    obtain ⟨rfl, rfl⟩ := hargs'
    rw [ha] at ha'
    simp only [Option.some.injEq] at ha'
    subst ha'
    have hp' : parseProperty normalize k1 p = .ok { k1 with ttl := t.toNat } := by
      have := parseProperty_ttl_ok normalize k1 arg rest t ha h0 h1
      have hpe : p = ⟨"ttl", arg :: rest⟩ := by
        obtain ⟨n, a⟩ := p
        simp only at hname hargs
        rw [hname, hargs]
      rw [hpe]; exact this
    rw [hp'] at hp
    simp only [Except.ok.injEq] at hp
    have hk : k.ttl = k2.ttl := (parseBlock_ttl normalize post k2 k hrest).2.1 hpost
    refine ⟨h0, h1, ?_⟩
    rw [hk, ← hp]
    show ((t.toNat : Nat) : Int) = t
    omega
  · rintro pre post p hname ⟨arg, rest, t, hargs, ha, h0, h1⟩ ⟨k, h⟩
    unfold parseStanza at h ⊢
    obtain ⟨k1, hpre, hpost⟩ := parseBlock_split_append normalize pre post _ k h
    have hpe : p = ⟨"ttl", arg :: rest⟩ := by
      obtain ⟨n, a⟩ := p
      simp only at hname hargs
      rw [hname, hargs]
    have hp := parseProperty_ttl_ok normalize k1 arg rest t ha h0 h1
    obtain ⟨k', hk'⟩ := parseBlock_accept normalize post k1 { k1 with ttl := t.toNat } k hpost
    refine ⟨k', parseBlock_append_ok normalize pre (p :: post) _ k1 k' hpre ?_⟩
    simp only [parseBlock, hpe, hp]
    exact hk'

/-- Witness of C16: the stanza with the properties `names ip` and `ttl 30` gives an
instance with the TTL 30; the stanzas with `ttl 3601`, `ttl -1`, `ttl 5s` and `ttl`
alone give an error; the instance of the stanza `ttl 30`, `names ip` has the TTL 30. -/
theorem parseStanza_ttl_witness :
    (∀ k, parseStanza ["cluster.local."] (fun z => [z])
        ([] ++ ⟨"ttl", ["30"]⟩ :: [⟨"names", ["ip"]⟩]) = .ok k → (k.ttl : Int) = 30) ∧
    (∃ k, parseStanza ["cluster.local."] (fun z => [z])
        [⟨"ttl", ["30"]⟩, ⟨"names", ["ip"]⟩] = .ok k) ∧
    (parseStanza ["cluster.local."] (fun z => [z])
        ([⟨"names", ["ip"]⟩] ++ [⟨"ttl", ["30"]⟩])).toOption.map (fun k => k.ttl) = some 30 ∧
    (∃ e, parseStanza ["cluster.local."] (fun z => [z]) [⟨"ttl", ["3601"]⟩] = .error e) ∧
    (∃ e, parseStanza ["cluster.local."] (fun z => [z]) [⟨"ttl", ["-1"]⟩] = .error e) ∧
    (∃ e, parseStanza ["cluster.local."] (fun z => [z]) [⟨"ttl", ["5s"]⟩] = .error e) ∧
    (∃ e, parseStanza ["cluster.local."] (fun z => [z]) [⟨"ttl", []⟩] = .error e) :=
  ⟨fun k h => ((parseStanza_ttl ["cluster.local."] (fun z => [z])).2.2.2.2.1 []
      [⟨"names", ["ip"]⟩] ⟨"ttl", ["30"]⟩ "30" [] 30 k rfl rfl (by decide) (by decide) h).2.2,
   ⟨_, rfl⟩,
   by rw [(parseStanza_ttl ["cluster.local."] (fun z => [z])).2.1 [⟨"names", ["ip"]⟩]
      { New ["cluster.local."] with mode := modeIP } "30" [] 30 rfl (by decide) (by decide)
      (by decide)]; rfl,
   (parseStanza_ttl ["cluster.local."] (fun z => [z])).2.2.1 _ ⟨"ttl", ["3601"]⟩
     (List.mem_singleton.2 rfl) rfl (by
       rintro ⟨arg, rest, t, hargs, ha, h0, h1⟩
       simp only [List.cons.injEq] at hargs
       obtain ⟨rfl, -⟩ := hargs
       have : Atoi "3601" = some 3601 := by decide
       rw [this] at ha; cases ha; omega),
   (parseStanza_ttl ["cluster.local."] (fun z => [z])).2.2.1 _ ⟨"ttl", ["-1"]⟩
     (List.mem_singleton.2 rfl) rfl (by
       rintro ⟨arg, rest, t, hargs, ha, h0, h1⟩
       simp only [List.cons.injEq] at hargs
       obtain ⟨rfl, -⟩ := hargs
       have : Atoi "-1" = some (-1) := by decide
       rw [this] at ha; cases ha; omega),
   (parseStanza_ttl ["cluster.local."] (fun z => [z])).2.2.1 _ ⟨"ttl", ["5s"]⟩
     (List.mem_singleton.2 rfl) rfl (by
       rintro ⟨arg, rest, t, hargs, ha, h0, h1⟩
       simp only [List.cons.injEq] at hargs
       obtain ⟨rfl, -⟩ := hargs
       have : Atoi "5s" = none := by decide
       rw [this] at ha; cases ha),
   (parseStanza_ttl ["cluster.local."] (fun z => [z])).2.2.1 _ ⟨"ttl", []⟩
     (List.mem_singleton.2 rfl) rfl (by
       rintro ⟨arg, rest, t, hargs, -⟩
       cases hargs)⟩

/-! ## C17: the shutdown -/

theorem stopCalls_stopped (k : KubePods) (h : k.shutdown = true) (n : Nat) :
    stopCalls n k = some (List.replicate n
      { err := some "shutdown already in progress", closed := false, after := k }) := by
  induction n with
  | zero => rfl
  | succ n ih =>
    simp only [stopCalls, stopWatch, h, not_true_eq_false, if_false, ih, Option.map_some',
      List.replicate_succ]

/-- C17: for every instance on which no shutdown was requested yet (the flag unset, the
stop channel open, as `New` leaves it) and every sequence of calls of the function of
`stopWatch`, one after the other: no call panics; the first call returns no error, closes
the stop channel and sets the flag; every later call returns an error, closes nothing and
leaves the instance as it was.  So the stop channel is closed exactly once. -/
theorem stopWatch_once (k : KubePods) (hflag : k.shutdown = false)
    (hopen : k.stopChClosed = false) (n : Nat) :
    stopCalls (n + 1) k =
      some ({ err := none, closed := true, after := stopped k } ::
        List.replicate n
          { err := some "shutdown already in progress", closed := false, after := stopped k }) ∧
    (stopped k).shutdown = true ∧ (stopped k).stopChClosed = true ∧
    ∀ calls, stopCalls (n + 1) k = some calls → (calls.filter fun c => c.closed).length = 1 := by
  have hcalls : stopCalls (n + 1) k =
      some ({ err := none, closed := true, after := stopped k } ::
        List.replicate n
          { err := some "shutdown already in progress", closed := false, after := stopped k }) := by
    simp only [stopCalls, stopWatch, hflag, hopen, Bool.false_eq_true, not_false_eq_true, if_true,
      if_false]
    rw [stopCalls_stopped _ rfl]
    rfl
  refine ⟨hcalls, rfl, rfl, ?_⟩
  intro calls h
  rw [hcalls] at h
  cases h
  simp [List.filter_cons]

/-- Witness of C17: three calls on a new instance. -/
theorem stopWatch_once_witness :
    stopCalls 3 (New testZones) =
      some [{ err := none, closed := true, after := stopped (New testZones) },
            { err := some "shutdown already in progress", closed := false,
              after := stopped (New testZones) },
            { err := some "shutdown already in progress", closed := false,
              after := stopped (New testZones) }] :=
  (stopWatch_once (New testZones) rfl rfl 2).1

/-! ## C18: names of three or more labels -/

/-- C18, as amended: for every mode and every index state (also without an index), a
query of a type other than PTR whose name lies under a configured zone, below its apex,
and has neither one nor two labels below the zone takes the NXDOMAIN path without a read
of the index: the reply is NAME_ERROR with one SOA authority record, unless the
`fallthrough` zones cover the name, in which case the query goes to the next handler. -/
theorem other_label_count (k : KubePods) (state : Request) (now : Nat) (zone : String)
    (segs : List String) (hzone : belowApex k state zone) (htype : state.QType ≠ TypePTR)
    (hseg : podSegments state zone = some segs) (h1 : segs.length ≠ 1)
    (h2 : segs.length ≠ 2) :
    ServeDNS k state now = ⟨nxdomainOrNext k state now, []⟩ := by
  have hne := zones_ne_nil_of_belowApex hzone
  rw [ServeDNS_forward k state now zone segs hzone htype hseg]
  match segs, h1, h2 with
  | [], _, _ => simp [serveSegments, answerItems_nil k state now [] hne]
  | [_], h1, _ => simp at h1
  | [_, _], _, h2 => simp at h2
  | _ :: _ :: _ :: _, _, _ => simp [serveSegments, answerItems_nil k state now [] hne]

/-- Witness of C18 as amended: the type A query for `a.b.c.cluster.local.` in mode `ip`. -/
theorem other_label_count_witness :
    ServeDNS (testPlugin modeIP) (question "a.b.c.cluster.local." TypeA) 1700000000 =
      ⟨nxdomainOrNext (testPlugin modeIP) (question "a.b.c.cluster.local." TypeA) 1700000000,
       []⟩ :=
  other_label_count (testPlugin modeIP) (question "a.b.c.cluster.local." TypeA) 1700000000
    "cluster.local." ["a", "b", "c"] (by decide) (by decide) (by decide) (by decide) (by decide)

/-- Counterexample to C18 as stated: with `fallthrough`, the type A query for
`a.b.c.cluster.local.`, a name of three labels below the zone, gets no NXDOMAIN reply: it
is handed to the next handler. -/
theorem other_label_count_counterexample :
    podSegments (question "a.b.c.cluster.local." TypeA) "cluster.local." =
      some ["a", "b", "c"] ∧
    (ServeDNS (testPluginFall modeIP) (question "a.b.c.cluster.local." TypeA)
      1700000000).outcome = .next { Name := "forward" } ∧
    (ServeDNS (testPluginFall modeIP) (question "a.b.c.cluster.local." TypeA)
      1700000000).outcome ≠ nxdomainReply (testPluginFall modeIP) 1700000000 := by
  decide

/-! ## C19 and C20: the dashed form of an address -/

theorem mem_replaceChars (a b c : Char) (l : List Char) :
    c ∈ replaceChars a b l ↔ (c ∈ l ∧ c ≠ a) ∨ (c = b ∧ a ∈ l) := by
  unfold replaceChars
  simp only [List.mem_map]
  constructor
  · rintro ⟨x, hx, rfl⟩
    by_cases h : x = a
    · subst h; right; simp [hx]
    · left; simp [h, hx]
  · rintro (⟨h1, h2⟩ | ⟨h1, h2⟩)
    · exact ⟨c, h1, by simp [h2]⟩
    · exact ⟨a, h2, by simp [h1]⟩

theorem Contains_single (s : String) (c : Char) :
    Contains s (String.singleton c) = true ↔ c ∈ s.data := by
  unfold Contains
  exact containsChars_single c s.data

theorem Contains_pair_false (s : String) (x : Char) (h : x ∉ s.data) :
    Contains s ⟨[x, x]⟩ = false := by
  unfold Contains
  exact (containsChars_pair x s.data).2 (noPair_of_forall_ne x s.data (fun c hc hcx => h (hcx ▸ hc)))

theorem colon_mem_of_IPv6 (ip : String) (h : isIPv6Literal ip = true) : ':' ∈ ip.data := by
  obtain ⟨a, ha⟩ := Option.isSome_iff_exists.1 h
  obtain ⟨pre, t, e, -⟩ := parseIPv6_first_colon ip.data a ha
  rw [e]; simp

theorem okChar_of_literal (ip : String)
    (h : isIPv4Literal ip = true ∨ isIPv6Literal ip = true) :
    ∀ c ∈ ip.data, isHex c = true ∨ c = ':' ∨ c = '.' := by
  rcases h with h | h
  · obtain ⟨a, ha⟩ := Option.isSome_iff_exists.1 h
    obtain ⟨a1, -, -⟩ := parseIPv4_shape ip.data a ha
    intro c hc
    rcases a1 c hc with h | h
    · exact Or.inl (isHex_of_isDigit h)
    · exact Or.inr (Or.inr h)
  · obtain ⟨a, ha⟩ := Option.isSome_iff_exists.1 h
    exact (parseIPv6_shape ip.data a ha).1

theorem dashIP_of_IPv4 (ip : String) (h : isIPv4Literal ip = true) :
    dashIP ip = ReplaceAll ip '.' '-' ∧ ':' ∉ ip.data := by
  obtain ⟨a, ha⟩ := Option.isSome_iff_exists.1 h
  obtain ⟨a1, a2, -⟩ := parseIPv4_shape ip.data a ha
  have hc : ':' ∉ ip.data := by
    intro hm
    rcases a1 _ hm with h | h
    · exact absurd h (by decide)
    · exact absurd h (by decide)
  have h2 : Contains ip "::" = false := Contains_pair_false ip ':' hc
  refine ⟨?_, hc⟩
  simp [dashIP, Count, a2, h2]

theorem dashIP_branch (ip : String) :
    (Count ip '.' = 3 ∧ Contains ip "::" = false → dashIP ip = ReplaceAll ip '.' '-') ∧
    (¬ (Count ip '.' = 3 ∧ Contains ip "::" = false) → dashIP ip = ReplaceAll ip ':' '-') := by
  constructor
  · rintro ⟨h1, h2⟩
    simp [dashIP, h1, h2]
  · intro h
    unfold dashIP
    rw [if_neg]
    simpa using h

/-- C19, as amended: for every IPv4 literal `ip`, `dashIP ip` is `ip` with every `.`
replaced by `-` and all other characters unchanged; for every IPv6 literal `ip`,
`dashIP ip` is `ip` with every `:` replaced by `-` and all other characters unchanged
exactly when `ip` contains `::` or does not have exactly three dots, that is, unless it
is written in full with a dotted-quad tail. -/
theorem dashIP_replaces (ip : String) :
    (isIPv4Literal ip = true → dashIP ip = ReplaceAll ip '.' '-') ∧
    (isIPv6Literal ip = true →
      (dashIP ip = ReplaceAll ip ':' '-' ↔ (Contains ip "::" = true ∨ Count ip '.' ≠ 3))) := by
  refine ⟨fun h => (dashIP_of_IPv4 ip h).1, fun h => ?_⟩
  have hcolon := colon_mem_of_IPv6 ip h
  constructor
  · intro heq
    by_contra hcon
    have hb : Count ip '.' = 3 ∧ Contains ip "::" = false := by
      constructor
      · by_contra h3; exact hcon (Or.inr h3)
      · cases hc : Contains ip "::" with
        | false => rfl
        | true => exact absurd (Or.inl hc) hcon
    rw [(dashIP_branch ip).1 hb] at heq
    have hdata := congrArg String.data heq
    simp only [ReplaceAll] at hdata
    have h1 : ':' ∈ replaceChars '.' '-' ip.data :=
      (mem_replaceChars _ _ _ _).2 (Or.inl ⟨hcolon, by decide⟩)
    rw [hdata] at h1
    rcases (mem_replaceChars _ _ _ _).1 h1 with ⟨-, h2⟩ | ⟨h2, -⟩
    · exact h2 rfl
    · exact absurd h2 (by decide)
  · intro hcond
    apply (dashIP_branch ip).2
    rintro ⟨h1, h2⟩
    rcases hcond with hc | hc
    · rw [h2] at hc; cases hc
    · exact hc h1

/-- Witness of C19 as amended: the IPv6 literal `1:2:3::4` of the tests. -/
theorem dashIP_replaces_witness :
    dashIP "1:2:3::4" = ReplaceAll "1:2:3::4" ':' '-' ∧ dashIP "1:2:3::4" = "1-2-3--4" :=
  ⟨((dashIP_replaces "1:2:3::4").2 (by decide)).2 (by decide), by decide⟩

/-- Counterexample to C19 as stated: `1:2:3:4:5:6:1.2.3.4` is an IPv6 literal, and
`dashIP` replaces its dots and leaves its colons. -/
theorem dashIP_replaces_counterexample :
    isIPv6Literal "1:2:3:4:5:6:1.2.3.4" = true ∧
    dashIP "1:2:3:4:5:6:1.2.3.4" = "1:2:3:4:5:6:1-2-3-4" ∧
    dashIP "1:2:3:4:5:6:1.2.3.4" ≠ ReplaceAll "1:2:3:4:5:6:1.2.3.4" ':' '-' := by
  decide

/-- The pod domain of a name `d.` under the root zone is `d`. -/
theorem podDomain_of_root (state : Request) (d : String) (hd : d ≠ "")
    (hname : state.Name = d ++ ".") : podDomain state "." = some d := by
  have hpos := len_pos_of_ne_empty d hd
  obtain ⟨ld⟩ := d
  have hdata : state.Name = ⟨ld ++ ['.']⟩ := by
    rw [hname]; rfl
  have hl : len (String.mk ld) = ld.length := rfl
  rw [hl] at hpos
  unfold podDomain
  simp only [hdata, len, List.length_append, List.length_cons, List.length_nil]
  have h1 : ((ld.length + (0 + 1) : Nat) : Int) - ((0 + 1 : Nat) : Int) - 1 =
      ((ld.length - 1 : Nat) : Int) := by omega
  have h2 : ((ld.length + (0 + 1) : Nat) : Int) - ((0 + 1 : Nat) : Int) = (ld.length : Int) := by
    omega
  rw [h1, h2,
    slice_take _ _ (by simp only [List.length_append, List.length_cons, List.length_nil]; omega),
    slice_take _ _ (by simp only [List.length_append, List.length_cons, List.length_nil]; omega)]
  simp

/-- C20, as amended: for every IPv4 literal `ip`, `dashIP ip` contains neither `.` nor
`:`; for every IPv6 literal `ip`, `dashIP ip` contains neither `.` nor `:` exactly when
`ip` has no dotted-quad tail (no `.`).  For these literals the name
`dashIP(ip).ns.<zone>`, with a plain label `ns` (for the root zone the name `dashIP(ip).ns.`),
has exactly the two labels `dashIP ip` and `ns` below the zone. -/
theorem dashIP_label_safe (ip : String) :
    (isIPv4Literal ip = true →
      Contains (dashIP ip) "." = false ∧ Contains (dashIP ip) ":" = false) ∧
    (isIPv6Literal ip = true →
      ((Contains (dashIP ip) "." = false ∧ Contains (dashIP ip) ":" = false) ↔
        Contains ip "." = false)) ∧
    (isIPv4Literal ip = true ∨ (isIPv6Literal ip = true ∧ Contains ip "." = false) →
      ∀ (state : Request) (ns zone : String), plainLabel ns →
        (zone ≠ "." ∧ state.Name = dashIP ip ++ "." ++ ns ++ "." ++ zone) ∨
          (zone = "." ∧ state.Name = dashIP ip ++ "." ++ ns ++ ".") →
        podSegments state zone = some [dashIP ip, ns]) := by
  have hfalse : ∀ (s : String) (c : Char), Contains s (String.singleton c) = false ↔
      c ∉ s.data := by
    intro s c
    rw [← Contains_single s c]
    cases Contains s (String.singleton c) <;> simp
  have hdot : ("." : String) = String.singleton '.' := rfl
  have hcol : (":" : String) = String.singleton ':' := rfl
  have h4 : isIPv4Literal ip = true →
      Contains (dashIP ip) "." = false ∧ Contains (dashIP ip) ":" = false := by
    intro h
    obtain ⟨e, hc⟩ := dashIP_of_IPv4 ip h
    rw [e, hdot, hcol, hfalse, hfalse]
    simp only [ReplaceAll, mem_replaceChars]
    constructor
    · rintro (⟨-, h2⟩ | ⟨h2, -⟩)
      · exact h2 rfl
      · exact absurd h2 (by decide)
    · rintro (⟨h1, -⟩ | ⟨h2, -⟩)
      · exact hc h1
      · exact absurd h2 (by decide)
  have h6 : isIPv6Literal ip = true →
      ((Contains (dashIP ip) "." = false ∧ Contains (dashIP ip) ":" = false) ↔
        Contains ip "." = false) := by
    intro h
    have hcolon := colon_mem_of_IPv6 ip h
    rw [hdot, hcol, hfalse, hfalse, hfalse]
    by_cases hb : Count ip '.' = 3 ∧ Contains ip "::" = false
    · have hd : '.' ∈ ip.data := by
        have : 0 < ip.data.count '.' := by
          have := hb.1; unfold Count at this; omega
        exact List.count_pos_iff.1 this
      rw [(dashIP_branch ip).1 hb]
      simp only [ReplaceAll, mem_replaceChars]
      constructor
      · rintro ⟨-, h2⟩
        exact absurd (Or.inl ⟨hcolon, by decide⟩) h2
      · intro h3; exact absurd hd h3
    · rw [(dashIP_branch ip).2 hb]
      simp only [ReplaceAll, mem_replaceChars]
      constructor
      · rintro ⟨h1, -⟩ hd
        exact h1 (Or.inl ⟨hd, by decide⟩)
      · intro hd
        constructor
        · rintro (⟨h1, -⟩ | ⟨h2, -⟩)
          · exact hd h1
          · exact absurd h2 (by decide)
        · rintro (⟨-, h2⟩ | ⟨h2, -⟩)
          · exact h2 rfl
          · exact absurd h2 (by decide)
  refine ⟨h4, h6, ?_⟩
  intro hlit state ns zone hns hname
  have hsafe : Contains (dashIP ip) "." = false := by
    rcases hlit with h | ⟨h, hd⟩
    · exact (h4 h).1
    · exact ((h6 h).2 hd).1
  have hok := okChar_of_literal ip (by
    rcases hlit with h | ⟨h, -⟩
    · exact Or.inl h
    · exact Or.inr h)
  have hchars : ∀ c ∈ (dashIP ip).data, c ≠ '.' ∧ c ≠ escapeChar := ?_
  · rcases hname with ⟨hz, hname⟩ | ⟨hz, hname⟩
    · exact podSegments_two state (dashIP ip) ns zone hchars hns hz hname
    · subst hz
      have hd : dashIP ip ++ "." ++ ns ≠ "" := by
        intro h
        have h1 := congrArg String.length h
        simp [String.length_append] at h1
        exact absurd h1.1.2 (by decide)
      unfold podSegments
      rw [podDomain_of_root state (dashIP ip ++ "." ++ ns) hd hname, Option.map_some',
        SplitDomainName_two (dashIP ip) ns hchars hns]
  intro c hc
  constructor
  · rintro rfl
    rw [hdot, hfalse] at hsafe
    exact hsafe hc
  · have hmem : c = '-' ∨ c ∈ ip.data := by
      by_cases hb : Count ip '.' = 3 ∧ Contains ip "::" = false
      · rw [(dashIP_branch ip).1 hb] at hc
        rcases (mem_replaceChars _ _ _ _).1 hc with ⟨h1, -⟩ | ⟨h2, -⟩
        · exact Or.inr h1
        · exact Or.inl h2
      · rw [(dashIP_branch ip).2 hb] at hc
        rcases (mem_replaceChars _ _ _ _).1 hc with ⟨h1, -⟩ | ⟨h2, -⟩
        · exact Or.inr h1
        · exact Or.inl h2
    rcases hmem with rfl | hm
    · decide
    · have := hok c hm
      rintro rfl
      exact absurd this (by decide)

/-- Witness of C20 as amended: the dashed form `1-2-3--4` of the IPv6 literal `1:2:3::4`
in the query name `1-2-3--4.namespace1.cluster.local.` of the tests, and the dashed form
`1-2-3-4` of the IPv4 literal `1.2.3.4` in the name `1-2-3-4.namespace1.` under the root
zone. -/
theorem dashIP_label_safe_witness :
    podSegments (question "1-2-3--4.namespace1.cluster.local." TypeAAAA) "cluster.local." =
      some [dashIP "1:2:3::4", "namespace1"] ∧
    podSegments (question "1-2-3-4.namespace1." TypeA) "." =
      some [dashIP "1.2.3.4", "namespace1"] :=
  ⟨(dashIP_label_safe "1:2:3::4").2.2 (Or.inr ⟨by decide, by decide⟩)
     (question "1-2-3--4.namespace1.cluster.local." TypeAAAA) "namespace1" "cluster.local."
     ⟨by decide, by decide⟩ (Or.inl ⟨by decide, by decide⟩),
   (dashIP_label_safe "1.2.3.4").2.2 (Or.inl (by decide))
     (question "1-2-3-4.namespace1." TypeA) "namespace1" "."
     ⟨by decide, by decide⟩ (Or.inr ⟨rfl, by decide⟩)⟩

/-- Counterexample to C20 as stated: `::ffff:1.2.3.4` and `1:2:3:4:5:6:1.2.3.4` are IPv6
literals; the dashed form of the first keeps its dots, so that the name
`--ffff-1.2.3.4.namespace1` has five labels, and the dashed form of the second keeps its
colons. -/
theorem dashIP_label_safe_counterexample :
    isIPv6Literal "::ffff:1.2.3.4" = true ∧
    dashIP "::ffff:1.2.3.4" = "--ffff-1.2.3.4" ∧
    Contains (dashIP "::ffff:1.2.3.4") "." = true ∧
    SplitDomainName (dashIP "::ffff:1.2.3.4" ++ "." ++ "namespace1") =
      ["--ffff-1", "2", "3", "4", "namespace1"] ∧
    isIPv6Literal "1:2:3:4:5:6:1.2.3.4" = true ∧
    Contains (dashIP "1:2:3:4:5:6:1.2.3.4") ":" = true := by
  decide

/-! ## C21 and C22: decoding a label -/

theorem undashIP_branch (token : String) :
    (Count token '-' = 3 ∧ Contains token "--" = false →
      undashIP token = ReplaceAll token '-' '.') ∧
    (¬ (Count token '-' = 3 ∧ Contains token "--" = false) →
      undashIP token = ReplaceAll token '-' ':') := by
  constructor
  · rintro ⟨h1, h2⟩
    simp [undashIP, h1, h2]
  · intro h
    unfold undashIP
    rw [if_neg]
    simpa using h

/-- C21: for every token, if it has exactly three characters `-` and no two of them
adjacent, `undashIP token` is the token with every `-` replaced by `.` and every other
character unchanged; for every other token it is the token with every `-` replaced by
`:` and every other character unchanged. -/
theorem undashIP_cases (token : String) :
    (token.data.count '-' = 3 ∧ noPair '-' token.data →
      (undashIP token).data = token.data.map fun c => if c = '-' then '.' else c) ∧
    (¬ (token.data.count '-' = 3 ∧ noPair '-' token.data) →
      (undashIP token).data = token.data.map fun c => if c = '-' then ':' else c) := by
  have hpair : Contains token "--" = false ↔ noPair '-' token.data :=
    containsChars_pair '-' token.data
  constructor
  · rintro ⟨h1, h2⟩
    rw [(undashIP_branch token).1 ⟨h1, hpair.2 h2⟩]
    rfl
  · intro h
    rw [(undashIP_branch token).2 (fun hc => h ⟨hc.1, hpair.1 hc.2⟩)]
    rfl

/-- Witness of C21: the labels `1-2-3-4` (three single dashes), `1-2-3--4` (four dashes)
and `a--b-c` (three dashes, two of them adjacent). -/
theorem undashIP_cases_witness :
    undashIP "1-2-3-4" = "1.2.3.4" ∧ undashIP "1-2-3--4" = "1:2:3::4" ∧
    undashIP "a--b-c" = "a::b:c" :=
  ⟨String.ext ((undashIP_cases "1-2-3-4").1
     ⟨by decide, (containsChars_pair '-' "1-2-3-4".data).1 (by decide)⟩),
   String.ext ((undashIP_cases "1-2-3--4").2 (fun h => absurd h.1 (by decide))),
   String.ext ((undashIP_cases "a--b-c").2
     (fun h => absurd ((containsChars_pair '-' "a--b-c".data).2 h.2) (by decide)))⟩

/-- C22: for every token with neither `.` nor `:` (every single DNS label),
`dashIP (undashIP token) = token`; so `undashIP` is injective on these tokens. -/
theorem dash_undash_roundtrip (token : String) (hdot : '.' ∉ token.data)
    (hcolon : ':' ∉ token.data) :
    dashIP (undashIP token) = token ∧
    ∀ other : String, '.' ∉ other.data → ':' ∉ other.data →
      undashIP token = undashIP other → token = other := by
  have hround : ∀ t : String, '.' ∉ t.data → ':' ∉ t.data → dashIP (undashIP t) = t := by
    intro t hd hc
    obtain ⟨l⟩ := t
    have hd0 : l.count '.' = 0 := List.count_eq_zero.2 hd
    have hc0 : l.count ':' = 0 := List.count_eq_zero.2 hc
    by_cases hb : Count ⟨l⟩ '-' = 3 ∧ Contains ⟨l⟩ "--" = false
    · rw [(undashIP_branch ⟨l⟩).1 hb]
      have hcnt : Count (ReplaceAll ⟨l⟩ '-' '.') '.' = 3 := by
        have := count_replaceChars '-' '.' (by decide) l
        have h3 : l.count '-' = 3 := hb.1
        show (replaceChars '-' '.' l).count '.' = 3
        omega
      have hnc : ':' ∉ (ReplaceAll ⟨l⟩ '-' '.').data := by
        show ':' ∉ replaceChars '-' '.' l
        rw [mem_replaceChars]
        rintro (⟨h1, -⟩ | ⟨h2, -⟩)
        · exact hc h1
        · exact absurd h2 (by decide)
      rw [(dashIP_branch _).1 ⟨hcnt, Contains_pair_false _ ':' hnc⟩]
      show String.mk (replaceChars '.' '-' (replaceChars '-' '.' l)) = ⟨l⟩
      rw [replaceChars_inv '-' '.' l hd]
    · rw [(undashIP_branch ⟨l⟩).2 hb]
      have hcnt : Count (ReplaceAll ⟨l⟩ '-' ':') '.' ≠ 3 := by
        have hnd : '.' ∉ replaceChars '-' ':' l := by
          rw [mem_replaceChars]
          rintro (⟨h1, -⟩ | ⟨h2, -⟩)
          · exact hd h1
          · exact absurd h2 (by decide)
        have : (replaceChars '-' ':' l).count '.' = 0 := List.count_eq_zero.2 hnd
        show (replaceChars '-' ':' l).count '.' ≠ 3
        omega
      rw [(dashIP_branch _).2 (fun h => hcnt h.1)]
      show String.mk (replaceChars ':' '-' (replaceChars '-' ':' l)) = ⟨l⟩
      rw [replaceChars_inv '-' ':' l hc]
  refine ⟨hround token hdot hcolon, ?_⟩
  intro other hd hc heq
  rw [← hround token hdot hcolon, ← hround other hd hc, heq]

/-- Witness of C22: the label `1-2-3--4` of the tests decodes to `1:2:3::4` and encodes
back. -/
theorem dash_undash_roundtrip_witness :
    undashIP "1-2-3--4" = "1:2:3::4" ∧ dashIP (undashIP "1-2-3--4") = "1-2-3--4" :=
  ⟨by decide, (dash_undash_roundtrip "1-2-3--4" (by decide) (by decide)).1⟩

/-! ## C23: the zone of the SOA record and of the PTR targets -/

theorem aRecords_isA (k : KubePods) (qname : String) (pod : Pod) :
    ∀ r ∈ aRecords k qname pod, isA r = true := by
  intro r hr
  unfold aRecords at hr
  obtain ⟨a, -, ha⟩ := List.mem_filterMap.1 hr
  by_cases hc : Contains a ":" = true
  · simp [hc] at ha
  · simp only [hc, if_false, Bool.false_eq_true] at ha
    cases hp : ParseIP a with
    | none => rw [hp] at ha; simp at ha
    | some ip =>
      rw [hp] at ha
      simp only [Option.map_some', Option.some.injEq] at ha
      rw [← ha]; rfl

theorem aaaaRecords_isAAAA (k : KubePods) (qname : String) (pod : Pod) :
    ∀ r ∈ aaaaRecords k qname pod, isAAAA r = true := by
  intro r hr
  unfold aaaaRecords at hr
  obtain ⟨a, -, ha⟩ := List.mem_filterMap.1 hr
  by_cases hc : Contains a ":" = true
  · simp only [hc, not_true_eq_false, if_false] at ha
    cases hp : ParseIP a with
    | none => rw [hp] at ha; simp at ha
    | some ip =>
      rw [hp] at ha
      simp only [Option.map_some', Option.some.injEq] at ha
      rw [← ha]; rfl
  · simp [hc] at ha

theorem under_of_address (z : String) (r : RR) (h : isA r = true ∨ isAAAA r = true) :
    soaUnder z r ∧ ptrUnder z r := by
  cases r with
  | A hdr a => exact ⟨trivial, trivial⟩
  | AAAA hdr a => exact ⟨trivial, trivial⟩
  | PTR hdr t => rcases h with h | h <;> cases h
  | SOA hdr ns mbox s rf rt e m => rcases h with h | h <;> cases h

/-- The forward loop ends early only with a server failure. -/
theorem addressRecords_error_failure (k : KubePods) (state : Request) (items : List Obj)
    (o : Outcome) (h : addressRecords k state items = .error o) :
    ∃ e, o = .failure RcodeServerFailure e := by
  induction items with
  | nil => simp [addressRecords] at h
  | cons obj rest ih =>
    cases obj with
    | other t =>
      simp only [addressRecords, Except.error.injEq] at h
      exact ⟨_, h.symm⟩
    | pod pod =>
      simp only [addressRecords] at h
      cases hr : addressRecords k state rest with
      | error o2 =>
        rw [hr] at h
        simp only [Except.error.injEq] at h
        subst h
        exact ih hr
      | ok more => rw [hr] at h; simp at h

/-- With a zone configured the reverse loop ends early only with a server failure. -/
theorem ptrRecords_error_failure (k : KubePods) (state : Request) (addr : String)
    (objs : List Obj) (o : Outcome) (hz : k.Zones ≠ [])
    (h : ptrRecords k state addr objs = .error o) :
    ∃ e, o = .failure RcodeServerFailure e := by
  induction objs with
  | nil => simp [ptrRecords] at h
  | cons obj rest ih =>
    cases obj with
    | other t =>
      simp only [ptrRecords, Except.error.injEq] at h
      exact ⟨_, h.symm⟩
    | pod pod =>
      simp only [ptrRecords, ptr_eq k state.QName addr pod hz] at h
      cases hr : ptrRecords k state addr rest with
      | error o2 =>
        rw [hr] at h
        simp only [Except.error.injEq] at h
        subst h
        exact ih hr
      | ok more => rw [hr] at h; simp at h

theorem addressRecords_under (k : KubePods) (state : Request) (z : String) (items : List Obj) :
    ∀ records, addressRecords k state items = .ok records →
      ∀ r ∈ records, soaUnder z r ∧ ptrUnder z r := by
  induction items with
  | nil =>
    intro records h r hr
    simp only [addressRecords, Except.ok.injEq] at h
    subst h
    simp at hr
  | cons obj rest ih =>
    intro records h r hr
    cases obj with
    | other t => simp [addressRecords] at h
    | pod pod =>
      simp only [addressRecords] at h
      cases hrest : addressRecords k state rest with
      | error o => rw [hrest] at h; simp at h
      | ok more =>
        rw [hrest] at h
        simp only [Except.ok.injEq] at h
        subst h
        simp only [List.mem_append] at hr
        rcases hr with (hr | hr) | hr
        · by_cases hA : state.QType = TypeA
          · rw [if_pos hA] at hr
            exact under_of_address z r (Or.inl (aRecords_isA k _ pod r hr))
          · rw [if_neg hA] at hr; simp at hr
        · by_cases hB : state.QType = TypeAAAA
          · rw [if_pos hB] at hr
            exact under_of_address z r (Or.inr (aaaaRecords_isAAAA k _ pod r hr))
          · rw [if_neg hB] at hr; simp at hr
        · exact ih more hrest r hr

theorem ptrAnswers_under (k : KubePods) (qname ip : String) (pod : Pod) :
    ∀ r ∈ ptrAnswers k qname ip pod, soaUnder (zone0 k) r ∧ ptrUnder (zone0 k) r := by
  intro r hr
  unfold ptrAnswers at hr
  simp only [List.mem_append] at hr
  rcases hr with hr | hr
  · by_cases h1 : k.mode = modeName ∨ k.mode = modeNameAndIP
    · rw [if_pos h1] at hr
      simp only [List.mem_singleton] at hr
      subst hr
      exact ⟨trivial, pod.Name, pod.Namespace, rfl⟩
    · rw [if_neg h1] at hr; simp at hr
  · by_cases h2 : k.mode = modeIP ∨ k.mode = modeNameAndIP
    · rw [if_pos h2] at hr
      have := (List.mem_replicate.1 hr).2
      subst this
      exact ⟨trivial, dashIP ip, pod.Namespace, rfl⟩
    · rw [if_neg h2] at hr; simp at hr

theorem ptrRecords_under (k : KubePods) (state : Request) (addr : String) (hz : k.Zones ≠ [])
    (objs : List Obj) :
    ∀ records, ptrRecords k state addr objs = .ok records →
      ∀ r ∈ records, soaUnder (zone0 k) r ∧ ptrUnder (zone0 k) r := by
  induction objs with
  | nil =>
    intro records h r hr
    simp only [ptrRecords, Except.ok.injEq] at h
    subst h
    simp at hr
  | cons obj rest ih =>
    intro records h r hr
    cases obj with
    | other t => simp [ptrRecords] at h
    | pod pod =>
      simp only [ptrRecords, ptr_eq k state.QName addr pod hz] at h
      cases hrest : ptrRecords k state addr rest with
      | error o => rw [hrest] at h; simp at h
      | ok more =>
        rw [hrest] at h
        simp only [Except.ok.injEq] at h
        subst h
        rcases List.mem_append.1 hr with hr | hr
        · exact ptrAnswers_under k state.QName addr pod r hr
        · exact ih more hrest r hr

theorem builtFrom_answer (z : String) (records : List RR)
    (h : ∀ r ∈ records, soaUnder z r ∧ ptrUnder z r) :
    builtFrom z (.reply (writeResponse records [] [] RcodeSuccess) RcodeSuccess) := by
  intro r hr
  simp only [writeResponse, List.not_mem_nil, or_false] at hr
  exact h r hr

theorem builtFrom_NextOrFailure (z : String) (k : KubePods) : builtFrom z (NextOrFailure k) := by
  unfold NextOrFailure
  cases k.Next <;> exact trivial

theorem builtFrom_nodata (k : KubePods) (now : Nat) : builtFrom (zone0 k) (nodata k now) := by
  unfold nodata soa zone0
  cases k.Zones with
  | nil => exact trivial
  | cons z rest =>
    intro r hr
    simp only [writeResponse, List.not_mem_nil, false_or, or_false, List.mem_singleton] at hr
    subst hr
    exact ⟨⟨rfl, rfl, rfl⟩, trivial⟩

theorem builtFrom_nxdomain (k : KubePods) (state : Request) (now : Nat) :
    builtFrom (zone0 k) (nxdomain k state now) := by
  unfold nxdomain
  by_cases ht : Through k.Fall state.Name = true
  · rw [if_pos ht]; exact builtFrom_NextOrFailure _ k
  · rw [if_neg ht]
    unfold soa zone0
    cases k.Zones with
    | nil => exact trivial
    | cons z rest =>
      intro r hr
      simp only [writeResponse, List.not_mem_nil, false_or, or_false, List.mem_singleton] at hr
      subst hr
      exact ⟨⟨rfl, rfl, rfl⟩, trivial⟩

theorem builtFrom_answerItems (k : KubePods) (state : Request) (now : Nat) (items : List Obj)
    (reads : List IndexRead) :
    builtFrom (zone0 k) (answerItems k state now items reads).outcome := by
  unfold answerItems
  by_cases h0 : items.length = 0
  · rw [if_pos h0]; exact builtFrom_nxdomain k state now
  · rw [if_neg h0]
    cases hr : addressRecords k state items with
    | error o =>
      obtain ⟨e, rfl⟩ := addressRecords_error_failure k state items o hr
      exact trivial
    | ok records =>
      exact builtFrom_answer _ records (addressRecords_under k state _ items records hr)

theorem builtFrom_byKey (k : KubePods) (state : Request) (now : Nat) (key : String)
    (items : List Obj) (reads : List IndexRead) :
    builtFrom (zone0 k) (byKey k state now key items reads).outcome := by
  unfold byKey
  by_cases h : k.mode = modeName ∨ k.mode = modeNameAndIP
  · rw [if_pos h]
    cases k.indexer with
    | none => exact trivial
    | some indexer =>
      simp only []
      cases indexer.GetByKey key with
      | error err => exact trivial
      | ok primary =>
        cases primary with
        | none => exact builtFrom_answerItems k state now _ _
        | some item => exact builtFrom_answerItems k state now _ _
  · rw [if_neg h]
    exact builtFrom_answerItems k state now _ _

theorem builtFrom_byDashedIP (k : KubePods) (state : Request) (now : Nat) (key : String) :
    builtFrom (zone0 k) (byDashedIP k state now key).outcome := by
  unfold byDashedIP
  by_cases h : k.mode = modeIP ∨ k.mode = modeNameAndIP
  · rw [if_pos h]
    cases k.indexer with
    | none => exact trivial
    | some indexer =>
      simp only []
      cases indexer.ByIndex "dashedip" key with
      | error err => exact trivial
      | ok items => exact builtFrom_byKey k state now key _ _
  · rw [if_neg h]
    exact builtFrom_byKey k state now key _ _

theorem builtFrom_serveSegments (k : KubePods) (state : Request) (now : Nat)
    (segs : List String) :
    builtFrom (zone0 k) (serveSegments k state now segs).outcome := by
  match segs with
  | [] =>
    simp only [serveSegments]
    exact builtFrom_answerItems k state now _ _
  | [seg0] =>
    simp only [serveSegments]
    by_cases he : k.mode = modeEchoIP
    · rw [if_pos he]; exact builtFrom_nodata k now
    · rw [if_neg he]
      cases k.indexer with
      | none => exact trivial
      | some indexer =>
        simp only []
        cases indexer.ByIndex "namespace" seg0 with
        | error err => exact trivial
        | ok items =>
          simp only []
          by_cases hl : items.length > 0
          · rw [if_pos hl]; exact builtFrom_nodata k now
          · rw [if_neg hl]; exact builtFrom_answerItems k state now _ _
  | [seg0, seg1] =>
    simp only [serveSegments]
    by_cases he : k.mode = modeEchoIP
    · rw [if_pos he]
      cases ParseIP (undashIP seg0) with
      | none => exact builtFrom_nxdomain k state now
      | some ip =>
        simp only []
        by_cases h4 : To4 ip = none
        · rw [if_pos h4]
          exact builtFrom_answer _ _ (fun r hr => by
            simp only [List.mem_singleton] at hr
            subst hr
            exact ⟨trivial, trivial⟩)
        · rw [if_neg h4]
          exact builtFrom_answer _ _ (fun r hr => by
            simp only [List.mem_singleton] at hr
            subst hr
            exact ⟨trivial, trivial⟩)
    · rw [if_neg he]
      exact builtFrom_byDashedIP k state now _
  | _ :: _ :: _ :: _ =>
    simp only [serveSegments]
    exact builtFrom_answerItems k state now _ _

theorem builtFrom_serveReverse (k : KubePods) (state : Request) (now : Nat)
    (hz : k.Zones ≠ []) :
    builtFrom (zone0 k) (serveReverse k state now).outcome := by
  unfold serveReverse
  by_cases ha : ExtractAddressFromReverse state.Name = ""
  · simp only [if_pos ha]; exact builtFrom_nxdomain k state now
  · simp only [if_neg ha]
    by_cases he : k.mode = modeEchoIP
    · simp only [if_pos he]; exact builtFrom_nxdomain k state now
    · simp only [if_neg he]
      cases k.indexer with
      | none => exact trivial
      | some indexer =>
        simp only []
        cases indexer.ByIndex "reverse" (ExtractAddressFromReverse state.Name) with
        | error err => exact trivial
        | ok objs =>
          simp only []
          by_cases hl : objs.length = 0
          · simp only [if_pos hl]; exact builtFrom_nxdomain k state now
          · simp only [if_neg hl]
            cases hr : ptrRecords k state (ExtractAddressFromReverse state.Name) objs with
            | error o =>
              obtain ⟨e, rfl⟩ := ptrRecords_error_failure k state _ objs o hz hr
              exact trivial
            | ok records =>
              exact builtFrom_answer _ records (ptrRecords_under k state _ hz objs records hr)

theorem builtFrom_ServeDNS (k : KubePods) (state : Request) (now : Nat) :
    builtFrom (zone0 k) (ServeDNS k state now).outcome := by
  unfold ServeDNS
  by_cases h : Matches k.Zones state.Name = ""
  · rw [if_pos h]; exact builtFrom_NextOrFailure _ k
  · rw [if_neg h]
    have hz : k.Zones ≠ [] := by
      obtain ⟨z, rest, e⟩ := zones_ne_nil _ _ h
      rw [e]; simp
    cases queryZone k state with
    | none => exact trivial
    | some zone =>
      simp only []
      by_cases h2 : len zone = len state.Name
      · rw [if_pos h2]; exact builtFrom_nodata k now
      · rw [if_neg h2]
        by_cases h3 : state.QType = TypePTR
        · rw [if_pos h3]; exact builtFrom_serveReverse k state now hz
        · rw [if_neg h3]
          cases podDomain state zone with
          | none => exact trivial
          | some d => exact builtFrom_serveSegments k state now _

/-- C23: for every instance and every query, whichever configured zone the name matched,
every SOA record of the reply of `ServeDNS` has the first configured zone `Zones[0]` as its
owner and `ns.dns.` and `hostmaster.dns.` under it as name server and mailbox, and the
target of every PTR record is a name `x.ns.` under `Zones[0]`; `soa` and `ptr` build their
records so.  The result depends on the order of the zone list: two instances that differ
only in the order of their zones answer one query differently. -/
theorem records_from_first_zone (k : KubePods) (state : Request) (now : Nat) :
    builtFrom (zone0 k) (ServeDNS k state now).outcome ∧
    (∀ r, soa k now = some r → r = soaRecord (zone0 k) k.ttl now ∧ soaUnder (zone0 k) r) ∧
    (∀ qname qip pod ptrs, ptr k qname qip pod = some ptrs →
      ∀ r ∈ ptrs, ptrUnder (zone0 k) r) ∧
    (∃ (k1 k2 : KubePods) (q : Request),
      k1.Zones.Perm k2.Zones ∧ k2 = { k1 with Zones := k2.Zones } ∧
      Matches k1.Zones q.Name = Matches k2.Zones q.Name ∧
      (ServeDNS k1 q 0).outcome ≠ (ServeDNS k2 q 0).outcome) := by
  refine ⟨builtFrom_ServeDNS k state now, ?_, ?_, ?_⟩
  · intro r hr
    have hz : k.Zones ≠ [] := by
      intro h
      simp [soa, h] at hr
    rw [soa_eq k now hz] at hr
    simp only [Option.some.injEq] at hr
    subst hr
    exact ⟨rfl, rfl, rfl, rfl⟩
  · intro qname qip pod ptrs hp r hr
    by_cases hz : k.Zones = []
    · have hnil : ptrs = [] := by
        unfold ptr at hp
        simp only [hz] at hp
        by_cases h1 : k.mode = modeName ∨ k.mode = modeNameAndIP
        · simp [h1] at hp
        · have hempty : ∀ ips, ptrIPs k qname qip pod ips = some [] ∨
              ptrIPs k qname qip pod ips = none := by
            intro ips
            induction ips with
            | nil => left; rfl
            | cons ip rest ih =>
              simp only [ptrIPs, hz]
              by_cases hq : qip ≠ ip
              · rw [if_pos hq]; exact ih
              · rw [if_neg hq]; right; rfl
          simp only [h1, if_false] at hp
          by_cases h2 : k.mode = modeIP ∨ k.mode = modeNameAndIP
          · simp only [h2, if_true] at hp
            rcases hempty pod.PodIPs with h | h
            · rw [h] at hp; simp at hp; exact hp
            · rw [h] at hp; simp at hp
          · simp only [h2, if_false] at hp
            simp at hp; exact hp
      rw [hnil] at hr
      simp at hr
    · rw [ptr_eq k qname qip pod hz] at hp
      simp only [Option.some.injEq] at hp
      subst hp
      exact (ptrAnswers_under k qname qip pod r hr).2
  · exact ⟨testPlugin modeName, reorderedPlugin modeName,
      question "4.3.2.1.in-addr.arpa." TypePTR, List.Perm.swap _ _ _, rfl, by decide, by decide⟩

/-- Witness of C23: with the zones `cluster.local.`, `in-addr.arpa.`, `ip6.arpa.` the PTR
query for `4.3.2.1.in-addr.arpa.` in mode `name` is answered with the target
`pod1.namespace1.cluster.local.`; with `in-addr.arpa.` first in the list the target is
`pod1.namespace1.in-addr.arpa.`, and the SOA record of the NXDOMAIN for
`pod9.namespace1.cluster.local.` has the owner `in-addr.arpa.`. -/
theorem records_from_first_zone_witness :
    soaUnder (zone0 (reorderedPlugin modeName)) (soaRecord "in-addr.arpa." 5 0) ∧
    (ServeDNS (testPlugin modeName) (question "4.3.2.1.in-addr.arpa." TypePTR) 0).outcome =
      answerReply [ptrRecord (testPlugin modeName) "4.3.2.1.in-addr.arpa."
        "pod1.namespace1.cluster.local."] ∧
    (ServeDNS (reorderedPlugin modeName) (question "4.3.2.1.in-addr.arpa." TypePTR) 0).outcome =
      answerReply [ptrRecord (reorderedPlugin modeName) "4.3.2.1.in-addr.arpa."
        "pod1.namespace1.in-addr.arpa."] ∧
    Matches (reorderedPlugin modeName).Zones "pod9.namespace1.cluster.local." =
      "cluster.local." ∧
    (ServeDNS (reorderedPlugin modeName)
      (question "pod9.namespace1.cluster.local." TypeA) 0).outcome =
      .reply { Response := true, Rcode := RcodeNameError, Authoritative := true, Answer := [],
               Extra := [], Ns := [soaRecord "in-addr.arpa." 5 0] } RcodeNameError :=
  ⟨((records_from_first_zone (reorderedPlugin modeName)
      (question "pod9.namespace1.cluster.local." TypeA) 0).2.1
      (soaRecord "in-addr.arpa." 5 0) (by decide)).2,
   by decide, by decide, by decide, by decide⟩

/-! ## C24: the record type in mode `echo-ip` -/

theorem To4_isSome_iff (ip : IP) : To4 ip ≠ none ↔ isIPv4Address ip := by
  unfold To4 isIPv4Address
  constructor
  · intro h
    by_cases h4 : ip.length = 4
    · exact Or.inl h4
    · rw [if_neg h4] at h
      by_cases hc : ip.length = 16 ∧ ip.take 10 = List.replicate 10 0 ∧
          (ip.drop 10).take 2 = [255, 255]
      · obtain ⟨h16, ha, hb⟩ := hc
        refine Or.inr ⟨ip.drop 12, by simp [h16], ?_⟩
        have e1 : ip = ip.take 10 ++ ip.drop 10 := (List.take_append_drop 10 ip).symm
        have e2 : ip.drop 10 = (ip.drop 10).take 2 ++ (ip.drop 10).drop 2 :=
          (List.take_append_drop 2 (ip.drop 10)).symm
        have e3 : (ip.drop 10).drop 2 = ip.drop 12 := by rw [List.drop_drop]
        unfold v4InV6
        rw [← ha, ← hb, List.append_assoc, ← e3, ← e2, ← e1]
      · rw [if_neg hc] at h
        exact absurd rfl h
  · rintro (h4 | ⟨f, hf, rfl⟩)
    · rw [if_pos h4]; simp
    · have hlen : (v4InV6 f).length = 16 := by simp [v4InV6, hf]
      have hne : ¬ (v4InV6 f).length = 4 := by rw [hlen]; decide
      have ha : (v4InV6 f).take 10 = List.replicate 10 0 := by
        simp [v4InV6, List.take_append_eq_append_take]
      have hb : ((v4InV6 f).drop 10).take 2 = [255, 255] := by
        simp [v4InV6, List.drop_append_eq_append_drop, List.take_append_eq_append_take]
      rw [if_neg hne, if_pos ⟨hlen, ha, hb⟩]
      simp

theorem parseIPv4Fields_length (l : List Char) : ∀ (prev : Option Char) (val dl : Nat)
    (fields f : List Nat), fields.length ≤ 3 →
    parseIPv4Fields l prev val dl fields = some f → f.length = 4 := by
  induction l with
  | nil =>
    intro prev val dl fields f hf h
    simp only [parseIPv4Fields] at h
    by_cases h3 : fields.length < 3
    · rw [if_pos h3] at h; cases h
    · rw [if_neg h3] at h
      simp only [Option.some.injEq] at h
      subst h
      simp
      omega
  | cons c rest ih =>
    intro prev val dl fields f hf h
    simp only [parseIPv4Fields] at h
    by_cases hd : isDigit c = true
    · rw [if_pos hd] at h
      by_cases h1 : dl = 1 ∧ val = 0
      · rw [if_pos h1] at h; cases h
      · rw [if_neg h1] at h
        by_cases h2 : val * 10 + (c.toNat - 48) > 255
        · rw [if_pos h2] at h; cases h
        · rw [if_neg h2] at h
          exact ih _ _ _ _ _ hf h
    · rw [if_neg hd] at h
      by_cases hdot : c = '.'
      · rw [if_pos hdot] at h
        by_cases h1 : prev = none ∨ rest = [] ∨ prev = some '.'
        · rw [if_pos h1] at h; cases h
        · rw [if_neg h1] at h
          by_cases h2 : fields.length = 3
          · rw [if_pos h2] at h; cases h
          · rw [if_neg h2] at h
            exact ih _ _ _ _ _ (by simp; omega) h
      · rw [if_neg hdot] at h; cases h

/-- The address of a dotted quad is an IPv4 address. -/
theorem ParseIP_of_IPv4Literal (s : String) (ip : IP) (h4 : isIPv4Literal s = true)
    (hp : ParseIP s = some ip) : isIPv4Address ip := by
  obtain ⟨f, hf⟩ := Option.isSome_iff_exists.1 h4
  obtain ⟨a1, -, -⟩ := parseIPv4_shape s.data f hf
  have hc : Contains s ":" = false := by
    cases hcc : Contains s ":" with
    | false => rfl
    | true =>
      have hm : ':' ∈ s.data := (Contains_single s ':').1 hcc
      rcases a1 _ hm with h | h
      · exact absurd h (by decide)
      · exact absurd h (by decide)
  rw [ParseIP_of_no_colon s hc, hf] at hp
  simp only [Option.map_some', Option.some.injEq] at hp
  exact Or.inr ⟨f, parseIPv4Fields_length s.data none 0 0 [] f (by simp) hf, hp.symm⟩

theorem ServeDNS_echo_parsed (k : KubePods) (state : Request) (now : Nat) (zone x ns : String)
    (ip : IP) (hmode : k.mode = modeEchoIP) (hzone : belowApex k state zone)
    (htype : state.QType ≠ TypePTR) (hseg : podSegments state zone = some [x, ns])
    (hip : ParseIP (undashIP x) = some ip) :
    ServeDNS k state now =
      ⟨answerReply [if To4 ip = none then aaaaRecord k state.Name ip
                     else aRecord k state.Name ip], []⟩ := by
  rw [ServeDNS_forward k state now zone _ hzone htype hseg]
  simp only [serveSegments, hmode, if_true, hip]
  by_cases h4 : To4 ip = none
  · simp only [h4, if_true]; rfl
  · simp only [h4, if_false]; rfl

/-- C24: in mode `echo-ip`, for every two-label query `X.ns.<zone>` of a type other than PTR
where `undashIP X` parses as the address `ip`, the reply has exactly one answer record,
which is the A record of `ip` if `ip` is an IPv4 address and the AAAA record of `ip`
otherwise; the run is the same for every other query type but PTR.  An IPv4 address is an
address that `net.IP` holds as one: the address of a dotted quad, which is also the address
of the literal `::ffff:a.b.c.d`. -/
theorem echo_record_family (k : KubePods) (state : Request) (now : Nat) (zone x ns : String)
    (ip : IP) (hmode : k.mode = modeEchoIP) (hzone : belowApex k state zone)
    (htype : state.QType ≠ TypePTR) (hseg : podSegments state zone = some [x, ns])
    (hip : ParseIP (undashIP x) = some ip) :
    (∃ r, ServeDNS k state now = ⟨answerReply [r], []⟩ ∧
      (isA r = true ↔ isIPv4Address ip) ∧ (isAAAA r = true ↔ ¬ isIPv4Address ip)) ∧
    (isIPv4Address ip → ServeDNS k state now = ⟨answerReply [aRecord k state.Name ip], []⟩) ∧
    (¬ isIPv4Address ip →
      ServeDNS k state now = ⟨answerReply [aaaaRecord k state.Name ip], []⟩) ∧
    (isIPv4Literal (undashIP x) = true → isIPv4Address ip) ∧
    (∀ qtype, qtype ≠ TypePTR →
      ServeDNS k { state with QType := qtype } now = ServeDNS k state now) := by
  have hserve := ServeDNS_echo_parsed k state now zone x ns ip hmode hzone htype hseg hip
  have hA : isIPv4Address ip →
      ServeDNS k state now = ⟨answerReply [aRecord k state.Name ip], []⟩ := by
    intro h
    have h4 : To4 ip ≠ none := (To4_isSome_iff ip).2 h
    rw [hserve, if_neg h4]
  have hB : ¬ isIPv4Address ip →
      ServeDNS k state now = ⟨answerReply [aaaaRecord k state.Name ip], []⟩ := by
    intro h
    have h4 : To4 ip = none := by
      by_contra hc
      exact h ((To4_isSome_iff ip).1 hc)
    rw [hserve, if_pos h4]
  refine ⟨?_, hA, hB, fun h => ParseIP_of_IPv4Literal _ ip h hip, ?_⟩
  · by_cases h : isIPv4Address ip
    · exact ⟨_, hA h, by simp [aRecord, isA, h], by simp [aRecord, isAAAA, h]⟩
    · exact ⟨_, hB h, by simp [aaaaRecord, isA, h], by simp [aaaaRecord, isAAAA, h]⟩
  · intro qtype hq
    have hzone' : belowApex k { state with QType := qtype } zone := hzone
    have hseg' : podSegments { state with QType := qtype } zone = some [x, ns] := hseg
    rw [ServeDNS_echo_parsed k { state with QType := qtype } now zone x ns ip hmode hzone' hq
      hseg' hip, hserve]
    rfl

/-- Witness of C24: in mode `echo-ip` the type AAAA query for
`1-2-3-4.namespace1.cluster.local.` gets the A record of 1.2.3.4, the type A query for
`1-2-3--4.namespace1.cluster.local.` gets the AAAA record of 1:2:3::4, and the type AAAA
query for `--ffff-102-304.namespace1.cluster.local.`, whose label decodes to the literal
`::ffff:102:304` of the address 1.2.3.4, gets the A record of 1.2.3.4. -/
theorem echo_record_family_witness :
    ServeDNS (testPlugin modeEchoIP) (question "1-2-3-4.namespace1.cluster.local." TypeAAAA) 0 =
      ⟨answerReply [aRecord (testPlugin modeEchoIP) "1-2-3-4.namespace1.cluster.local."
        (v4InV6 [1, 2, 3, 4])], []⟩ ∧
    ServeDNS (testPlugin modeEchoIP) (question "1-2-3--4.namespace1.cluster.local." TypeA) 0 =
      ⟨answerReply [aaaaRecord (testPlugin modeEchoIP) "1-2-3--4.namespace1.cluster.local."
        [0, 1, 0, 2, 0, 3, 0, 0, 0, 0, 0, 0, 0, 0, 0, 4]], []⟩ ∧
    ServeDNS (testPlugin modeEchoIP)
        (question "--ffff-102-304.namespace1.cluster.local." TypeAAAA) 0 =
      ⟨answerReply [aRecord (testPlugin modeEchoIP) "--ffff-102-304.namespace1.cluster.local."
        (v4InV6 [1, 2, 3, 4])], []⟩ :=
  ⟨(echo_record_family (testPlugin modeEchoIP)
      (question "1-2-3-4.namespace1.cluster.local." TypeAAAA) 0 "cluster.local." "1-2-3-4"
      "namespace1" (v4InV6 [1, 2, 3, 4]) rfl (by decide) (by decide) (by decide)
      (by decide)).2.1 (Or.inr ⟨[1, 2, 3, 4], rfl, rfl⟩),
   (echo_record_family (testPlugin modeEchoIP)
      (question "1-2-3--4.namespace1.cluster.local." TypeA) 0 "cluster.local." "1-2-3--4"
      "namespace1" [0, 1, 0, 2, 0, 3, 0, 0, 0, 0, 0, 0, 0, 0, 0, 4] rfl (by decide) (by decide)
      (by decide) (by decide)).2.2.1
      (fun h => absurd ((To4_isSome_iff _).2 h) (by decide)),
   (echo_record_family (testPlugin modeEchoIP)
      (question "--ffff-102-304.namespace1.cluster.local." TypeAAAA) 0 "cluster.local."
      "--ffff-102-304" "namespace1" (v4InV6 [1, 2, 3, 4]) rfl (by decide) (by decide)
      (by decide) (by decide)).2.1 (Or.inr ⟨[1, 2, 3, 4], rfl, rfl⟩)⟩

/-! ## C25: the bounds of the slices and of `Zones[0]` -/

theorem slice_some (s : String) (lo hi : Int) (h : 0 ≤ lo ∧ lo ≤ hi ∧ hi ≤ (len s : Int)) :
    ∃ r, slice s lo hi = some r ∧ (len r : Int) = hi - lo := by
  unfold slice
  rw [if_pos h]
  refine ⟨_, rfl, ?_⟩
  obtain ⟨h1, h2, h3⟩ := h
  simp only [len, List.length_take, List.length_drop] at h3 ⊢
  omega

theorem slice_none (s : String) (lo hi : Int) (h : ¬ (0 ≤ lo ∧ lo ≤ hi ∧ hi ≤ (len s : Int))) :
    slice s lo hi = none := by
  unfold slice
  rw [if_neg h]

/-- Under a matched zone the slice `state.QName()[len(qname)-len(zone):]` is in bounds and
has the length of the matched zone. -/
theorem queryZone_some (k : KubePods) (state : Request) (hq : state.QName ≠ "") :
    len (Matches k.Zones state.Name) ≤ len state.Name ∧
    ∃ zone, queryZone k state = some zone ∧ len zone = len (Matches k.Zones state.Name) := by
  have hname : state.Name ≠ "" := ToLower_ne_empty _ hq
  have hle := Matches_len_le k.Zones state.Name hname
  have hlen : len state.Name = len state.QName := len_ToLower _
  refine ⟨hle, ?_⟩
  unfold queryZone sliceFrom
  obtain ⟨r, hr, hl⟩ := slice_some state.QName
    ((len state.Name : Int) - (len (Matches k.Zones state.Name) : Int)) (len state.QName)
    ⟨by omega, by omega, le_refl _⟩
  exact ⟨r, hr, by omega⟩

/-- Below the apex of the matched zone the slices of the pod domain are in bounds. -/
theorem podDomain_some (state : Request) (zone : String) (hlt : len zone < len state.Name) :
    ∃ d, podDomain state zone = some d := by
  unfold podDomain
  obtain ⟨d1, h1, -⟩ := slice_some state.Name 0
    ((len state.Name : Int) - (len zone : Int) - 1) ⟨le_refl _, by omega, by omega⟩
  obtain ⟨d2, h2, -⟩ := slice_some state.Name 0
    ((len state.Name : Int) - (len zone : Int)) ⟨le_refl _, by omega, by omega⟩
  rw [h1]
  by_cases hz : zone = "."
  · simp only [if_pos hz, h2]; exact ⟨d2, rfl⟩
  · simp only [if_neg hz]; exact ⟨d1, rfl⟩

theorem nodata_ne_panic (k : KubePods) (now : Nat) (hz : k.Zones ≠ []) :
    nodata k now ≠ .panic := by
  unfold nodata
  rw [soa_eq k now hz]
  simp

theorem NextOrFailure_ne_panic (k : KubePods) : NextOrFailure k ≠ .panic := by
  unfold NextOrFailure
  cases k.Next <;> simp

theorem nxdomain_ne_panic (k : KubePods) (state : Request) (now : Nat) (hz : k.Zones ≠ []) :
    nxdomain k state now ≠ .panic := by
  unfold nxdomain
  rw [soa_eq k now hz]
  by_cases ht : Through k.Fall state.Name = true
  · rw [if_pos ht]; exact NextOrFailure_ne_panic k
  · rw [if_neg ht]; simp

theorem answerItems_ne_panic (k : KubePods) (state : Request) (now : Nat) (items : List Obj)
    (reads : List IndexRead) (hz : k.Zones ≠ []) :
    (answerItems k state now items reads).outcome ≠ .panic := by
  unfold answerItems
  by_cases h0 : items.length = 0
  · rw [if_pos h0]; exact nxdomain_ne_panic k state now hz
  · rw [if_neg h0]
    cases hr : addressRecords k state items with
    | error o =>
      obtain ⟨e, rfl⟩ := addressRecords_error_failure k state items o hr
      simp
    | ok records => simp

theorem byKey_panic (k : KubePods) (state : Request) (now : Nat) (key : String)
    (items : List Obj) (reads : List IndexRead) (hz : k.Zones ≠ [])
    (h : (byKey k state now key items reads).outcome = .panic) : k.indexer = none := by
  unfold byKey at h
  by_cases hm : k.mode = modeName ∨ k.mode = modeNameAndIP
  · rw [if_pos hm] at h
    cases hi : k.indexer with
    | none => rfl
    | some indexer =>
      rw [hi] at h
      simp only [] at h
      cases hg : indexer.GetByKey key with
      | error err => rw [hg] at h; simp at h
      | ok primary =>
        rw [hg] at h
        cases primary with
        | none => exact absurd h (answerItems_ne_panic k state now _ _ hz)
        | some item => exact absurd h (answerItems_ne_panic k state now _ _ hz)
  · rw [if_neg hm] at h
    exact absurd h (answerItems_ne_panic k state now _ _ hz)

theorem byDashedIP_panic (k : KubePods) (state : Request) (now : Nat) (key : String)
    (hz : k.Zones ≠ []) (h : (byDashedIP k state now key).outcome = .panic) :
    k.indexer = none := by
  unfold byDashedIP at h
  by_cases hm : k.mode = modeIP ∨ k.mode = modeNameAndIP
  · rw [if_pos hm] at h
    cases hi : k.indexer with
    | none => rfl
    | some indexer =>
      rw [hi] at h
      simp only [] at h
      cases hd : indexer.ByIndex "dashedip" key with
      | error err => rw [hd] at h; simp at h
      | ok items =>
        rw [hd] at h
        have := byKey_panic k state now key _ _ hz h
        rw [hi] at this
        cases this
  · rw [if_neg hm] at h
    exact byKey_panic k state now key _ _ hz h

theorem serveSegments_panic (k : KubePods) (state : Request) (now : Nat) (segs : List String)
    (hz : k.Zones ≠ []) (h : (serveSegments k state now segs).outcome = .panic) :
    k.indexer = none ∧ k.mode ≠ modeEchoIP := by
  match segs with
  | [] =>
    simp only [serveSegments] at h
    exact absurd h (answerItems_ne_panic k state now _ _ hz)
  | [seg0] =>
    simp only [serveSegments] at h
    by_cases he : k.mode = modeEchoIP
    · rw [if_pos he] at h
      exact absurd h (nodata_ne_panic k now hz)
    · rw [if_neg he] at h
      refine ⟨?_, he⟩
      cases hi : k.indexer with
      | none => rfl
      | some indexer =>
        rw [hi] at h
        simp only [] at h
        cases hd : indexer.ByIndex "namespace" seg0 with
        | error err => rw [hd] at h; simp at h
        | ok items =>
          rw [hd] at h
          simp only [] at h
          by_cases hl : items.length > 0
          · rw [if_pos hl] at h
            exact absurd h (nodata_ne_panic k now hz)
          · rw [if_neg hl] at h
            exact absurd h (answerItems_ne_panic k state now _ _ hz)
  | [seg0, seg1] =>
    simp only [serveSegments] at h
    by_cases he : k.mode = modeEchoIP
    · rw [if_pos he] at h
      cases hp : ParseIP (undashIP seg0) with
      | none =>
        rw [hp] at h
        exact absurd h (nxdomain_ne_panic k state now hz)
      | some ip =>
        rw [hp] at h
        simp only [] at h
        by_cases h4 : To4 ip = none
        · rw [if_pos h4] at h; simp at h
        · rw [if_neg h4] at h; simp at h
    · rw [if_neg he] at h
      exact ⟨byDashedIP_panic k state now _ hz h, he⟩
  | _ :: _ :: _ :: _ =>
    simp only [serveSegments] at h
    exact absurd h (answerItems_ne_panic k state now _ _ hz)

theorem serveReverse_panic (k : KubePods) (state : Request) (now : Nat)
    (hz : k.Zones ≠ []) (h : (serveReverse k state now).outcome = .panic) :
    k.indexer = none ∧ k.mode ≠ modeEchoIP := by
  unfold serveReverse at h
  by_cases ha : ExtractAddressFromReverse state.Name = ""
  · simp only [if_pos ha] at h
    exact absurd h (nxdomain_ne_panic k state now hz)
  · simp only [if_neg ha] at h
    by_cases he : k.mode = modeEchoIP
    · simp only [if_pos he] at h
      exact absurd h (nxdomain_ne_panic k state now hz)
    · simp only [if_neg he] at h
      refine ⟨?_, he⟩
      cases hi : k.indexer with
      | none => rfl
      | some indexer =>
        rw [hi] at h
        simp only [] at h
        cases hd : indexer.ByIndex "reverse" (ExtractAddressFromReverse state.Name) with
        | error err => rw [hd] at h; simp at h
        | ok objs =>
          rw [hd] at h
          simp only [] at h
          by_cases hl : objs.length = 0
          · simp only [if_pos hl] at h
            exact absurd h (nxdomain_ne_panic k state now hz)
          · simp only [if_neg hl] at h
            cases hr : ptrRecords k state (ExtractAddressFromReverse state.Name) objs with
            | error o =>
              rw [hr] at h
              obtain ⟨e, rfl⟩ := ptrRecords_error_failure k state _ objs o hz hr
              simp at h
            | ok records => rw [hr] at h; simp at h

/-- C25: for every query with a name `q` (not the empty text) and the zone `z` that the zone
matching returns for it: `len z ≤ len q`, so the slice that reads the zone off the question
is in bounds and gives a zone of the length of `z`; when that length is less than `len q`
the bounds of the pod-domain slices satisfy `0 ≤ len q - len z - 1 ≤ len q` and
`0 ≤ len q - len z ≤ len q` and the slice expressions give a value; the zone list is not
empty, so that `soa` and `ptr` read `Zones[0]` in bounds; and a run of `ServeDNS` panics
only on a nil index outside mode `echo-ip`, never on an index out of bounds. -/
theorem no_index_out_of_bounds (k : KubePods) (state : Request) (now : Nat)
    (hq : state.QName ≠ "") :
    (len (Matches k.Zones state.Name) ≤ len state.Name ∧
      ∃ zone, queryZone k state = some zone ∧ len zone = len (Matches k.Zones state.Name)) ∧
    (∀ zone, queryZone k state = some zone → len zone ≠ len state.Name →
      (0 ≤ (len state.Name : Int) - (len zone : Int) - 1 ∧
        (len state.Name : Int) - (len zone : Int) - 1 ≤ (len state.Name : Int)) ∧
      (0 ≤ (len state.Name : Int) - (len zone : Int) ∧
        (len state.Name : Int) - (len zone : Int) ≤ (len state.Name : Int)) ∧
      ∃ d, podDomain state zone = some d) ∧
    (Matches k.Zones state.Name ≠ "" →
      k.Zones ≠ [] ∧ (∃ r, soa k now = some r) ∧
      ∀ qname qip pod, ∃ ptrs, ptr k qname qip pod = some ptrs) ∧
    ((ServeDNS k state now).outcome = .panic → k.indexer = none ∧ k.mode ≠ modeEchoIP) := by
  obtain ⟨hle, zone0, hzone0, hlen0⟩ := queryZone_some k state hq
  have hbelow : ∀ zone, queryZone k state = some zone → len zone ≠ len state.Name →
      len zone < len state.Name := by
    intro zone hz hne
    rw [hzone0] at hz
    simp only [Option.some.injEq] at hz
    subst hz
    omega
  have hzones : Matches k.Zones state.Name ≠ "" → k.Zones ≠ [] := by
    intro h
    obtain ⟨z, rest, e⟩ := zones_ne_nil _ _ h
    rw [e]; simp
  refine ⟨⟨hle, zone0, hzone0, hlen0⟩, ?_, ?_, ?_⟩
  · intro zone hz hne
    have hlt := hbelow zone hz hne
    exact ⟨⟨by omega, by omega⟩, ⟨by omega, by omega⟩, podDomain_some state zone hlt⟩
  · intro h
    have hz := hzones h
    exact ⟨hz, ⟨_, soa_eq k now hz⟩, fun qname qip pod => ⟨_, ptr_eq k qname qip pod hz⟩⟩
  · intro hp
    unfold ServeDNS at hp
    by_cases h : Matches k.Zones state.Name = ""
    · rw [if_pos h] at hp
      exact absurd hp (NextOrFailure_ne_panic k)
    · rw [if_neg h, hzone0] at hp
      simp only [] at hp
      have hz := hzones h
      by_cases h2 : len zone0 = len state.Name
      · rw [if_pos h2] at hp
        exact absurd hp (nodata_ne_panic k now hz)
      · rw [if_neg h2] at hp
        by_cases h3 : state.QType = TypePTR
        · rw [if_pos h3] at hp
          exact serveReverse_panic k state now hz hp
        · rw [if_neg h3] at hp
          obtain ⟨d, hd⟩ := podDomain_some state zone0 (hbelow zone0 hzone0 h2)
          rw [hd] at hp
          exact serveSegments_panic k state now _ hz hp

/-- Witness of C25: the query `Pod1.Namespace1.Cluster.Local.` of the tests in mode `name`:
the zone read off the question is `Cluster.Local.`, the pod domain `pod1.namespace1`, and
the run does not panic. -/
theorem no_index_out_of_bounds_witness :
    queryZone (testPlugin modeName) (question "Pod1.Namespace1.Cluster.Local." TypeA) =
      some "Cluster.Local." ∧
    podDomain (question "Pod1.Namespace1.Cluster.Local." TypeA) "Cluster.Local." =
      some "pod1.namespace1" ∧
    (ServeDNS (testPlugin modeName) (question "Pod1.Namespace1.Cluster.Local." TypeA) 0).outcome ≠
      .panic :=
  ⟨by decide, by decide, fun h => by
    have h1 := ((no_index_out_of_bounds (testPlugin modeName)
      (question "Pod1.Namespace1.Cluster.Local." TypeA) 0 (by decide)).2.2.2 h).1
    have h2 : (testPlugin modeName).indexer.isSome = true := rfl
    rw [h1] at h2
    cases h2⟩

end kubepods
